import Mathlib

/-!
# CClientModelRequestManager

A shallow embedding of `Client/mods/deathmatch/logic/CClientModelRequestManager.cpp`.

Pointers (`CModelInfo*`, `CClientEntity*`) are natural numbers used as opaque identities;
a `CModelInfo*` that may be `NULL` is an `Option Nat`.  The game (`g_pGame`, the
`CModelInfo` objects) and the requesting entities live outside the file: their state is an
arbitrary type `σ` and their behaviour is a `Host σ` record passed to every operation.
Every outgoing call is applied to that state and appended to a log, so that calls can be
counted.
-/

namespace ModelRequest

/-! ## Outgoing calls -/

/-- An outgoing call made by the manager (on a `CModelInfo`, on a `CClientEntity`, or to the
debug output), or an `assert` whose condition was false. -/
inductive Event where
  | ModelAddRef (pModel : Nat) (blocking : Bool) (szTag : String)
  | RemoveRef (pModel : Nat)
  | MakeCustomModel (pModel : Nat)
  | Request (pModel : Nat) (blocking : Bool) (szTag : String)
  | ModelRequestCallback (pEntity : Nat) (pModel : Nat)
  | OutputDebugLine (usModelID : Nat)
  | AssertFailed
deriving DecidableEq, Repr

/-- A call back into the manager made from inside `ModelRequestCallback`. -/
inductive Call where
  | Request (usModelID : Nat) (pRequester : Nat)
  | Cancel (pEntity : Nat) (bAllowQueue : Bool)
deriving DecidableEq, Repr

/-- The collaborators of the manager, none of which is defined in this file of the source:
`g_pGame->GetModelInfo`, `g_pGame->IsASyncLoadingEnabled`, `CModelInfo::IsLoaded`, the tick
counter read by the timers, the effect `exec` of each outgoing call on the outside state, and
for each entity and model the calls its `ModelRequestCallback` makes back into the manager. -/
structure Host (σ : Type) where
  GetModelInfo : Nat → Option Nat
  IsLoaded : σ → Nat → Bool
  IsASyncLoadingEnabled : σ → Bool
  GetTickCount : σ → Nat
  exec : σ → Event → σ
  callback : Nat → Nat → List Call

/-! ## The retry timer -/

/-- Modelled from the spec: the class `CElapsedTime` of `requestTimer` is declared outside
the source files; the spec describes it as an elapsed-time counter with a maximum per-tick
increment clamp.  `m_llUpdateTime` is the tick count at the last reading. -/
structure CElapsedTime where
  m_llUpdateTime : Nat
  m_ullElapsedTime : Nat
  m_uiMaxIncrement : Nat
deriving DecidableEq, Repr

namespace CElapsedTime

/-- Modelled from the spec: `Reset ()` restarts the counter at the current tick count. -/
def Reset (t : CElapsedTime) (now : Nat) : CElapsedTime :=
  { t with m_llUpdateTime := now, m_ullElapsedTime := 0 }

/-- Modelled from the spec: `SetMaxIncrement (n)` sets the per-reading clamp. -/
def SetMaxIncrement (t : CElapsedTime) (n : Nat) : CElapsedTime :=
  { t with m_uiMaxIncrement := n }

/-- Modelled from the spec: `Get ()` adds the time since the last reading, clamped to the
maximum increment, and returns the updated timer with the elapsed time. -/
def Get (t : CElapsedTime) (now : Nat) : CElapsedTime × Nat :=
  let elapsed := t.m_ullElapsedTime + min (now - t.m_llUpdateTime) t.m_uiMaxIncrement
  ({ t with m_llUpdateTime := now, m_ullElapsedTime := elapsed }, elapsed)

/-- Modelled from the spec: a default-constructed timer, started at the current tick count
and without an effective clamp. -/
def create (now : Nat) : CElapsedTime :=
  { m_llUpdateTime := now, m_ullElapsedTime := 0, m_uiMaxIncrement := 4294967295 }

end CElapsedTime

/-! ## The manager -/

/-- One pending request, `struct SClientModelRequest`. -/
structure SClientModelRequest where
  pModel : Nat
  pEntity : Nat
  requestTimer : CElapsedTime
deriving DecidableEq, Repr

/-- The members of `CClientModelRequestManager`, together with the outside state `game`
and the log `calls` of outgoing calls (oldest first). -/
structure CClientModelRequestManager (σ : Type) where
  m_Requests : List SClientModelRequest
  m_CancelQueue : List Nat
  m_bDoingPulse : Bool
  game : σ
  calls : List Event

/-- What stops `DoPulse`: the scan ran out of fuel, or it went on with an entry that a call
made from the callback had deleted. -/
inductive Fault where
  | outOfFuel
  | useAfterFree
deriving DecidableEq, Repr

namespace CClientModelRequestManager

variable {σ : Type}

/-- The constructor: `m_bDoingPulse = false`, both lists empty, nothing called yet. -/
def create (game : σ) : CClientModelRequestManager σ :=
  { m_Requests := [], m_CancelQueue := [], m_bDoingPulse := false, game := game, calls := [] }

/-- Make an outgoing call: apply its effect to the outside state and log it. -/
def call (host : Host σ) (w : CClientModelRequestManager σ) (ev : Event) :
    CClientModelRequestManager σ :=
  { w with game := host.exec w.game ev, calls := w.calls ++ [ev] }

/-- An `assert` whose condition is false: logged, and execution goes on as in a build
without assertions. -/
def assertFailed (w : CClientModelRequestManager σ) : CClientModelRequestManager σ :=
  { w with calls := w.calls ++ [Event.AssertFailed] }

/-- `IsLoaded (usModelID)`. -/
def IsLoaded (host : Host σ) (w : CClientModelRequestManager σ) (usModelID : Nat) : Bool :=
  match host.GetModelInfo usModelID with
  | some pInfo => host.IsLoaded w.game pInfo
  | none => false

/-- The loop of `IsRequested` over the list. -/
def isRequestedIn : List SClientModelRequest → Nat → Bool
  | [], _ => false
  | pRequest :: rest, pModelInfo =>
    if pRequest.pModel = pModelInfo then true else isRequestedIn rest pModelInfo

/-- `IsRequested (pModelInfo)`. -/
def IsRequested (w : CClientModelRequestManager σ) (pModelInfo : Nat) : Bool :=
  isRequestedIn w.m_Requests pModelInfo

/-- The loop of `HasRequested` over the list. -/
def hasRequestedIn : List SClientModelRequest → Nat → Bool
  | [], _ => false
  | pRequest :: rest, pRequester =>
    if pRequest.pEntity = pRequester then true else hasRequestedIn rest pRequester

/-- `HasRequested (pRequester)`. -/
def HasRequested (w : CClientModelRequestManager σ) (pRequester : Nat) : Bool :=
  hasRequestedIn w.m_Requests pRequester

/-- The loop of `GetRequestedModelInfo` over the list; `none` is `NULL`. -/
def getRequestedModelInfoIn : List SClientModelRequest → Nat → Option Nat
  | [], _ => none
  | pRequest :: rest, pRequester =>
    if pRequest.pEntity = pRequester then some pRequest.pModel
    else getRequestedModelInfoIn rest pRequester

/-- `GetRequestedModelInfo (pRequester)`. -/
def GetRequestedModelInfo (w : CClientModelRequestManager σ) (pRequester : Nat) : Option Nat :=
  getRequestedModelInfoIn w.m_Requests pRequester

/-- The loop of `GetRequestEntry`: the position of the first entry of the requester (the
iterator passed out) with the entry there, or `none` when the function returns false. -/
def getRequestEntryIn : List SClientModelRequest → Nat → Option (Nat × SClientModelRequest)
  | [], _ => none
  | pRequest :: rest, pRequester =>
    if pRequest.pEntity = pRequester then some (0, pRequest)
    else (getRequestEntryIn rest pRequester).map (fun p => (p.1 + 1, p.2))

/-- `GetRequestEntry (pRequester, iterOut)`. -/
def GetRequestEntry (w : CClientModelRequestManager σ) (pRequester : Nat) :
    Option (Nat × SClientModelRequest) :=
  getRequestEntryIn w.m_Requests pRequester

/-- `RequestBlocking (usModelID, szTag)`. -/
def RequestBlocking (host : Host σ) (w : CClientModelRequestManager σ) (usModelID : Nat)
    (szTag : String) : Bool × CClientModelRequestManager σ :=
  match host.GetModelInfo usModelID with
  | some pInfo =>
    let w1 := call host w (Event.Request pInfo true szTag)
    if host.IsLoaded w1.game pInfo then
      (true, call host w1 (Event.MakeCustomModel pInfo))
    else
      (false, call host w1 (Event.OutputDebugLine usModelID))
  | none => (false, w)

/-- `Request (usModelID, pRequester)`. -/
def Request (host : Host σ) (w : CClientModelRequestManager σ) (usModelID : Nat)
    (pRequester : Nat) : Bool × CClientModelRequestManager σ :=
  match host.GetModelInfo usModelID with
  | some pInfo =>
    match GetRequestEntry w pRequester with
    | some (iter, pEntry) =>
      if pInfo = pEntry.pModel then
        (false, w)
      else
        let w1 := call host w (Event.RemoveRef pEntry.pModel)
        if host.IsLoaded w1.game pInfo then
          let w2 := { w1 with m_Requests := w1.m_Requests.eraseIdx iter }
          (true, call host w2 (Event.MakeCustomModel pInfo))
        else
          let pEntry2 : SClientModelRequest :=
            { pEntry with
              pModel := pInfo
              requestTimer := pEntry.requestTimer.Reset (host.GetTickCount w1.game) }
          let w2 := { w1 with m_Requests := w1.m_Requests.set iter pEntry2 }
          (false, call host w2
            (Event.ModelAddRef pInfo false "CClientModelRequestManager::Request"))
    | none =>
      if host.IsLoaded w.game pInfo then
        (true, call host w (Event.MakeCustomModel pInfo))
      else
        let w1 := call host w
          (Event.ModelAddRef pInfo false "CClientModelRequestManager::Request #2")
        let pEntry : SClientModelRequest :=
          { pModel := pInfo
            pEntity := pRequester
            requestTimer :=
              ((CElapsedTime.create (host.GetTickCount w1.game)).SetMaxIncrement 500).Reset
                (host.GetTickCount w1.game) }
        (false, { w1 with m_Requests := w1.m_Requests ++ [pEntry] })
  | none => (false, w)

/-- The loop of `Cancel` over the list, from the iterator on: every entry of the entity is
unreferenced and erased.  Returns the entries that stay, and the state after the calls. -/
def cancelLoop (host : Host σ) (pEntity : Nat) :
    List SClientModelRequest → CClientModelRequestManager σ →
      List SClientModelRequest × CClientModelRequestManager σ
  | [], w => ([], w)
  | pEntry :: rest, w =>
    if pEntry.pEntity = pEntity then
      cancelLoop host pEntity rest (call host w (Event.RemoveRef pEntry.pModel))
    else
      let r := cancelLoop host pEntity rest w
      (pEntry :: r.1, r.2)

/-- `Cancel (pEntity, bAllowQueue)`. -/
def Cancel (host : Host σ) (w : CClientModelRequestManager σ) (pEntity : Nat)
    (bAllowQueue : Bool) : CClientModelRequestManager σ :=
  if pEntity ∈ w.m_CancelQueue then w
  else if w.m_bDoingPulse then
    let w1 := if bAllowQueue then w else assertFailed w
    { w1 with m_CancelQueue := w1.m_CancelQueue ++ [pEntity] }
  else
    let r := cancelLoop host pEntity w.m_Requests w
    { r.2 with m_Requests := r.1 }

/-- The calls made from inside a callback while the scan of `DoPulse` stands at position
`i`.  A `std::list` iterator stays valid when other nodes are erased or appended, so the
position moves down by one when a node before it is erased; when the node at the position
itself is erased (and its entry deleted) the result is `none`. -/
def reenter (host : Host σ) :
    List Call → CClientModelRequestManager σ → Nat → Option (CClientModelRequestManager σ × Nat)
  | [], w, i => some (w, i)
  | Call.Cancel pEntity bAllowQueue :: rest, w, i =>
    reenter host rest (Cancel host w pEntity bAllowQueue) i
  | Call.Request usModelID pRequester :: rest, w, i =>
    let w1 := (Request host w usModelID pRequester).2
    if w1.m_Requests.length < w.m_Requests.length then
      match GetRequestEntry w pRequester with
      | some (iter, _) =>
        if iter < i then reenter host rest w1 (i - 1)
        else if iter = i then none
        else reenter host rest w1 i
      | none => reenter host rest w1 i
    else reenter host rest w1 i

/-- The scan of `DoPulse` from position `i` of the list on.  `fuel` bounds the number of
entries visited. -/
def pulseLoop (host : Host σ) :
    Nat → CClientModelRequestManager σ → Nat → Except Fault (CClientModelRequestManager σ)
  | 0, _, _ => Except.error Fault.outOfFuel
  | fuel + 1, w, i =>
    match w.m_Requests[i]? with
    | none => Except.ok w
    | some pEntry =>
      if host.IsLoaded w.game pEntry.pModel then
        let w1 := call host w (Event.MakeCustomModel pEntry.pModel)
        let w2 := call host w1 (Event.ModelRequestCallback pEntry.pEntity pEntry.pModel)
        match reenter host (host.callback pEntry.pEntity pEntry.pModel) w2 i with
        | none => Except.error Fault.useAfterFree
        | some (w3, j) =>
          match w3.m_Requests[j]? with
          | none => Except.error Fault.useAfterFree
          | some pEntry3 =>
            let w4 := call host w3 (Event.RemoveRef pEntry3.pModel)
            pulseLoop host fuel { w4 with m_Requests := w4.m_Requests.eraseIdx j } j
      else
        let t := pEntry.requestTimer.Get (host.GetTickCount w.game)
        if t.2 > 2000 then
          let w1 :=
            if host.IsASyncLoadingEnabled w.game then
              call host w
                (Event.Request pEntry.pModel false "CClientModelRequestManager::DoPulse #1")
            else
              call host w
                (Event.Request pEntry.pModel true "CClientModelRequestManager::DoPulse #2")
          let pEntry1 : SClientModelRequest :=
            { pEntry with requestTimer := t.1.Reset (host.GetTickCount w1.game) }
          pulseLoop host fuel { w1 with m_Requests := w1.m_Requests.set i pEntry1 } (i + 1)
        else
          let pEntry1 : SClientModelRequest := { pEntry with requestTimer := t.1 }
          pulseLoop host fuel { w with m_Requests := w.m_Requests.set i pEntry1 } (i + 1)

/-- The drain at the end of `DoPulse`: `Cancel (pEntry, false)` for every entity of the copy
of the cancel queue. -/
def drain (host : Host σ) :
    List Nat → CClientModelRequestManager σ → CClientModelRequestManager σ
  | [], w => w
  | pEntry :: rest, w => drain host rest (Cancel host w pEntry false)

/-- `DoPulse ()`. -/
def DoPulse (host : Host σ) (fuel : Nat) (w : CClientModelRequestManager σ) :
    Except Fault (CClientModelRequestManager σ) :=
  if w.m_Requests.length > 0 then
    match pulseLoop host fuel { w with m_bDoingPulse := true } 0 with
    | Except.error f => Except.error f
    | Except.ok w1 =>
      let w2 := { w1 with m_bDoingPulse := false }
      if w2.m_CancelQueue.length > 0 then
        let cancelQueueCopy := w2.m_CancelQueue
        Except.ok (drain host cancelQueueCopy { w2 with m_CancelQueue := [] })
      else Except.ok w2
  else Except.ok w

/-! ## Sequences of top-level calls -/

/-- A top-level step: a call of the manager, or a change of the outside state between two
calls (a load completing, time passing). -/
inductive Action (σ : Type) where
  | Request (usModelID : Nat) (pRequester : Nat)
  | Cancel (pEntity : Nat) (bAllowQueue : Bool)
  | DoPulse
  | RequestBlocking (usModelID : Nat) (szTag : String)
  | outside (f : σ → σ)

/-- Run one top-level step.  `DoPulse` gets one unit of fuel per entry of the list and one
more, which is enough whenever the callbacks do not call `Request`. -/
def step (host : Host σ) (w : CClientModelRequestManager σ) :
    Action σ → Except Fault (CClientModelRequestManager σ)
  | Action.Request usModelID pRequester => Except.ok (Request host w usModelID pRequester).2
  | Action.Cancel pEntity bAllowQueue => Except.ok (Cancel host w pEntity bAllowQueue)
  | Action.DoPulse => DoPulse host (w.m_Requests.length + 1) w
  | Action.RequestBlocking usModelID szTag =>
    Except.ok (RequestBlocking host w usModelID szTag).2
  | Action.outside f => Except.ok { w with game := f w.game }

/-- Run a sequence of top-level steps, stopping at the first fault. -/
def run (host : Host σ) :
    List (Action σ) → CClientModelRequestManager σ →
      Except Fault (CClientModelRequestManager σ)
  | [], w => Except.ok w
  | a :: rest, w =>
    match step host w a with
    | Except.ok w1 => run host rest w1
    | Except.error f => Except.error f

/-! ## Counting -/

/-- The number of `ModelAddRef` calls on a model in a log. -/
def countAddRef (pModel : Nat) : List Event → Nat
  | [] => 0
  | Event.ModelAddRef p _ _ :: rest =>
    (if p = pModel then 1 else 0) + countAddRef pModel rest
  | _ :: rest => countAddRef pModel rest

/-- The number of `RemoveRef` calls on a model in a log. -/
def countRemoveRef (pModel : Nat) : List Event → Nat
  | [] => 0
  | Event.RemoveRef p :: rest => (if p = pModel then 1 else 0) + countRemoveRef pModel rest
  | _ :: rest => countRemoveRef pModel rest

/-- The number of entries of a list whose field `key` has the value `k`. -/
def countBy (key : SClientModelRequest → Nat) (k : Nat) : List SClientModelRequest → Nat
  | [] => 0
  | pEntry :: rest => (if key pEntry = k then 1 else 0) + countBy key k rest

/-- The number of entries of a list bound to a model. -/
def countBound (pModel : Nat) (l : List SClientModelRequest) : Nat :=
  countBy SClientModelRequest.pModel pModel l

/-- The number of entries of a list whose requester is the given entity. -/
def countOwned (pEntity : Nat) (l : List SClientModelRequest) : Nat :=
  countBy SClientModelRequest.pEntity pEntity l

/-- At most one entry per requester. -/
def AtMostOne (w : CClientModelRequestManager σ) : Prop :=
  ∀ pEntity, countOwned pEntity w.m_Requests ≤ 1

/-- The state between two top-level calls: not in a pulse, nothing queued for cancel. -/
def Quiescent (w : CClientModelRequestManager σ) : Prop :=
  w.m_bDoingPulse = false ∧ w.m_CancelQueue = []

/-- Two states have the same reference balance: for every model, the `ModelAddRef` calls
made from the first to the second, less the `RemoveRef` calls made, is the change of the
number of entries bound to the model. -/
def SameBalance (w w1 : CClientModelRequestManager σ) : Prop :=
  ∀ pModel,
    countAddRef pModel w1.calls + countRemoveRef pModel w.calls + countBound pModel w.m_Requests
      = countAddRef pModel w.calls + countRemoveRef pModel w1.calls
        + countBound pModel w1.m_Requests

/-- An event that is neither a `ModelAddRef` nor a `RemoveRef`. -/
def isNeutral : Event → Bool
  | Event.ModelAddRef _ _ _ => false
  | Event.RemoveRef _ => false
  | _ => true

/-- What every step keeps: at most one entry per requester, the reference balance, and the
pulsing flag. -/
def Keeps (w w1 : CClientModelRequestManager σ) : Prop :=
  (AtMostOne w → AtMostOne w1) ∧ SameBalance w w1 ∧ w1.m_bDoingPulse = w.m_bDoingPulse

/-- The calls by which the scan of `DoPulse` resolves an entry. -/
def isResolution : Event → Bool
  | Event.MakeCustomModel _ => true
  | Event.ModelRequestCallback _ _ => true
  | Event.RemoveRef _ => true
  | _ => false

/-- The call by which the scan of `DoPulse` requests a load again. -/
def isReissue : Event → Bool
  | Event.Request _ _ _ => true
  | _ => false

/-- For each entry of a list in order: `MakeCustomModel` on its model, the callback of its
requester with its model, `RemoveRef` on its model. -/
def resolvedCalls : List SClientModelRequest → List Event
  | [] => []
  | pEntry :: rest =>
    Event.MakeCustomModel pEntry.pModel ::
      Event.ModelRequestCallback pEntry.pEntity pEntry.pModel ::
        Event.RemoveRef pEntry.pModel :: resolvedCalls rest

/-- The requester and the model of an entry. -/
def binding (pEntry : SClientModelRequest) : Nat × Nat :=
  (pEntry.pEntity, pEntry.pModel)

end CClientModelRequestManager

/-- The callbacks make no call back into the manager. -/
def Host.NonReentrant {σ : Type} (host : Host σ) : Prop :=
  ∀ pEntity pModel, host.callback pEntity pModel = []

/-- The callbacks call back only `Cancel` with queueing allowed. -/
def Host.CancelOnly {σ : Type} (host : Host σ) : Prop :=
  ∀ pEntity pModel, ∀ c ∈ host.callback pEntity pModel, ∃ e, c = Call.Cancel e true

/-- A `RemoveRef` on one model does not change whether another model is loaded. -/
def Host.RemoveRefLocal {σ : Type} (host : Host σ) : Prop :=
  ∀ s pModel pOther, pModel ≠ pOther →
    host.IsLoaded (host.exec s (Event.RemoveRef pModel)) pOther = host.IsLoaded s pOther

/-- No outgoing call changes which models are loaded. -/
def Host.StableLoaded {σ : Type} (host : Host σ) : Prop :=
  ∀ s ev pModel, host.IsLoaded (host.exec s ev) pModel = host.IsLoaded s pModel

/-- What the scan of `DoPulse` does from the state `w`, whose list is `done ++ todo` with
the iterator at the head of `todo`, to the state `w1`, when `loaded` tells which models are
loaded throughout: the entries kept, the calls made, the requesters queued. -/
def ScanSpec {σ : Type} (host : Host σ) (loaded : Nat → Bool)
    (done todo : List SClientModelRequest) (w w1 : CClientModelRequestManager σ) : Prop :=
  ∃ (kept : List SClientModelRequest) (L : List Event),
    w1.m_Requests = done ++ kept ∧
    kept.map CClientModelRequestManager.binding =
      (todo.filter (fun x => !loaded x.pModel)).map CClientModelRequestManager.binding ∧
    w1.calls = w.calls ++ L ∧
    L.filter CClientModelRequestManager.isResolution =
      CClientModelRequestManager.resolvedCalls (todo.filter (fun x => loaded x.pModel)) ∧
    (∀ ev ∈ L, CClientModelRequestManager.isResolution ev = true ∨
      CClientModelRequestManager.isReissue ev = true) ∧
    (∀ m, host.IsLoaded w1.game m = loaded m) ∧
    w1.m_bDoingPulse = true ∧
    (∀ e, e ∈ w1.m_CancelQueue ↔
      (e ∈ w.m_CancelQueue ∨
        ∃ x ∈ todo, loaded x.pModel = true ∧
          Call.Cancel e true ∈ host.callback x.pEntity x.pModel)) ∧
    (w.m_CancelQueue.Nodup → w1.m_CancelQueue.Nodup)

/-! ## A small outside world for concrete runs -/

/-- The models that are loaded and the tick count. -/
structure DemoGame where
  loaded : List Nat
  tick : Nat
deriving DecidableEq, Repr

/-- A host over `DemoGame`: model `id` below 100 has the info pointer `1000 + id`, no call
changes the outside state, and the callbacks are given. -/
def demoHost (cb : Nat → Nat → List Call) : Host DemoGame :=
  { GetModelInfo := fun usModelID => if usModelID < 100 then some (1000 + usModelID) else none
    IsLoaded := fun s pModel => decide (pModel ∈ s.loaded)
    IsASyncLoadingEnabled := fun _ => true
    GetTickCount := fun s => s.tick
    exec := fun s _ => s
    callback := cb }

/-- The host in which every callback cancels the request of its own entity. -/
def selfCancelHost : Host DemoGame := demoHost (fun pEntity _ => [Call.Cancel pEntity true])

/-- A state between two calls: entity 1 waits for model 1005, entity 2 for model 1007, and
model 1007 is loaded by now. -/
def demoState : CClientModelRequestManager DemoGame :=
  { m_Requests :=
      [{ pModel := 1005, pEntity := 1,
         requestTimer := { m_llUpdateTime := 0, m_ullElapsedTime := 0, m_uiMaxIncrement := 500 } },
       { pModel := 1007, pEntity := 2,
         requestTimer := { m_llUpdateTime := 0, m_ullElapsedTime := 0, m_uiMaxIncrement := 500 } }]
    m_CancelQueue := []
    m_bDoingPulse := false
    game := { loaded := [1007], tick := 0 }
    calls :=
      [Event.ModelAddRef 1005 false "CClientModelRequestManager::Request #2",
       Event.ModelAddRef 1007 false "CClientModelRequestManager::Request #2"] }

/-- A state inside a pulse: the demo state with the pulsing flag set and entity 2 queued for
cancel. -/
def demoPulsing : CClientModelRequestManager DemoGame :=
  { demoState with m_bDoingPulse := true, m_CancelQueue := [2] }

/-- The host whose callbacks do nothing. -/
def quietHost : Host DemoGame := demoHost (fun _ _ => [])

/-- A host over `DemoGame` in which a blocking load request loads the model at once. -/
def loadingHost : Host DemoGame :=
  { GetModelInfo := fun usModelID => if usModelID < 100 then some (1000 + usModelID) else none
    IsLoaded := fun s pModel => decide (pModel ∈ s.loaded)
    IsASyncLoadingEnabled := fun _ => false
    GetTickCount := fun s => s.tick
    exec := fun s ev =>
      match ev with
      | Event.Request pModel true _ => { s with loaded := pModel :: s.loaded }
      | _ => s
    callback := fun _ _ => [] }

/-- A host over `DemoGame` in which the callback of every entity asks for model 5 on behalf
of the entity. -/
def rerequestHost : Host DemoGame := demoHost (fun pEntity _ => [Call.Request 5 pEntity])

/-- The state in which entity 1 waits for model 1007, and models 1007 and 1005 are both
loaded by now. -/
def rerequestState : CClientModelRequestManager DemoGame :=
  { m_Requests :=
      [{ pModel := 1007, pEntity := 1,
         requestTimer := { m_llUpdateTime := 0, m_ullElapsedTime := 0, m_uiMaxIncrement := 500 } }]
    m_CancelQueue := []
    m_bDoingPulse := false
    game := { loaded := [1007, 1005], tick := 0 }
    calls := [Event.ModelAddRef 1007 false "CClientModelRequestManager::Request #2"] }

/-! ## Reachable states -/

namespace CClientModelRequestManager

variable {σ : Type}

/-- The states between top-level calls: the constructed manager, and what any completed
top-level call, or a change of the outside state, makes of such a state.  `DoPulse` may be
given any fuel. -/
inductive Reachable (host : Host σ) : CClientModelRequestManager σ → Prop where
  | create (game : σ) : Reachable host (create game)
  | Request (w : CClientModelRequestManager σ) (usModelID pRequester : Nat) :
      Reachable host w → Reachable host (Request host w usModelID pRequester).2
  | Cancel (w : CClientModelRequestManager σ) (pEntity : Nat) (bAllowQueue : Bool) :
      Reachable host w → Reachable host (Cancel host w pEntity bAllowQueue)
  | DoPulse (w w1 : CClientModelRequestManager σ) (fuel : Nat) :
      Reachable host w → DoPulse host fuel w = Except.ok w1 → Reachable host w1
  | RequestBlocking (w : CClientModelRequestManager σ) (usModelID : Nat) (szTag : String) :
      Reachable host w → Reachable host (RequestBlocking host w usModelID szTag).2
  | outside (w : CClientModelRequestManager σ) (f : σ → σ) :
      Reachable host w → Reachable host { w with game := f w.game }

/-- The state in which the drain of `DoPulse` starts, from the state `w` at the end of the
scan: the pulsing flag cleared and the cancel queue emptied (its copy is what is drained). -/
def drainStart (w : CClientModelRequestManager σ) : CClientModelRequestManager σ :=
  { w with m_bDoingPulse := false, m_CancelQueue := [] }

/-- Every entry holds a model pointer that the game returned for some ID, so none holds
`NULL`. -/
def FromStore (host : Host σ) (w : CClientModelRequestManager σ) : Prop :=
  ∀ pEntry ∈ w.m_Requests, ∃ usModelID, host.GetModelInfo usModelID = some pEntry.pModel

end CClientModelRequestManager

/-! ## The retry of the scan -/

/-- No outgoing call sets the tick count back. -/
def Host.MonotoneClock {σ : Type} (host : Host σ) : Prop :=
  ∀ s ev, host.GetTickCount s ≤ host.GetTickCount (host.exec s ev)

namespace CClientModelRequestManager

variable {σ : Type}

/-- A load request (blocking or not) on the given model. -/
def isReissueOf (pModel : Nat) : Event → Bool
  | Event.Request p _ _ => decide (p = pModel)
  | _ => false

/-- The timers of the entries bound to the model were last reset at the tick count `t0` or
later: the tick count is at least `t0`, and each such timer was last read no later than now
and holds no more than the time from `t0` to its last reading. -/
def FreshSince (host : Host σ) (pModel t0 : Nat) (w : CClientModelRequestManager σ) : Prop :=
  t0 ≤ host.GetTickCount w.game ∧
  ∀ pEntry ∈ w.m_Requests, pEntry.pModel = pModel →
    pEntry.requestTimer.m_ullElapsedTime + t0 ≤ pEntry.requestTimer.m_llUpdateTime ∧
    pEntry.requestTimer.m_llUpdateTime ≤ host.GetTickCount w.game

/-- The top-level steps considered in a time window: every call but `RequestBlocking`, which
requests a load itself, and the changes of the outside state that do not set the tick count
back. -/
def windowAction (host : Host σ) : Action σ → Prop
  | Action.RequestBlocking _ _ => False
  | Action.outside f => ∀ s, host.GetTickCount s ≤ host.GetTickCount (f s)
  | _ => True

/-- What a step from `w` to `w1` keeps of the time window of a model: the tick count does
not go back, timers that were fresh since `t0` stay so, and when the step ends at a tick
count within `t0 + 2000` it has made no load request on the model. -/
def Window (host : Host σ) (pModel t0 : Nat) (w w1 : CClientModelRequestManager σ) : Prop :=
  host.GetTickCount w.game ≤ host.GetTickCount w1.game ∧
  (FreshSince host pModel t0 w →
    FreshSince host pModel t0 w1 ∧
    (host.GetTickCount w1.game ≤ t0 + 2000 →
      w1.calls.filter (isReissueOf pModel) = w.calls.filter (isReissueOf pModel)))

end CClientModelRequestManager

/-- A host over `DemoGame` in which loading is synchronous and slow: a blocking load request
takes 40 ticks and loads the model, except model 1009, which never loads.  The callbacks do
nothing. -/
def slowHost : Host DemoGame :=
  { GetModelInfo := fun usModelID => if usModelID < 100 then some (1000 + usModelID) else none
    IsLoaded := fun s pModel => decide (pModel ∈ s.loaded) && decide (pModel ≠ 1009)
    IsASyncLoadingEnabled := fun _ => false
    GetTickCount := fun s => s.tick
    exec := fun s ev =>
      match ev with
      | Event.Request pModel true _ => { loaded := pModel :: s.loaded, tick := s.tick + 40 }
      | _ => s
    callback := fun _ _ => [] }

/-- A state between two calls at tick count 300: entities 1 and 2 wait for model 1005, their
timers stood at 1800 and 1900 when last read at tick count 0; entity 3 waits for model 1009,
its timer was reset at tick count 300. -/
def slowState : CClientModelRequestManager DemoGame :=
  { m_Requests :=
      [{ pModel := 1005, pEntity := 1,
         requestTimer :=
           { m_llUpdateTime := 0, m_ullElapsedTime := 1800, m_uiMaxIncrement := 500 } },
       { pModel := 1005, pEntity := 2,
         requestTimer :=
           { m_llUpdateTime := 0, m_ullElapsedTime := 1900, m_uiMaxIncrement := 500 } },
       { pModel := 1009, pEntity := 3,
         requestTimer :=
           { m_llUpdateTime := 300, m_ullElapsedTime := 0, m_uiMaxIncrement := 500 } }]
    m_CancelQueue := []
    m_bDoingPulse := false
    game := { loaded := [], tick := 300 }
    calls := [] }

/-- Let the time pass until the tick count `now` (the tick count never goes back). -/
def advanceTo (now : Nat) (s : DemoGame) : DemoGame :=
  { s with tick := max s.tick now }

/-- A state of the slow host between two calls at tick count 2301: entity 3 waits for model
1009, and its timer stood at 2000 when last read at tick count 2300. -/
def overdueState : CClientModelRequestManager DemoGame :=
  { m_Requests :=
      [{ pModel := 1009, pEntity := 3,
         requestTimer :=
           { m_llUpdateTime := 2300, m_ullElapsedTime := 2000, m_uiMaxIncrement := 500 } }]
    m_CancelQueue := []
    m_bDoingPulse := false
    game := { loaded := [1005], tick := 2301 }
    calls := [] }

/-- Pulses of the slow host at the tick counts 300, 800, 1300, 1800 and 2300. -/
def slowPulses : List (CClientModelRequestManager.Action DemoGame) :=
  [CClientModelRequestManager.Action.DoPulse,
   CClientModelRequestManager.Action.outside (advanceTo 800),
   CClientModelRequestManager.Action.DoPulse,
   CClientModelRequestManager.Action.outside (advanceTo 1300),
   CClientModelRequestManager.Action.DoPulse,
   CClientModelRequestManager.Action.outside (advanceTo 1800),
   CClientModelRequestManager.Action.DoPulse,
   CClientModelRequestManager.Action.outside (advanceTo 2300),
   CClientModelRequestManager.Action.DoPulse]

/-! ## Lemmas on lists and counts -/

namespace CClientModelRequestManager

variable {σ : Type}

theorem countAddRef_append (m : Nat) (l1 l2 : List Event) :
    countAddRef m (l1 ++ l2) = countAddRef m l1 + countAddRef m l2 := by
  induction l1 with
  | nil => simp [countAddRef]
  | cons ev rest ih => cases ev <;> simp [countAddRef, ih, Nat.add_assoc]

theorem countRemoveRef_append (m : Nat) (l1 l2 : List Event) :
    countRemoveRef m (l1 ++ l2) = countRemoveRef m l1 + countRemoveRef m l2 := by
  induction l1 with
  | nil => simp [countRemoveRef]
  | cons ev rest ih => cases ev <;> simp [countRemoveRef, ih, Nat.add_assoc]

theorem countBy_append (key : SClientModelRequest → Nat) (k : Nat)
    (l1 l2 : List SClientModelRequest) :
    countBy key k (l1 ++ l2) = countBy key k l1 + countBy key k l2 := by
  induction l1 with
  | nil => simp [countBy]
  | cons x rest ih => simp [countBy, ih, Nat.add_assoc]

theorem countBy_eraseIdx (key : SClientModelRequest → Nat) (k : Nat) :
    ∀ (l : List SClientModelRequest) (i : Nat) (x : SClientModelRequest),
      l[i]? = some x →
      countBy key k (l.eraseIdx i) + (if key x = k then 1 else 0) = countBy key k l
  | [], i, x, h => by simp at h
  | y :: rest, 0, x, h => by
    simp at h
    subst h
    simp [countBy, Nat.add_comm]
  | y :: rest, i + 1, x, h => by
    simp at h
    have ih := countBy_eraseIdx key k rest i x h
    simp only [List.eraseIdx_cons_succ, countBy]
    omega

theorem countBy_set (key : SClientModelRequest → Nat) (k : Nat) :
    ∀ (l : List SClientModelRequest) (i : Nat) (x y : SClientModelRequest),
      l[i]? = some x →
      countBy key k (l.set i y) + (if key x = k then 1 else 0)
        = countBy key k l + (if key y = k then 1 else 0)
  | [], i, x, y, h => by simp at h
  | z :: rest, 0, x, y, h => by
    simp at h
    subst h
    simp only [List.set_cons_zero, countBy]
    omega
  | z :: rest, i + 1, x, y, h => by
    simp at h
    have ih := countBy_set key k rest i x y h
    simp only [List.set_cons_succ, countBy]
    omega

theorem getRequestEntryIn_none (e : Nat) :
    ∀ l : List SClientModelRequest, getRequestEntryIn l e = none ↔ countOwned e l = 0
  | [] => by simp [getRequestEntryIn, countOwned, countBy]
  | x :: rest => by
    have ih := getRequestEntryIn_none e rest
    unfold countOwned at ih ⊢
    by_cases hx : x.pEntity = e
    · simp [getRequestEntryIn, countBy, hx]
    · simp [getRequestEntryIn, countBy, hx, ih]

theorem getRequestEntryIn_some (e : Nat) :
    ∀ (l : List SClientModelRequest) (i : Nat) (x : SClientModelRequest),
      getRequestEntryIn l e = some (i, x) → l[i]? = some x ∧ x.pEntity = e
  | [], i, x, h => by simp [getRequestEntryIn] at h
  | y :: rest, i, x, h => by
    by_cases hy : y.pEntity = e
    · simp [getRequestEntryIn, hy] at h
      obtain ⟨h1, h2⟩ := h
      subst h1 h2
      simp [hy]
    · simp only [getRequestEntryIn, hy, if_false, Option.map_eq_some'] at h
      obtain ⟨⟨j, z⟩, hz, hjz⟩ := h
      simp at hjz
      obtain ⟨h1, h2⟩ := hjz
      subst h1 h2
      have ih := getRequestEntryIn_some e rest j z hz
      simpa using ih

@[simp] theorem call_m_Requests (host : Host σ) (w : CClientModelRequestManager σ) (ev : Event) :
    (call host w ev).m_Requests = w.m_Requests := rfl

@[simp] theorem call_m_CancelQueue (host : Host σ) (w : CClientModelRequestManager σ)
    (ev : Event) : (call host w ev).m_CancelQueue = w.m_CancelQueue := rfl

@[simp] theorem call_m_bDoingPulse (host : Host σ) (w : CClientModelRequestManager σ)
    (ev : Event) : (call host w ev).m_bDoingPulse = w.m_bDoingPulse := rfl

@[simp] theorem call_calls (host : Host σ) (w : CClientModelRequestManager σ) (ev : Event) :
    (call host w ev).calls = w.calls ++ [ev] := rfl

@[simp] theorem call_game (host : Host σ) (w : CClientModelRequestManager σ) (ev : Event) :
    (call host w ev).game = host.exec w.game ev := rfl

/-! ## What every operation keeps -/

theorem sameBalance_refl (w : CClientModelRequestManager σ) : SameBalance w w := by
  intro m
  omega

theorem sameBalance_trans {w1 w2 w3 : CClientModelRequestManager σ}
    (h12 : SameBalance w1 w2) (h23 : SameBalance w2 w3) : SameBalance w1 w3 := by
  intro m
  have a := h12 m
  have b := h23 m
  omega

/-! ### The six cases of `Request` -/

theorem Request_unknown (host : Host σ) (w : CClientModelRequestManager σ) (id e : Nat)
    (hid : host.GetModelInfo id = none) : Request host w id e = (false, w) := by
  simp [Request, hid]

theorem Request_same (host : Host σ) (w : CClientModelRequestManager σ) (id e pInfo iter : Nat)
    (pEntry : SClientModelRequest) (hid : host.GetModelInfo id = some pInfo)
    (hget : GetRequestEntry w e = some (iter, pEntry)) (hm : pInfo = pEntry.pModel) :
    Request host w id e = (false, w) := by
  simp [Request, hid, hget, hm]

theorem Request_replace (host : Host σ) (w : CClientModelRequestManager σ)
    (id e pInfo iter : Nat) (pEntry : SClientModelRequest)
    (hid : host.GetModelInfo id = some pInfo)
    (hget : GetRequestEntry w e = some (iter, pEntry)) (hm : pInfo ≠ pEntry.pModel)
    (hl : host.IsLoaded (host.exec w.game (Event.RemoveRef pEntry.pModel)) pInfo = true) :
    Request host w id e =
      (true,
        { w with
          m_Requests := w.m_Requests.eraseIdx iter
          game := host.exec (host.exec w.game (Event.RemoveRef pEntry.pModel))
            (Event.MakeCustomModel pInfo)
          calls := w.calls ++ [Event.RemoveRef pEntry.pModel, Event.MakeCustomModel pInfo] }) := by
  simp [Request, hid, hget, hm, hl, call]

theorem Request_rebind (host : Host σ) (w : CClientModelRequestManager σ)
    (id e pInfo iter : Nat) (pEntry : SClientModelRequest)
    (hid : host.GetModelInfo id = some pInfo)
    (hget : GetRequestEntry w e = some (iter, pEntry)) (hm : pInfo ≠ pEntry.pModel)
    (hl : host.IsLoaded (host.exec w.game (Event.RemoveRef pEntry.pModel)) pInfo = false) :
    Request host w id e =
      (false,
        { w with
          m_Requests := w.m_Requests.set iter
            { pModel := pInfo
              pEntity := pEntry.pEntity
              requestTimer := pEntry.requestTimer.Reset
                (host.GetTickCount (host.exec w.game (Event.RemoveRef pEntry.pModel))) }
          game := host.exec (host.exec w.game (Event.RemoveRef pEntry.pModel))
            (Event.ModelAddRef pInfo false "CClientModelRequestManager::Request")
          calls := w.calls ++ [Event.RemoveRef pEntry.pModel,
            Event.ModelAddRef pInfo false "CClientModelRequestManager::Request"] }) := by
  simp [Request, hid, hget, hm, hl, call]

theorem Request_ready (host : Host σ) (w : CClientModelRequestManager σ) (id e pInfo : Nat)
    (hid : host.GetModelInfo id = some pInfo) (hget : GetRequestEntry w e = none)
    (hl : host.IsLoaded w.game pInfo = true) :
    Request host w id e =
      (true,
        { w with
          game := host.exec w.game (Event.MakeCustomModel pInfo)
          calls := w.calls ++ [Event.MakeCustomModel pInfo] }) := by
  simp [Request, hid, hget, hl, call]

theorem Request_new (host : Host σ) (w : CClientModelRequestManager σ) (id e pInfo : Nat)
    (hid : host.GetModelInfo id = some pInfo) (hget : GetRequestEntry w e = none)
    (hl : host.IsLoaded w.game pInfo = false) :
    Request host w id e =
      (false,
        { w with
          m_Requests := w.m_Requests ++
            [{ pModel := pInfo
               pEntity := e
               requestTimer :=
                 { m_llUpdateTime := host.GetTickCount (host.exec w.game
                     (Event.ModelAddRef pInfo false "CClientModelRequestManager::Request #2"))
                   m_ullElapsedTime := 0
                   m_uiMaxIncrement := 500 } }]
          game := host.exec w.game
            (Event.ModelAddRef pInfo false "CClientModelRequestManager::Request #2")
          calls := w.calls ++
            [Event.ModelAddRef pInfo false "CClientModelRequestManager::Request #2"] }) := by
  simp [Request, hid, hget, hl, call, CElapsedTime.create, CElapsedTime.SetMaxIncrement,
    CElapsedTime.Reset]

/-- The case analysis of `Request`, as a rule for proving a property of its result. -/
theorem Request_induct (host : Host σ) (w : CClientModelRequestManager σ) (id e : Nat)
    (P : Bool × CClientModelRequestManager σ → Prop)
    (hunknown : host.GetModelInfo id = none → P (false, w))
    (hsame : ∀ pInfo iter pEntry, host.GetModelInfo id = some pInfo →
      GetRequestEntry w e = some (iter, pEntry) → pInfo = pEntry.pModel → P (false, w))
    (hreplace : ∀ pInfo iter pEntry, host.GetModelInfo id = some pInfo →
      GetRequestEntry w e = some (iter, pEntry) → pInfo ≠ pEntry.pModel →
      host.IsLoaded (host.exec w.game (Event.RemoveRef pEntry.pModel)) pInfo = true →
      P (true,
        { w with
          m_Requests := w.m_Requests.eraseIdx iter
          game := host.exec (host.exec w.game (Event.RemoveRef pEntry.pModel))
            (Event.MakeCustomModel pInfo)
          calls := w.calls ++ [Event.RemoveRef pEntry.pModel, Event.MakeCustomModel pInfo] }))
    (hrebind : ∀ pInfo iter pEntry, host.GetModelInfo id = some pInfo →
      GetRequestEntry w e = some (iter, pEntry) → pInfo ≠ pEntry.pModel →
      host.IsLoaded (host.exec w.game (Event.RemoveRef pEntry.pModel)) pInfo = false →
      P (false,
        { w with
          m_Requests := w.m_Requests.set iter
            { pModel := pInfo
              pEntity := pEntry.pEntity
              requestTimer := pEntry.requestTimer.Reset
                (host.GetTickCount (host.exec w.game (Event.RemoveRef pEntry.pModel))) }
          game := host.exec (host.exec w.game (Event.RemoveRef pEntry.pModel))
            (Event.ModelAddRef pInfo false "CClientModelRequestManager::Request")
          calls := w.calls ++ [Event.RemoveRef pEntry.pModel,
            Event.ModelAddRef pInfo false "CClientModelRequestManager::Request"] }))
    (hready : ∀ pInfo, host.GetModelInfo id = some pInfo → GetRequestEntry w e = none →
      host.IsLoaded w.game pInfo = true →
      P (true,
        { w with
          game := host.exec w.game (Event.MakeCustomModel pInfo)
          calls := w.calls ++ [Event.MakeCustomModel pInfo] }))
    (hnew : ∀ pInfo, host.GetModelInfo id = some pInfo → GetRequestEntry w e = none →
      host.IsLoaded w.game pInfo = false →
      P (false,
        { w with
          m_Requests := w.m_Requests ++
            [{ pModel := pInfo
               pEntity := e
               requestTimer :=
                 { m_llUpdateTime := host.GetTickCount (host.exec w.game
                     (Event.ModelAddRef pInfo false "CClientModelRequestManager::Request #2"))
                   m_ullElapsedTime := 0
                   m_uiMaxIncrement := 500 } }]
          game := host.exec w.game
            (Event.ModelAddRef pInfo false "CClientModelRequestManager::Request #2")
          calls := w.calls ++
            [Event.ModelAddRef pInfo false "CClientModelRequestManager::Request #2"] })) :
    P (Request host w id e) := by
  cases hid : host.GetModelInfo id with
  | none => rw [Request_unknown host w id e hid]; exact hunknown hid
  | some pInfo =>
    cases hget : GetRequestEntry w e with
    | none =>
      cases hl : host.IsLoaded w.game pInfo with
      | true => rw [Request_ready host w id e pInfo hid hget hl]; exact hready pInfo hid hget hl
      | false => rw [Request_new host w id e pInfo hid hget hl]; exact hnew pInfo hid hget hl
    | some p =>
      obtain ⟨iter, pEntry⟩ := p
      by_cases hm : pInfo = pEntry.pModel
      · rw [Request_same host w id e pInfo iter pEntry hid hget hm]
        exact hsame pInfo iter pEntry hid hget hm
      · cases hl : host.IsLoaded (host.exec w.game (Event.RemoveRef pEntry.pModel)) pInfo with
        | true =>
          rw [Request_replace host w id e pInfo iter pEntry hid hget hm hl]
          exact hreplace pInfo iter pEntry hid hget hm hl
        | false =>
          rw [Request_rebind host w id e pInfo iter pEntry hid hget hm hl]
          exact hrebind pInfo iter pEntry hid hget hm hl

theorem Request_m_bDoingPulse (host : Host σ) (w : CClientModelRequestManager σ) (id e : Nat) :
    (Request host w id e).2.m_bDoingPulse = w.m_bDoingPulse := by
  refine Request_induct host w id e (fun r => r.2.m_bDoingPulse = w.m_bDoingPulse)
    ?_ ?_ ?_ ?_ ?_ ?_ <;> intros <;> rfl

theorem Request_m_CancelQueue (host : Host σ) (w : CClientModelRequestManager σ) (id e : Nat) :
    (Request host w id e).2.m_CancelQueue = w.m_CancelQueue := by
  refine Request_induct host w id e (fun r => r.2.m_CancelQueue = w.m_CancelQueue)
    ?_ ?_ ?_ ?_ ?_ ?_ <;> intros <;> rfl

theorem Request_atMostOne (host : Host σ) (w : CClientModelRequestManager σ) (id e : Nat)
    (h : AtMostOne w) : AtMostOne (Request host w id e).2 := by
  refine Request_induct host w id e (fun r => AtMostOne r.2) ?_ ?_ ?_ ?_ ?_ ?_
  · intro _; exact h
  · intros; exact h
  · intro pInfo iter pEntry _ hget _ _ e1
    have hg := getRequestEntryIn_some e w.m_Requests iter pEntry hget
    have h1 := h e1
    have h2 := countBy_eraseIdx SClientModelRequest.pEntity e1 w.m_Requests iter pEntry hg.1
    simp only [countOwned] at h1 ⊢
    omega
  · intro pInfo iter pEntry _ hget _ _ e1
    have hg := getRequestEntryIn_some e w.m_Requests iter pEntry hget
    have h1 := h e1
    have h2 := countBy_set SClientModelRequest.pEntity e1 w.m_Requests iter pEntry
      { pModel := pInfo
        pEntity := pEntry.pEntity
        requestTimer := pEntry.requestTimer.Reset
          (host.GetTickCount (host.exec w.game (Event.RemoveRef pEntry.pModel))) } hg.1
    simp only [countOwned] at h1 h2 ⊢
    omega
  · intros; exact h
  · intro pInfo _ hget _ e1
    have hg := (getRequestEntryIn_none e w.m_Requests).1 hget
    have h1 := h e1
    simp only [countOwned, countBy_append, countBy] at h1 hg ⊢
    by_cases he : e = e1
    · subst he
      simp [hg]
    · simp [he, h1]

theorem Request_sameBalance (host : Host σ) (w : CClientModelRequestManager σ) (id e : Nat) :
    SameBalance w (Request host w id e).2 := by
  refine Request_induct host w id e (fun r => SameBalance w r.2) ?_ ?_ ?_ ?_ ?_ ?_
  · intro _; exact sameBalance_refl w
  · intros; exact sameBalance_refl w
  · intro pInfo iter pEntry _ hget _ _ m
    have hg := getRequestEntryIn_some e w.m_Requests iter pEntry hget
    have h2 := countBy_eraseIdx SClientModelRequest.pModel m w.m_Requests iter pEntry hg.1
    simp only [countBound, countAddRef_append, countRemoveRef_append, countAddRef,
      countRemoveRef] at h2 ⊢
    omega
  · intro pInfo iter pEntry _ hget _ _ m
    have hg := getRequestEntryIn_some e w.m_Requests iter pEntry hget
    have h2 := countBy_set SClientModelRequest.pModel m w.m_Requests iter pEntry
      { pModel := pInfo
        pEntity := pEntry.pEntity
        requestTimer := pEntry.requestTimer.Reset
          (host.GetTickCount (host.exec w.game (Event.RemoveRef pEntry.pModel))) } hg.1
    simp only [countBound, countAddRef_append, countRemoveRef_append, countAddRef,
      countRemoveRef] at h2 ⊢
    omega
  · intro pInfo _ _ _ m
    simp only [countBound, countAddRef_append, countRemoveRef_append, countAddRef,
      countRemoveRef]
    omega
  · intro pInfo _ _ _ m
    simp only [countBound, countBy_append, countBy, countAddRef_append,
      countRemoveRef_append, countAddRef, countRemoveRef]
    omega

/-! ### `Cancel` -/

theorem cancelLoop_fields (host : Host σ) (e : Nat) :
    ∀ (l : List SClientModelRequest) (w : CClientModelRequestManager σ),
      (cancelLoop host e l w).1 = l.filter (fun x => decide (x.pEntity ≠ e)) ∧
      (cancelLoop host e l w).2.calls =
        w.calls ++ (l.filter (fun x => decide (x.pEntity = e))).map
          (fun x => Event.RemoveRef x.pModel) ∧
      (cancelLoop host e l w).2.m_Requests = w.m_Requests ∧
      (cancelLoop host e l w).2.m_CancelQueue = w.m_CancelQueue ∧
      (cancelLoop host e l w).2.m_bDoingPulse = w.m_bDoingPulse
  | [], w => by simp [cancelLoop]
  | x :: rest, w => by
    by_cases hx : x.pEntity = e
    · have ih := cancelLoop_fields host e rest (call host w (Event.RemoveRef x.pModel))
      simp only [cancelLoop, hx, if_true]
      simp [ih, hx]
    · have ih := cancelLoop_fields host e rest w
      simp only [cancelLoop, hx, if_false]
      simp [ih, hx]

theorem cancelLoop_absent (host : Host σ) (e : Nat) :
    ∀ (l : List SClientModelRequest) (w : CClientModelRequestManager σ),
      countOwned e l = 0 → cancelLoop host e l w = (l, w)
  | [], w, _ => by simp [cancelLoop]
  | x :: rest, w, h => by
    simp only [countOwned, countBy] at h
    by_cases hx : x.pEntity = e
    · simp [hx] at h
    · simp only [hx, if_false, Nat.zero_add] at h
      have ih := cancelLoop_absent host e rest w h
      simp [cancelLoop, hx, ih]

theorem countBy_filter_le (key : SClientModelRequest → Nat) (k : Nat)
    (p : SClientModelRequest → Bool) :
    ∀ l : List SClientModelRequest, countBy key k (l.filter p) ≤ countBy key k l
  | [] => by simp [countBy]
  | x :: rest => by
    have ih := countBy_filter_le key k p rest
    by_cases hp : p x = true
    · simp only [List.filter_cons, hp, if_true, countBy]
      omega
    · simp only [List.filter_cons, hp, countBy]
      simp only [Bool.false_eq_true, if_false]
      omega

theorem countOwned_filter_ne (e : Nat) :
    ∀ l : List SClientModelRequest,
      countOwned e (l.filter (fun x => decide (x.pEntity ≠ e))) = 0
  | [] => by simp [countOwned, countBy]
  | x :: rest => by
    have ih := countOwned_filter_ne e rest
    unfold countOwned at ih ⊢
    by_cases hx : x.pEntity = e
    · simp [List.filter_cons, hx] at ih ⊢
      exact ih
    · simp [List.filter_cons, hx, countBy] at ih ⊢
      exact ih

theorem countAddRef_map_RemoveRef (m : Nat) :
    ∀ l : List SClientModelRequest,
      countAddRef m (l.map (fun x => Event.RemoveRef x.pModel)) = 0
  | [] => by simp [countAddRef]
  | x :: rest => by simp [countAddRef, countAddRef_map_RemoveRef m rest]

theorem countRemoveRef_map_filter (m e : Nat) :
    ∀ l : List SClientModelRequest,
      countRemoveRef m ((l.filter (fun x => decide (x.pEntity = e))).map
          (fun x => Event.RemoveRef x.pModel))
        + countBound m (l.filter (fun x => decide (x.pEntity ≠ e)))
        = countBound m l
  | [] => by simp [countRemoveRef, countBound, countBy]
  | x :: rest => by
    have ih := countRemoveRef_map_filter m e rest
    unfold countBound at ih ⊢
    by_cases hx : x.pEntity = e
    · simp only [List.filter_cons, hx, decide_True, if_true, List.map_cons, countRemoveRef,
        countBy, ne_eq, not_true_eq_false, decide_False, Bool.false_eq_true, if_false]
      simp only [ne_eq] at ih
      omega
    · simp only [List.filter_cons, hx, decide_False, Bool.false_eq_true, if_false, countBy,
        ne_eq, not_false_eq_true, decide_True, if_true]
      simp only [ne_eq] at ih
      omega

theorem Cancel_queued (host : Host σ) (w : CClientModelRequestManager σ) (e : Nat) (b : Bool)
    (hq : e ∈ w.m_CancelQueue) : Cancel host w e b = w := by
  simp [Cancel, hq]

theorem Cancel_pulsing (host : Host σ) (w : CClientModelRequestManager σ) (e : Nat)
    (hq : e ∉ w.m_CancelQueue) (hp : w.m_bDoingPulse = true) :
    Cancel host w e true = { w with m_CancelQueue := w.m_CancelQueue ++ [e] } := by
  simp [Cancel, hq, hp]

theorem Cancel_idle (host : Host σ) (w : CClientModelRequestManager σ) (e : Nat) (b : Bool)
    (hq : e ∉ w.m_CancelQueue) (hp : w.m_bDoingPulse = false) :
    Cancel host w e b =
      { (cancelLoop host e w.m_Requests w).2 with
        m_Requests := (cancelLoop host e w.m_Requests w).1 } := by
  simp [Cancel, hq, hp]

theorem Cancel_m_bDoingPulse (host : Host σ) (w : CClientModelRequestManager σ) (e : Nat)
    (b : Bool) : (Cancel host w e b).m_bDoingPulse = w.m_bDoingPulse := by
  unfold Cancel
  split
  · rfl
  · split
    · cases b <;> rfl
    · exact (cancelLoop_fields host e w.m_Requests w).2.2.2.2

theorem Cancel_atMostOne (host : Host σ) (w : CClientModelRequestManager σ) (e : Nat)
    (b : Bool) (h : AtMostOne w) : AtMostOne (Cancel host w e b) := by
  unfold Cancel
  split
  · exact h
  · split
    · cases b <;> exact h
    · intro e1
      have h1 := h e1
      have h2 := countBy_filter_le SClientModelRequest.pEntity e1
        (fun x => decide (x.pEntity ≠ e)) w.m_Requests
      simp only [countOwned, (cancelLoop_fields host e w.m_Requests w).1] at h1 ⊢
      omega

theorem Cancel_sameBalance (host : Host σ) (w : CClientModelRequestManager σ) (e : Nat)
    (b : Bool) : SameBalance w (Cancel host w e b) := by
  unfold Cancel
  split
  · exact sameBalance_refl w
  · split
    · cases b
      · intro m
        simp [assertFailed, countAddRef_append, countRemoveRef_append, countAddRef,
          countRemoveRef]
      · exact sameBalance_refl w
    · intro m
      have hf := cancelLoop_fields host e w.m_Requests w
      have h2 := countRemoveRef_map_filter m e w.m_Requests
      have h3 := countAddRef_map_RemoveRef m
        (w.m_Requests.filter (fun x => decide (x.pEntity = e)))
      simp only [hf.1, hf.2.1, countAddRef_append, countRemoveRef_append, h3]
      omega

/-! ### The scan of `DoPulse`, for every host -/

theorem keeps_refl (w : CClientModelRequestManager σ) : Keeps w w :=
  ⟨id, sameBalance_refl w, rfl⟩

theorem keeps_trans {w1 w2 w3 : CClientModelRequestManager σ}
    (h12 : Keeps w1 w2) (h23 : Keeps w2 w3) : Keeps w1 w3 :=
  ⟨fun h => h23.1 (h12.1 h), sameBalance_trans h12.2.1 h23.2.1, h23.2.2.trans h12.2.2⟩

theorem keeps_Request (host : Host σ) (w : CClientModelRequestManager σ) (id e : Nat) :
    Keeps w (Request host w id e).2 :=
  ⟨Request_atMostOne host w id e, Request_sameBalance host w id e,
    Request_m_bDoingPulse host w id e⟩

theorem keeps_Cancel (host : Host σ) (w : CClientModelRequestManager σ) (e : Nat) (b : Bool) :
    Keeps w (Cancel host w e b) :=
  ⟨Cancel_atMostOne host w e b, Cancel_sameBalance host w e b, Cancel_m_bDoingPulse host w e b⟩

theorem keeps_call (host : Host σ) (w : CClientModelRequestManager σ) (ev : Event)
    (hev : isNeutral ev = true) : Keeps w (call host w ev) := by
  refine ⟨fun h => h, ?_, rfl⟩
  intro m
  cases ev <;> simp [isNeutral] at hev <;>
    simp [countAddRef_append, countRemoveRef_append, countAddRef, countRemoveRef]

theorem keeps_erase (host : Host σ) (w : CClientModelRequestManager σ) (j : Nat)
    (x : SClientModelRequest) (hj : w.m_Requests[j]? = some x) :
    Keeps w
      { call host w (Event.RemoveRef x.pModel) with
        m_Requests := (call host w (Event.RemoveRef x.pModel)).m_Requests.eraseIdx j } := by
  refine ⟨?_, ?_, rfl⟩
  · intro h e1
    have h1 := h e1
    have h2 := countBy_eraseIdx SClientModelRequest.pEntity e1 w.m_Requests j x hj
    simp only [countOwned, call_m_Requests] at h1 ⊢
    omega
  · intro m
    have h2 := countBy_eraseIdx SClientModelRequest.pModel m w.m_Requests j x hj
    simp only [countBound, call_m_Requests, call_calls, countAddRef_append,
      countRemoveRef_append, countAddRef, countRemoveRef] at h2 ⊢
    omega

theorem keeps_set (w : CClientModelRequestManager σ) (i : Nat) (x : SClientModelRequest)
    (t : CElapsedTime) (hi : w.m_Requests[i]? = some x) :
    Keeps w { w with m_Requests := w.m_Requests.set i { x with requestTimer := t } } := by
  refine ⟨?_, ?_, rfl⟩
  · intro h e1
    have h1 := h e1
    have h2 := countBy_set SClientModelRequest.pEntity e1 w.m_Requests i x
      { x with requestTimer := t } hi
    simp only [countOwned] at h1 h2 ⊢
    omega
  · intro m
    have h2 := countBy_set SClientModelRequest.pModel m w.m_Requests i x
      { x with requestTimer := t } hi
    simp only [countBound] at h2 ⊢
    omega

theorem reenter_keeps (host : Host σ) :
    ∀ (script : List Call) (w : CClientModelRequestManager σ) (i : Nat)
      (w1 : CClientModelRequestManager σ) (j : Nat),
      reenter host script w i = some (w1, j) → Keeps w w1
  | [], w, i, w1, j, h => by
    simp [reenter] at h
    rw [← h.1]
    exact keeps_refl w
  | Call.Cancel e b :: rest, w, i, w1, j, h => by
    simp only [reenter] at h
    exact keeps_trans (keeps_Cancel host w e b) (reenter_keeps host rest _ i w1 j h)
  | Call.Request id e :: rest, w, i, w1, j, h => by
    simp only [reenter] at h
    have hk := keeps_Request host w id e
    split at h
    · split at h
      · split at h
        · exact keeps_trans hk (reenter_keeps host rest _ _ w1 j h)
        · split at h
          · simp at h
          · exact keeps_trans hk (reenter_keeps host rest _ _ w1 j h)
      · exact keeps_trans hk (reenter_keeps host rest _ _ w1 j h)
    · exact keeps_trans hk (reenter_keeps host rest _ _ w1 j h)

theorem pulseLoop_keeps (host : Host σ) :
    ∀ (fuel : Nat) (w : CClientModelRequestManager σ) (i : Nat)
      (w1 : CClientModelRequestManager σ),
      pulseLoop host fuel w i = Except.ok w1 → Keeps w w1
  | 0, w, i, w1, h => by simp [pulseLoop] at h
  | fuel + 1, w, i, w1, h => by
    unfold pulseLoop at h
    split at h
    · simp at h
      rw [← h]
      exact keeps_refl w
    · rename_i pEntry hi
      split at h
      · dsimp only at h
        split at h
        · simp at h
        · rename_i w3 j hre
          split at h
          · simp at h
          · rename_i pEntry3 hj
            have k1 := keeps_call host w (Event.MakeCustomModel pEntry.pModel) rfl
            have k2 := keeps_call host (call host w (Event.MakeCustomModel pEntry.pModel))
              (Event.ModelRequestCallback pEntry.pEntity pEntry.pModel) rfl
            have k3 := reenter_keeps host _ _ _ _ _ hre
            have k4 := keeps_erase host w3 j pEntry3 hj
            exact keeps_trans (keeps_trans (keeps_trans k1 k2) k3)
              (keeps_trans k4 (pulseLoop_keeps host fuel _ _ w1 h))
      · dsimp only at h
        split at h
        · split at h
          · refine keeps_trans ?_ (pulseLoop_keeps host fuel _ _ w1 h)
            exact keeps_trans (keeps_call host w
              (Event.Request pEntry.pModel false "CClientModelRequestManager::DoPulse #1")
              rfl) (keeps_set _ i pEntry _ hi)
          · refine keeps_trans ?_ (pulseLoop_keeps host fuel _ _ w1 h)
            exact keeps_trans (keeps_call host w
              (Event.Request pEntry.pModel true "CClientModelRequestManager::DoPulse #2")
              rfl) (keeps_set _ i pEntry _ hi)
        · refine keeps_trans ?_ (pulseLoop_keeps host fuel _ _ w1 h)
          exact keeps_set w i pEntry _ hi

/-! ### The drain and `DoPulse`, for every host -/

theorem Cancel_quiescent (host : Host σ) (w : CClientModelRequestManager σ) (e : Nat)
    (b : Bool) (h : Quiescent w) : Quiescent (Cancel host w e b) := by
  obtain ⟨hp, hq⟩ := h
  have hne : e ∉ w.m_CancelQueue := by simp [hq]
  have hf := cancelLoop_fields host e w.m_Requests w
  rw [Cancel_idle host w e b hne hp]
  exact ⟨hf.2.2.2.2.trans hp, hf.2.2.2.1.trans hq⟩

theorem drain_keeps (host : Host σ) :
    ∀ (q : List Nat) (w : CClientModelRequestManager σ), Keeps w (drain host q w)
  | [], w => keeps_refl w
  | e :: rest, w => keeps_trans (keeps_Cancel host w e false) (drain_keeps host rest _)

theorem drain_quiescent (host : Host σ) :
    ∀ (q : List Nat) (w : CClientModelRequestManager σ),
      Quiescent w → Quiescent (drain host q w)
  | [], _, h => h
  | e :: rest, w, h => drain_quiescent host rest _ (Cancel_quiescent host w e false h)

theorem DoPulse_keeps (host : Host σ) (fuel : Nat) (w w1 : CClientModelRequestManager σ)
    (h : DoPulse host fuel w = Except.ok w1) :
    (AtMostOne w → AtMostOne w1) ∧ SameBalance w w1 ∧ (Quiescent w → Quiescent w1) := by
  unfold DoPulse at h
  split at h
  · split at h
    · simp at h
    · rename_i w2 hloop
      have k := pulseLoop_keeps host fuel _ 0 w2 hloop
      have k1 : (AtMostOne w → AtMostOne w2) ∧ SameBalance w w2 := ⟨k.1, k.2.1⟩
      dsimp only at h
      split at h
      · simp only [Except.ok.injEq] at h
        rw [← h]
        have kd := drain_keeps host w2.m_CancelQueue
          { w2 with m_bDoingPulse := false, m_CancelQueue := [] }
        have hq := drain_quiescent host w2.m_CancelQueue
          { w2 with m_bDoingPulse := false, m_CancelQueue := [] } ⟨rfl, rfl⟩
        exact ⟨fun ha => kd.1 (k1.1 ha), sameBalance_trans k1.2 kd.2.1, fun _ => hq⟩
      · rename_i hlen
        simp only [Except.ok.injEq] at h
        rw [← h]
        refine ⟨k1.1, k1.2, fun _ => ⟨rfl, ?_⟩⟩
        simpa using hlen
  · simp only [Except.ok.injEq] at h
    rw [← h]
    exact ⟨id, sameBalance_refl w, id⟩

/-! ### The scan when the callbacks only queue cancels -/

theorem Cancel_true_pulsing (host : Host σ) (w : CClientModelRequestManager σ) (e : Nat)
    (hp : w.m_bDoingPulse = true) :
    Cancel host w e true =
      { w with
        m_CancelQueue := if e ∈ w.m_CancelQueue then w.m_CancelQueue
          else w.m_CancelQueue ++ [e] } := by
  by_cases hq : e ∈ w.m_CancelQueue
  · rw [Cancel_queued host w e true hq]
    simp [hq]
  · rw [Cancel_pulsing host w e hq hp]
    simp [hq]

theorem reenter_cancelOnly (host : Host σ) :
    ∀ (script : List Call) (w : CClientModelRequestManager σ) (i : Nat),
      (∀ c ∈ script, ∃ e, c = Call.Cancel e true) → w.m_bDoingPulse = true →
      ∃ w1, reenter host script w i = some (w1, i) ∧ w1.m_Requests = w.m_Requests ∧
        w1.game = w.game ∧ w1.calls = w.calls ∧ w1.m_bDoingPulse = true ∧
        (∀ e, e ∈ w1.m_CancelQueue ↔ (e ∈ w.m_CancelQueue ∨ Call.Cancel e true ∈ script)) ∧
        (w.m_CancelQueue.Nodup → w1.m_CancelQueue.Nodup)
  | [], w, i, _, hp => ⟨w, by simp [reenter, hp]⟩
  | c :: rest, w, i, hs, hp => by
    obtain ⟨e, he⟩ := hs c (List.mem_cons_self c rest)
    subst he
    have hrest : ∀ c ∈ rest, ∃ e, c = Call.Cancel e true :=
      fun c hc => hs c (List.mem_cons_of_mem _ hc)
    have hc := Cancel_true_pulsing host w e hp
    obtain ⟨w1, h1, h2, h3, h4, h5, h6, h7⟩ :=
      reenter_cancelOnly host rest (Cancel host w e true) i hrest
        (by rw [hc]; exact hp)
    refine ⟨w1, ?_, ?_, ?_, ?_, h5, ?_, ?_⟩
    · simp only [reenter]
      exact h1
    · rw [h2, hc]
    · rw [h3, hc]
    · rw [h4, hc]
    · intro e1
      rw [h6 e1, hc]
      by_cases hq : e ∈ w.m_CancelQueue
      · simp only [hq, if_true, List.mem_cons, Call.Cancel.injEq, and_true]
        constructor
        · rintro (h | h)
          · exact Or.inl h
          · exact Or.inr (Or.inr h)
        · rintro (h | h | h)
          · exact Or.inl h
          · exact Or.inl (h ▸ hq)
          · exact Or.inr h
      · simp only [hq, if_false, List.mem_append, List.mem_singleton, List.mem_cons,
          Call.Cancel.injEq, and_true]
        tauto
    · intro hnd
      apply h7
      rw [hc]
      by_cases hq : e ∈ w.m_CancelQueue
      · simpa [hq] using hnd
      · simp only [hq, if_false]
        exact List.Nodup.append hnd (List.nodup_singleton e) (by simpa using hq)

theorem pulseLoop_total (host : Host σ) (hco : host.CancelOnly) :
    ∀ (fuel : Nat) (w : CClientModelRequestManager σ) (i : Nat),
      w.m_bDoingPulse = true → w.m_Requests.length - i < fuel →
      ∃ w1, pulseLoop host fuel w i = Except.ok w1
  | 0, w, i, _, hf => by omega
  | fuel + 1, w, i, hp, hf => by
    unfold pulseLoop
    cases hi : w.m_Requests[i]? with
    | none => exact ⟨w, rfl⟩
    | some pEntry =>
      have hlt : i < w.m_Requests.length := by
        rcases Nat.lt_or_ge i w.m_Requests.length with h | h
        · exact h
        · rw [List.getElem?_eq_none h] at hi
          simp at hi
      dsimp only
      split
      · obtain ⟨w3, h1, h2, _, _, h5, _, _⟩ :=
          reenter_cancelOnly host (host.callback pEntry.pEntity pEntry.pModel)
            (call host (call host w (Event.MakeCustomModel pEntry.pModel))
              (Event.ModelRequestCallback pEntry.pEntity pEntry.pModel)) i
            (hco pEntry.pEntity pEntry.pModel) hp
        rw [h1]
        have h3 : w3.m_Requests[i]? = some pEntry := by rw [h2]; exact hi
        simp only [h3]
        apply pulseLoop_total host hco fuel
        · exact h5
        · simp only [call_m_Requests, List.length_eraseIdx, h2]
          rw [if_pos hlt]
          omega
      · split
        · split
          · apply pulseLoop_total host hco fuel
            · exact hp
            · simp only [call_m_Requests, List.length_set]
              omega
          · apply pulseLoop_total host hco fuel
            · exact hp
            · simp only [call_m_Requests, List.length_set]
              omega
        · apply pulseLoop_total host hco fuel
          · exact hp
          · simp only [List.length_set]
            omega

theorem DoPulse_total (host : Host σ) (hco : host.CancelOnly) (fuel : Nat)
    (w : CClientModelRequestManager σ) (hf : w.m_Requests.length < fuel) :
    ∃ w1, DoPulse host fuel w = Except.ok w1 := by
  unfold DoPulse
  split
  · obtain ⟨w2, h2⟩ := pulseLoop_total host hco fuel { w with m_bDoingPulse := true } 0 rfl
      (by simpa using hf)
    rw [h2]
    dsimp only
    split
    · exact ⟨_, rfl⟩
    · exact ⟨_, rfl⟩
  · exact ⟨w, rfl⟩

theorem nonReentrant_cancelOnly (host : Host σ) (h : host.NonReentrant) : host.CancelOnly := by
  intro e m c hc
  rw [h e m] at hc
  simp at hc

/-! ### Sequences of top-level calls -/

theorem RequestBlocking_fields (host : Host σ) (w : CClientModelRequestManager σ) (id : Nat)
    (tag : String) :
    (RequestBlocking host w id tag).2.m_Requests = w.m_Requests ∧
    (RequestBlocking host w id tag).2.m_CancelQueue = w.m_CancelQueue ∧
    (RequestBlocking host w id tag).2.m_bDoingPulse = w.m_bDoingPulse ∧
    ∃ l, (RequestBlocking host w id tag).2.calls = w.calls ++ l ∧
      ∀ ev ∈ l, isNeutral ev = true := by
  unfold RequestBlocking
  split
  · dsimp only
    split
    · rename_i pInfo _ _
      refine ⟨rfl, rfl, rfl, [Event.Request pInfo true tag, Event.MakeCustomModel pInfo],
        by simp, ?_⟩
      intro ev hev
      simp at hev
      rcases hev with h | h <;> subst h <;> rfl
    · rename_i pInfo _ _
      refine ⟨rfl, rfl, rfl, [Event.Request pInfo true tag, Event.OutputDebugLine id],
        by simp, ?_⟩
      intro ev hev
      simp at hev
      rcases hev with h | h <;> subst h <;> rfl
  · exact ⟨rfl, rfl, rfl, [], by simp, by simp⟩

theorem countAddRef_neutral (m : Nat) :
    ∀ l : List Event, (∀ ev ∈ l, isNeutral ev = true) → countAddRef m l = 0
  | [], _ => rfl
  | ev :: rest, h => by
    have h1 := h ev (List.mem_cons_self ev rest)
    have h2 := countAddRef_neutral m rest (fun ev1 h3 => h ev1 (List.mem_cons_of_mem _ h3))
    cases ev <;> simp [isNeutral] at h1 <;> simp [countAddRef, h2]

theorem countRemoveRef_neutral (m : Nat) :
    ∀ l : List Event, (∀ ev ∈ l, isNeutral ev = true) → countRemoveRef m l = 0
  | [], _ => rfl
  | ev :: rest, h => by
    have h1 := h ev (List.mem_cons_self ev rest)
    have h2 := countRemoveRef_neutral m rest (fun ev1 h3 => h ev1 (List.mem_cons_of_mem _ h3))
    cases ev <;> simp [isNeutral] at h1 <;> simp [countRemoveRef, h2]

theorem step_keeps (host : Host σ) (w w1 : CClientModelRequestManager σ) (a : Action σ)
    (h : step host w a = Except.ok w1) :
    (AtMostOne w → AtMostOne w1) ∧ SameBalance w w1 ∧ (Quiescent w → Quiescent w1) := by
  cases a with
  | Request id e =>
    simp only [step, Except.ok.injEq] at h
    rw [← h]
    refine ⟨Request_atMostOne host w id e, Request_sameBalance host w id e, ?_⟩
    intro hq
    exact ⟨(Request_m_bDoingPulse host w id e).trans hq.1,
      (Request_m_CancelQueue host w id e).trans hq.2⟩
  | Cancel e b =>
    simp only [step, Except.ok.injEq] at h
    rw [← h]
    exact ⟨Cancel_atMostOne host w e b, Cancel_sameBalance host w e b,
      Cancel_quiescent host w e b⟩
  | DoPulse => exact DoPulse_keeps host _ w w1 h
  | RequestBlocking id tag =>
    simp only [step, Except.ok.injEq] at h
    rw [← h]
    obtain ⟨h1, h2, h3, l, h4, h5⟩ := RequestBlocking_fields host w id tag
    refine ⟨?_, ?_, ?_⟩
    · intro ha e
      rw [h1]
      exact ha e
    · intro m
      rw [h1, h4, countAddRef_append, countRemoveRef_append, countAddRef_neutral m l h5,
        countRemoveRef_neutral m l h5]
      omega
    · intro hq
      exact ⟨h3.trans hq.1, h2.trans hq.2⟩
  | outside f =>
    simp only [step, Except.ok.injEq] at h
    rw [← h]
    exact ⟨id, sameBalance_refl w, id⟩

theorem step_total (host : Host σ) (hco : host.CancelOnly) (w : CClientModelRequestManager σ)
    (a : Action σ) : ∃ w1, step host w a = Except.ok w1 := by
  cases a with
  | Request id e => exact ⟨_, rfl⟩
  | Cancel e b => exact ⟨_, rfl⟩
  | DoPulse => exact DoPulse_total host hco _ w (Nat.lt_succ_self _)
  | RequestBlocking id tag => exact ⟨_, rfl⟩
  | outside f => exact ⟨_, rfl⟩

theorem run_keeps (host : Host σ) (hco : host.CancelOnly) :
    ∀ (actions : List (Action σ)) (w : CClientModelRequestManager σ),
      ∃ w1, run host actions w = Except.ok w1 ∧
        (AtMostOne w → AtMostOne w1) ∧ SameBalance w w1 ∧ (Quiescent w → Quiescent w1)
  | [], w => ⟨w, rfl, id, sameBalance_refl w, id⟩
  | a :: rest, w => by
    obtain ⟨w1, h1⟩ := step_total host hco w a
    obtain ⟨k1, k2, k3⟩ := step_keeps host w w1 a h1
    obtain ⟨w2, h2, k4, k5, k6⟩ := run_keeps host hco rest w1
    refine ⟨w2, ?_, fun h => k4 (k1 h), sameBalance_trans k2 k5, fun h => k6 (k3 h)⟩
    simp only [run, h1]
    exact h2

theorem countBy_eq_length_filter (key : SClientModelRequest → Nat) (k : Nat) :
    ∀ l : List SClientModelRequest,
      countBy key k l = (l.filter (fun x => decide (key x = k))).length
  | [] => rfl
  | x :: rest => by
    have ih := countBy_eq_length_filter key k rest
    by_cases hx : key x = k
    · simp [countBy, List.filter_cons, hx, ih, Nat.add_comm]
    · simp [countBy, List.filter_cons, hx, ih]

theorem atMostOne_create (game : σ) : AtMostOne (create game) := by
  intro e
  simp [create, countOwned, countBy]

theorem countBy_eq_zero (key : SClientModelRequest → Nat) (k : Nat) :
    ∀ l : List SClientModelRequest, countBy key k l = 0 ↔ ∀ y ∈ l, key y ≠ k
  | [] => by simp [countBy]
  | x :: rest => by
    have ih := countBy_eq_zero key k rest
    by_cases hx : key x = k
    · simp [countBy, hx]
    · simp [countBy, hx, ih]

theorem getRequestEntryIn_unique (e : Nat) :
    ∀ (l : List SClientModelRequest) (i : Nat) (x : SClientModelRequest),
      getRequestEntryIn l e = some (i, x) → countOwned e l ≤ 1 →
      ∀ y ∈ l, y.pEntity = e → y = x
  | [], i, x, h, _ => by simp [getRequestEntryIn] at h
  | z :: rest, i, x, h, hc => by
    intro y hy hye
    simp only [countOwned, countBy] at hc
    by_cases hz : z.pEntity = e
    · simp [getRequestEntryIn, hz] at h
      simp only [hz, if_true] at hc
      have h0 : countBy SClientModelRequest.pEntity e rest = 0 := by omega
      rcases List.mem_cons.1 hy with h1 | h1
      · rw [h1]; exact h.2
      · exact absurd hye ((countBy_eq_zero _ e rest).1 h0 y h1)
    · simp only [getRequestEntryIn, hz, if_false, Option.map_eq_some'] at h
      obtain ⟨⟨j, x1⟩, hj, hjx⟩ := h
      simp at hjx
      obtain ⟨_, h2⟩ := hjx
      subst h2
      simp only [hz, if_false, Nat.zero_add] at hc
      rcases List.mem_cons.1 hy with h1 | h1
      · rw [h1] at hye; exact absurd hye hz
      · exact getRequestEntryIn_unique e rest j x1 hj hc y h1 hye

theorem mem_of_getElem?_eq_some {α : Type} :
    ∀ (l : List α) (i : Nat) (x : α), l[i]? = some x → x ∈ l
  | [], i, x, h => by simp at h
  | y :: rest, 0, x, h => by
    simp at h
    simp [h]
  | y :: rest, i + 1, x, h => by
    simp at h
    exact List.mem_cons_of_mem _ (mem_of_getElem?_eq_some rest i x h)

theorem getRequestEntryIn_of_mem (e : Nat) (l : List SClientModelRequest)
    (x : SClientModelRequest) (hx : x ∈ l) (he : x.pEntity = e) (hone : countOwned e l ≤ 1) :
    ∃ i, getRequestEntryIn l e = some (i, x) := by
  cases hget : getRequestEntryIn l e with
  | none =>
    have h0 := (getRequestEntryIn_none e l).1 hget
    exact absurd he ((countBy_eq_zero _ e l).1 h0 x hx)
  | some p =>
    obtain ⟨i, y⟩ := p
    have := getRequestEntryIn_unique e l i y hget hone x hx he
    subst this
    exact ⟨i, rfl⟩

theorem hasRequestedIn_eq_false (e : Nat) :
    ∀ l : List SClientModelRequest, hasRequestedIn l e = false ↔ countOwned e l = 0
  | [] => by simp [hasRequestedIn, countOwned, countBy]
  | x :: rest => by
    have ih := hasRequestedIn_eq_false e rest
    unfold countOwned at ih ⊢
    by_cases hx : x.pEntity = e
    · simp [hasRequestedIn, countBy, hx]
    · simp [hasRequestedIn, countBy, hx, ih]

theorem atMostOne_demoState : AtMostOne demoState := by
  intro e
  simp only [demoState, countOwned, countBy]
  split <;> split <;> omega

/-! ### The scan in closed form -/

theorem getElem?_append_length {α : Type} (x : α) (rest : List α) :
    ∀ done : List α, (done ++ x :: rest)[done.length]? = some x
  | [] => by simp
  | y :: done => by
    have ih := getElem?_append_length x rest done
    show (y :: (done ++ x :: rest))[done.length + 1]? = some x
    rw [List.getElem?_cons_succ]
    exact ih

theorem eraseIdx_append_length {α : Type} (x : α) (rest : List α) :
    ∀ done : List α, (done ++ x :: rest).eraseIdx done.length = done ++ rest
  | [] => by simp
  | y :: done => by
    have ih := eraseIdx_append_length x rest done
    simp [ih]

theorem set_append_length {α : Type} (x y : α) (rest : List α) :
    ∀ done : List α, (done ++ x :: rest).set done.length y = done ++ y :: rest
  | [] => by simp
  | z :: done => by
    have ih := set_append_length x y rest done
    simp [ih]

theorem pulseLoop_closed (host : Host σ) (hco : host.CancelOnly) (loaded : Nat → Bool)
    (hst : host.StableLoaded) :
    ∀ (todo done : List SClientModelRequest) (w : CClientModelRequestManager σ) (fuel : Nat),
      w.m_Requests = done ++ todo → w.m_bDoingPulse = true → todo.length < fuel →
      (∀ m, host.IsLoaded w.game m = loaded m) →
      ∃ w1, pulseLoop host fuel w done.length = Except.ok w1 ∧
        ScanSpec host loaded done todo w w1
  | _, _, _, 0, _, _, hf, _ => by omega
  | [], done, w, fuel + 1, hw, hp, _, hl => by
    refine ⟨w, ?_, [], [], ?_⟩
    · unfold pulseLoop
      rw [hw]
      simp
    · simp [hw, hp, hl, resolvedCalls]
  | x :: rest, done, w, fuel + 1, hw, hp, hf, hl => by
    have hst1 : ∀ s ev m, host.IsLoaded (host.exec s ev) m = host.IsLoaded s m := hst
    have hi : w.m_Requests[done.length]? = some x := by
      rw [hw]
      exact getElem?_append_length x rest done
    unfold pulseLoop
    simp only [hi]
    cases hx : loaded x.pModel with
    | true =>
      have hx1 : host.IsLoaded w.game x.pModel = true := by rw [hl]; exact hx
      simp only [hx1, if_true]
      obtain ⟨w3, h1, h2, h3, h4, h5, h6, h7⟩ :=
        reenter_cancelOnly host (host.callback x.pEntity x.pModel)
          (call host (call host w (Event.MakeCustomModel x.pModel))
            (Event.ModelRequestCallback x.pEntity x.pModel)) done.length
          (hco x.pEntity x.pModel) hp
      rw [h1]
      have h8 : w3.m_Requests[done.length]? = some x := by rw [h2]; exact hi
      simp only [h8]
      obtain ⟨w1, hloop, kept, L, k1, k2, k3, k4, k5, k6, k7, k8, k9⟩ :=
        pulseLoop_closed host hco loaded hst rest done
          { call host w3 (Event.RemoveRef x.pModel) with
            m_Requests := (call host w3 (Event.RemoveRef x.pModel)).m_Requests.eraseIdx
              done.length }
          fuel
          (by
            simp only [call_m_Requests, h2, hw]
            exact eraseIdx_append_length x rest done)
          h5 (by simpa using hf)
          (by
            intro m
            simp only [call_game, h3, hst1]
            exact hl m)
      refine ⟨w1, hloop, kept,
        Event.MakeCustomModel x.pModel :: Event.ModelRequestCallback x.pEntity x.pModel ::
          Event.RemoveRef x.pModel :: L, k1, ?_, ?_, ?_, ?_, k6, k7, ?_, ?_⟩
      · rw [k2]
        simp [List.filter_cons, hx]
      · rw [k3]
        simp [h4]
      · simp [List.filter_cons, hx, isResolution, resolvedCalls, k4]
      · intro ev hev
        simp only [List.mem_cons] at hev
        rcases hev with h | h | h | h
        · subst h; exact Or.inl rfl
        · subst h; exact Or.inl rfl
        · subst h; exact Or.inl rfl
        · exact k5 ev h
      · intro e
        rw [k8 e]
        simp only [call_m_CancelQueue, h6 e, List.mem_cons, exists_eq_or_imp, hx, true_and]
        tauto
      · intro hnd
        exact k9 (h7 hnd)
    | false =>
      have hx1 : host.IsLoaded w.game x.pModel = false := by rw [hl]; exact hx
      simp only [hx1, Bool.false_eq_true, if_false]
      split
      · split
        · obtain ⟨w1, hloop, kept, L, k1, k2, k3, k4, k5, k6, k7, k8, k9⟩ :=
            pulseLoop_closed host hco loaded hst rest
              (done ++
                [{ x with
                    requestTimer :=
                      (x.requestTimer.Get (host.GetTickCount w.game)).1.Reset
                        (host.GetTickCount (call host w (Event.Request x.pModel false "CClientModelRequestManager::DoPulse #1")).game) }])
              { call host w (Event.Request x.pModel false "CClientModelRequestManager::DoPulse #1") with
                m_Requests :=
                  (call host w (Event.Request x.pModel false "CClientModelRequestManager::DoPulse #1")).m_Requests.set done.length
                    { x with
                      requestTimer :=
                        (x.requestTimer.Get (host.GetTickCount w.game)).1.Reset
                          (host.GetTickCount (call host w (Event.Request x.pModel false "CClientModelRequestManager::DoPulse #1")).game) } }
              fuel
              (by
                simp only [call_m_Requests, hw, List.append_assoc, List.singleton_append]
                exact set_append_length x _ rest done)
              hp (by simpa using hf)
              (by
                intro m
                simp only [call_game, hst1]
                exact hl m)
          simp only [List.length_append, List.length_singleton] at hloop
          refine ⟨w1, hloop,
            { x with
              requestTimer :=
                (x.requestTimer.Get (host.GetTickCount w.game)).1.Reset
                  (host.GetTickCount (call host w (Event.Request x.pModel false "CClientModelRequestManager::DoPulse #1")).game) } :: kept,
            Event.Request x.pModel false "CClientModelRequestManager::DoPulse #1" :: L,
            ?_, ?_, ?_, ?_, ?_, k6, k7, ?_, k9⟩
          · rw [k1]
            simp
          · rw [List.map_cons, k2]
            simp [List.filter_cons, hx, binding]
          · rw [k3]
            simp
          · simp [List.filter_cons, hx, isResolution, k4]
          · intro ev hev
            simp only [List.mem_cons] at hev
            rcases hev with h | h
            · subst h; exact Or.inr rfl
            · exact k5 ev h
          · intro e
            rw [k8 e]
            simp only [call_m_CancelQueue, List.mem_cons, exists_eq_or_imp, hx,
              Bool.false_eq_true, false_and, false_or]
        · obtain ⟨w1, hloop, kept, L, k1, k2, k3, k4, k5, k6, k7, k8, k9⟩ :=
            pulseLoop_closed host hco loaded hst rest
              (done ++
                [{ x with
                    requestTimer :=
                      (x.requestTimer.Get (host.GetTickCount w.game)).1.Reset
                        (host.GetTickCount (call host w (Event.Request x.pModel true "CClientModelRequestManager::DoPulse #2")).game) }])
              { call host w (Event.Request x.pModel true "CClientModelRequestManager::DoPulse #2") with
                m_Requests :=
                  (call host w (Event.Request x.pModel true "CClientModelRequestManager::DoPulse #2")).m_Requests.set done.length
                    { x with
                      requestTimer :=
                        (x.requestTimer.Get (host.GetTickCount w.game)).1.Reset
                          (host.GetTickCount (call host w (Event.Request x.pModel true "CClientModelRequestManager::DoPulse #2")).game) } }
              fuel
              (by
                simp only [call_m_Requests, hw, List.append_assoc, List.singleton_append]
                exact set_append_length x _ rest done)
              hp (by simpa using hf)
              (by
                intro m
                simp only [call_game, hst1]
                exact hl m)
          simp only [List.length_append, List.length_singleton] at hloop
          refine ⟨w1, hloop,
            { x with
              requestTimer :=
                (x.requestTimer.Get (host.GetTickCount w.game)).1.Reset
                  (host.GetTickCount (call host w (Event.Request x.pModel true "CClientModelRequestManager::DoPulse #2")).game) } :: kept,
            Event.Request x.pModel true "CClientModelRequestManager::DoPulse #2" :: L,
            ?_, ?_, ?_, ?_, ?_, k6, k7, ?_, k9⟩
          · rw [k1]
            simp
          · rw [List.map_cons, k2]
            simp [List.filter_cons, hx, binding]
          · rw [k3]
            simp
          · simp [List.filter_cons, hx, isResolution, k4]
          · intro ev hev
            simp only [List.mem_cons] at hev
            rcases hev with h | h
            · subst h; exact Or.inr rfl
            · exact k5 ev h
          · intro e
            rw [k8 e]
            simp only [call_m_CancelQueue, List.mem_cons, exists_eq_or_imp, hx,
              Bool.false_eq_true, false_and, false_or]
      · obtain ⟨w1, hloop, kept, L, k1, k2, k3, k4, k5, k6, k7, k8, k9⟩ :=
          pulseLoop_closed host hco loaded hst rest
            (done ++
              [{ x with
                  requestTimer := (x.requestTimer.Get (host.GetTickCount w.game)).1 }])
            { w with
              m_Requests :=
                w.m_Requests.set done.length
                  { x with
                    requestTimer := (x.requestTimer.Get (host.GetTickCount w.game)).1 } }
            fuel
            (by
              simp only [hw, List.append_assoc, List.singleton_append]
              exact set_append_length x _ rest done)
            hp (by simpa using hf) hl
        simp only [List.length_append, List.length_singleton] at hloop
        refine ⟨w1, hloop,
          { x with requestTimer := (x.requestTimer.Get (host.GetTickCount w.game)).1 } :: kept,
          L, ?_, ?_, k3, ?_, k5, k6, k7, ?_, k9⟩
        · rw [k1]
          simp
        · rw [List.map_cons, k2]
          simp [List.filter_cons, hx, binding]
        · simp [List.filter_cons, hx, k4]
        · intro e
          rw [k8 e]
          simp only [List.mem_cons, exists_eq_or_imp, hx, Bool.false_eq_true, false_and,
            false_or]

theorem Cancel_countBy_le (host : Host σ) (w : CClientModelRequestManager σ) (e : Nat)
    (b : Bool) (key : SClientModelRequest → Nat) (k : Nat) :
    countBy key k (Cancel host w e b).m_Requests ≤ countBy key k w.m_Requests := by
  unfold Cancel
  split
  · exact Nat.le_refl _
  · split
    · cases b <;> exact Nat.le_refl _
    · simp only [(cancelLoop_fields host e w.m_Requests w).1]
      exact countBy_filter_le key k _ w.m_Requests

theorem drain_countBy_le (host : Host σ) (key : SClientModelRequest → Nat) (k : Nat) :
    ∀ (q : List Nat) (w : CClientModelRequestManager σ),
      countBy key k (drain host q w).m_Requests ≤ countBy key k w.m_Requests
  | [], _ => Nat.le_refl _
  | e :: rest, w => by
    simp only [drain]
    exact Nat.le_trans (drain_countBy_le host key k rest _)
      (Cancel_countBy_le host w e false key k)

theorem drain_removes (host : Host σ) :
    ∀ (q : List Nat) (w : CClientModelRequestManager σ), Quiescent w →
      ∀ e ∈ q, countOwned e (drain host q w).m_Requests = 0
  | [], _, _, e, he => by simp at he
  | e1 :: rest, w, hq, e, he => by
    simp only [drain]
    have hq1 := Cancel_quiescent host w e1 false hq
    rcases List.mem_cons.1 he with h | h
    · subst h
      have hne : e ∉ w.m_CancelQueue := by simp [hq.2]
      have h0 : countOwned e (Cancel host w e false).m_Requests = 0 := by
        rw [Cancel_idle host w e false hne hq.1]
        simp only [(cancelLoop_fields host e w.m_Requests w).1]
        exact countOwned_filter_ne e w.m_Requests
      have h1 := drain_countBy_le host SClientModelRequest.pEntity e rest
        (Cancel host w e false)
      simp only [countOwned] at h0 ⊢
      omega
    · exact drain_removes host rest _ hq1 e h

theorem getRequestedModelInfoIn_eq (e : Nat) :
    ∀ l : List SClientModelRequest,
      getRequestedModelInfoIn l e = (getRequestEntryIn l e).map (fun p => p.2.pModel)
  | [] => rfl
  | x :: rest => by
    have ih := getRequestedModelInfoIn_eq e rest
    by_cases hx : x.pEntity = e
    · simp [getRequestedModelInfoIn, getRequestEntryIn, hx]
    · simp only [getRequestedModelInfoIn, getRequestEntryIn, hx, if_false, ih, Option.map_map]
      rfl

theorem hasRequestedIn_eq (e : Nat) :
    ∀ l : List SClientModelRequest, hasRequestedIn l e = (getRequestEntryIn l e).isSome
  | [] => rfl
  | x :: rest => by
    have ih := hasRequestedIn_eq e rest
    by_cases hx : x.pEntity = e
    · simp [hasRequestedIn, getRequestEntryIn, hx]
    · simp [hasRequestedIn, getRequestEntryIn, hx, ih]

theorem isRequestedIn_eq_true (m : Nat) :
    ∀ l : List SClientModelRequest, isRequestedIn l m = true ↔ ∃ x ∈ l, x.pModel = m
  | [] => by simp [isRequestedIn]
  | x :: rest => by
    have ih := isRequestedIn_eq_true m rest
    by_cases hx : x.pModel = m
    · simp [isRequestedIn, hx]
    · simp [isRequestedIn, hx, ih]

theorem mem_set_of_getElem? {α : Type} :
    ∀ (l : List α) (i : Nat) (x y : α), l[i]? = some x → y ∈ l.set i y
  | [], i, x, y, h => by simp at h
  | z :: rest, 0, x, y, _ => by simp
  | z :: rest, i + 1, x, y, h => by
    simp at h
    simp only [List.set_cons_succ]
    exact List.mem_cons_of_mem _ (mem_set_of_getElem? rest i x y h)

theorem getRequestEntryIn_set (e : Nat) (y : SClientModelRequest) (hy : y.pEntity = e) :
    ∀ (l : List SClientModelRequest) (i : Nat) (x : SClientModelRequest),
      getRequestEntryIn l e = some (i, x) → getRequestEntryIn (l.set i y) e = some (i, y)
  | [], i, x, h => by simp [getRequestEntryIn] at h
  | z :: rest, i, x, h => by
    by_cases hz : z.pEntity = e
    · simp [getRequestEntryIn, hz] at h
      rw [← h.1]
      simp [getRequestEntryIn, hy]
    · simp only [getRequestEntryIn, hz, if_false, Option.map_eq_some'] at h
      obtain ⟨⟨j, x1⟩, hj, hjx⟩ := h
      simp at hjx
      rw [← hjx.1]
      have ih := getRequestEntryIn_set e y hy rest j x1 hj
      simp [getRequestEntryIn, hz, ih]

theorem getRequestEntryIn_append (e : Nat) (y : SClientModelRequest) (hy : y.pEntity = e) :
    ∀ l : List SClientModelRequest, getRequestEntryIn l e = none →
      getRequestEntryIn (l ++ [y]) e = some (l.length, y)
  | [], _ => by simp [getRequestEntryIn, hy]
  | z :: rest, h => by
    by_cases hz : z.pEntity = e
    · simp [getRequestEntryIn, hz] at h
    · simp only [getRequestEntryIn, hz, if_false, Option.map_eq_none'] at h
      have ih := getRequestEntryIn_append e y hy rest h
      simp [getRequestEntryIn, hz, ih]

/-! ### What holds in every reachable state -/

theorem Request_fromStore (host : Host σ) (w : CClientModelRequestManager σ) (id e : Nat)
    (h : FromStore host w) : FromStore host (Request host w id e).2 := by
  refine Request_induct host w id e (fun r => FromStore host r.2) ?_ ?_ ?_ ?_ ?_ ?_
  · intro _; exact h
  · intros; exact h
  · intro pInfo iter pEntry _ _ _ _ x hx
    exact h x (List.mem_of_mem_eraseIdx hx)
  · intro pInfo iter pEntry hid _ _ _ x hx
    rcases List.mem_or_eq_of_mem_set hx with h1 | h1
    · exact h x h1
    · subst h1
      exact ⟨id, hid⟩
  · intros; exact h
  · intro pInfo hid _ _ x hx
    rcases List.mem_append.1 hx with h1 | h1
    · exact h x h1
    · simp only [List.mem_singleton] at h1
      subst h1
      exact ⟨id, hid⟩

theorem Cancel_mem (host : Host σ) (w : CClientModelRequestManager σ) (e : Nat) (b : Bool)
    (x : SClientModelRequest) (hx : x ∈ (Cancel host w e b).m_Requests) : x ∈ w.m_Requests := by
  unfold Cancel at hx
  split at hx
  · exact hx
  · split at hx
    · cases b <;> exact hx
    · simp only [(cancelLoop_fields host e w.m_Requests w).1] at hx
      exact List.mem_of_mem_filter hx

theorem Cancel_fromStore (host : Host σ) (w : CClientModelRequestManager σ) (e : Nat)
    (b : Bool) (h : FromStore host w) : FromStore host (Cancel host w e b) :=
  fun x hx => h x (Cancel_mem host w e b x hx)

theorem reenter_fromStore (host : Host σ) :
    ∀ (script : List Call) (w : CClientModelRequestManager σ) (i : Nat)
      (w1 : CClientModelRequestManager σ) (j : Nat),
      reenter host script w i = some (w1, j) → FromStore host w → FromStore host w1
  | [], w, i, w1, j, h, hw => by
    simp [reenter] at h
    rw [← h.1]
    exact hw
  | Call.Cancel e b :: rest, w, i, w1, j, h, hw => by
    simp only [reenter] at h
    exact reenter_fromStore host rest _ i w1 j h (Cancel_fromStore host w e b hw)
  | Call.Request id e :: rest, w, i, w1, j, h, hw => by
    simp only [reenter] at h
    have hk := Request_fromStore host w id e hw
    split at h
    · split at h
      · split at h
        · exact reenter_fromStore host rest _ _ w1 j h hk
        · split at h
          · simp at h
          · exact reenter_fromStore host rest _ _ w1 j h hk
      · exact reenter_fromStore host rest _ _ w1 j h hk
    · exact reenter_fromStore host rest _ _ w1 j h hk

theorem fromStore_set (host : Host σ) (w : CClientModelRequestManager σ) (i : Nat)
    (x : SClientModelRequest) (t : CElapsedTime) (hi : w.m_Requests[i]? = some x)
    (g : σ) (c : List Event) (h : FromStore host w) :
    FromStore host
      { w with
        m_Requests := w.m_Requests.set i { x with requestTimer := t }
        game := g
        calls := c } := by
  intro y hy
  rcases List.mem_or_eq_of_mem_set hy with h1 | h1
  · exact h y h1
  · subst h1
    exact h x (mem_of_getElem?_eq_some _ _ _ hi)

theorem pulseLoop_fromStore (host : Host σ) :
    ∀ (fuel : Nat) (w : CClientModelRequestManager σ) (i : Nat)
      (w1 : CClientModelRequestManager σ),
      pulseLoop host fuel w i = Except.ok w1 → FromStore host w → FromStore host w1
  | 0, w, i, w1, h, _ => by simp [pulseLoop] at h
  | fuel + 1, w, i, w1, h, hw => by
    unfold pulseLoop at h
    split at h
    · simp at h
      rw [← h]
      exact hw
    · rename_i pEntry hi
      split at h
      · dsimp only at h
        split at h
        · simp at h
        · rename_i w3 j hre
          split at h
          · simp at h
          · rename_i pEntry3 hj
            have k3 : FromStore host w3 := reenter_fromStore host _ _ _ _ _ hre hw
            refine pulseLoop_fromStore host fuel _ _ w1 h ?_
            intro x hx
            exact k3 x (List.mem_of_mem_eraseIdx hx)
      · dsimp only at h
        split at h
        · split at h
          · exact pulseLoop_fromStore host fuel _ _ w1 h
              (fromStore_set host w i pEntry _ hi _ _ hw)
          · exact pulseLoop_fromStore host fuel _ _ w1 h
              (fromStore_set host w i pEntry _ hi _ _ hw)
        · exact pulseLoop_fromStore host fuel _ _ w1 h
            (fromStore_set host w i pEntry _ hi _ _ hw)

theorem drain_mem (host : Host σ) :
    ∀ (q : List Nat) (w : CClientModelRequestManager σ) (x : SClientModelRequest),
      x ∈ (drain host q w).m_Requests → x ∈ w.m_Requests
  | [], _, _, hx => hx
  | e :: rest, w, x, hx => Cancel_mem host w e false x (drain_mem host rest _ x hx)

theorem DoPulse_fromStore (host : Host σ) (fuel : Nat) (w w1 : CClientModelRequestManager σ)
    (h : DoPulse host fuel w = Except.ok w1) (hw : FromStore host w) : FromStore host w1 := by
  unfold DoPulse at h
  split at h
  · split at h
    · simp at h
    · rename_i w2 hloop
      have k : FromStore host w2 := pulseLoop_fromStore host fuel _ 0 w2 hloop hw
      dsimp only at h
      split at h
      · simp only [Except.ok.injEq] at h
        rw [← h]
        intro x hx
        have hx2 := drain_mem host _ _ x hx
        exact k x hx2
      · simp only [Except.ok.injEq] at h
        rw [← h]
        exact k
  · simp only [Except.ok.injEq] at h
    rw [← h]
    exact hw

theorem reachable_invariants (host : Host σ) (w : CClientModelRequestManager σ)
    (h : Reachable host w) : Quiescent w ∧ AtMostOne w ∧ FromStore host w := by
  induction h with
  | create game =>
    refine ⟨⟨rfl, rfl⟩, atMostOne_create game, ?_⟩
    intro x hx
    simp [create] at hx
  | Request w id e _ ih =>
    exact ⟨⟨(Request_m_bDoingPulse host w id e).trans ih.1.1,
      (Request_m_CancelQueue host w id e).trans ih.1.2⟩,
      Request_atMostOne host w id e ih.2.1, Request_fromStore host w id e ih.2.2⟩
  | Cancel w e b _ ih =>
    exact ⟨Cancel_quiescent host w e b ih.1, Cancel_atMostOne host w e b ih.2.1,
      Cancel_fromStore host w e b ih.2.2⟩
  | DoPulse w w1 fuel _ hdo ih =>
    have k := DoPulse_keeps host fuel w w1 hdo
    exact ⟨k.2.2 ih.1, k.1 ih.2.1, DoPulse_fromStore host fuel w w1 hdo ih.2.2⟩
  | RequestBlocking w id tag _ ih =>
    obtain ⟨h1, h2, h3, _⟩ := RequestBlocking_fields host w id tag
    refine ⟨⟨h3.trans ih.1.1, h2.trans ih.1.2⟩, ?_, ?_⟩
    · intro e
      rw [h1]
      exact ih.2.1 e
    · intro x hx
      rw [h1] at hx
      exact ih.2.2 x hx
  | outside w f _ ih => exact ih

theorem run_reachable (host : Host σ) :
    ∀ (actions : List (Action σ)) (w w1 : CClientModelRequestManager σ),
      Reachable host w → run host actions w = Except.ok w1 → Reachable host w1
  | [], w, w1, hw, h => by
    simp only [run, Except.ok.injEq] at h
    rw [← h]
    exact hw
  | a :: rest, w, w1, hw, h => by
    simp only [run] at h
    split at h
    · rename_i w2 hstep
      refine run_reachable host rest w2 w1 ?_ h
      cases a with
      | Request id e =>
        simp only [step, Except.ok.injEq] at hstep
        rw [← hstep]
        exact Reachable.Request w id e hw
      | Cancel e b =>
        simp only [step, Except.ok.injEq] at hstep
        rw [← hstep]
        exact Reachable.Cancel w e b hw
      | DoPulse => exact Reachable.DoPulse w w2 _ hw hstep
      | RequestBlocking id tag =>
        simp only [step, Except.ok.injEq] at hstep
        rw [← hstep]
        exact Reachable.RequestBlocking w id tag hw
      | outside f =>
        simp only [step, Except.ok.injEq] at hstep
        rw [← hstep]
        exact Reachable.outside w f hw
    · simp at h

theorem getRequestEntryIn_first (e : Nat) :
    ∀ (l : List SClientModelRequest) (i : Nat) (x : SClientModelRequest),
      getRequestEntryIn l e = some (i, x) →
      ∀ j, j < i → ∀ y, l[j]? = some y → y.pEntity ≠ e
  | [], i, x, h => by simp [getRequestEntryIn] at h
  | z :: rest, i, x, h => by
    by_cases hz : z.pEntity = e
    · simp [getRequestEntryIn, hz] at h
      intro j hj
      omega
    · simp only [getRequestEntryIn, hz, if_false, Option.map_eq_some'] at h
      obtain ⟨⟨k, x1⟩, hk, hkx⟩ := h
      simp at hkx
      intro j hj y hy
      cases j with
      | zero =>
        simp at hy
        rw [← hy]
        exact hz
      | succ j1 =>
        simp at hy
        exact getRequestEntryIn_first e rest k x1 hk j1 (by omega) y hy

theorem reachable_demoState : Reachable quietHost demoState :=
  run_reachable quietHost
    [Action.Request 5 1, Action.Request 7 2,
      Action.outside (fun s => { s with loaded := [1007] })]
    (create { loaded := [], tick := 0 }) demoState (Reachable.create _) rfl

theorem drain_calls (host : Host σ) :
    ∀ (q : List Nat) (w : CClientModelRequestManager σ), Quiescent w →
      ∃ L, (drain host q w).calls = w.calls ++ L ∧ ∀ ev ∈ L, ∃ m, ev = Event.RemoveRef m
  | [], w, _ => ⟨[], by simp [drain], by simp⟩
  | e :: rest, w, hq => by
    have hne : e ∉ w.m_CancelQueue := by simp [hq.2]
    have hf := cancelLoop_fields host e w.m_Requests w
    have hc : (Cancel host w e false).calls =
        w.calls ++ (w.m_Requests.filter (fun x => decide (x.pEntity = e))).map
          (fun x => Event.RemoveRef x.pModel) := by
      rw [Cancel_idle host w e false hne hq.1]
      exact hf.2.1
    obtain ⟨L, h1, h2⟩ := drain_calls host rest (Cancel host w e false)
      (Cancel_quiescent host w e false hq)
    refine ⟨(w.m_Requests.filter (fun x => decide (x.pEntity = e))).map
      (fun x => Event.RemoveRef x.pModel) ++ L, ?_, ?_⟩
    · simp only [drain]
      rw [h1, hc, List.append_assoc]
    · intro ev hev
      rcases List.mem_append.1 hev with h | h
      · obtain ⟨x, _, hx⟩ := List.mem_map.1 h
        exact ⟨x.pModel, hx.symm⟩
      · exact h2 ev h

theorem DoPulse_unfold (host : Host σ) (fuel : Nat) (w w1 : CClientModelRequestManager σ)
    (hne : w.m_Requests ≠ []) (h : DoPulse host fuel w = Except.ok w1) :
    ∃ w2, pulseLoop host fuel { w with m_bDoingPulse := true } 0 = Except.ok w2 ∧
      w1 = drain host w2.m_CancelQueue (drainStart w2) := by
  have hlen : 0 < w.m_Requests.length := List.length_pos.2 hne
  unfold DoPulse at h
  simp only [gt_iff_lt, hlen, if_true] at h
  split at h
  · simp at h
  · rename_i w2 hloop
    refine ⟨w2, hloop, ?_⟩
    split at h
    · simp only [Except.ok.injEq] at h
      rw [← h]
      rfl
    · rename_i hq
      simp only [Except.ok.injEq] at h
      have hq2 : w2.m_CancelQueue = [] := by simpa using hq
      rw [← h, hq2]
      simp only [drain, drainStart]

/-! ### The retry of the scan within a time window -/

theorem window_refl (host : Host σ) (m t0 : Nat) (w : CClientModelRequestManager σ) :
    Window host m t0 w w :=
  ⟨Nat.le_refl _, fun h => ⟨h, fun _ => rfl⟩⟩

theorem window_trans {host : Host σ} {m t0 : Nat} {w1 w2 w3 : CClientModelRequestManager σ}
    (h12 : Window host m t0 w1 w2) (h23 : Window host m t0 w2 w3) :
    Window host m t0 w1 w3 := by
  refine ⟨Nat.le_trans h12.1 h23.1, fun hf => ?_⟩
  obtain ⟨hf2, hc2⟩ := h12.2 hf
  obtain ⟨hf3, hc3⟩ := h23.2 hf2
  refine ⟨hf3, fun hb => ?_⟩
  rw [hc3 hb, hc2 (Nat.le_trans h23.1 hb)]

/-- A step keeps the window when the tick count does not go back, every entry bound to the
model is an old one or has a fresh timer, and no load request on the model is made within
the window. -/
theorem window_step (host : Host σ) (m t0 : Nat) (w w1 : CClientModelRequestManager σ)
    (htick : host.GetTickCount w.game ≤ host.GetTickCount w1.game)
    (hmem : FreshSince host m t0 w → ∀ y ∈ w1.m_Requests, y.pModel = m →
      y ∈ w.m_Requests ∨
        (y.requestTimer.m_ullElapsedTime + t0 ≤ y.requestTimer.m_llUpdateTime ∧
          y.requestTimer.m_llUpdateTime ≤ host.GetTickCount w1.game))
    (hcalls : FreshSince host m t0 w → host.GetTickCount w1.game ≤ t0 + 2000 →
      w1.calls.filter (isReissueOf m) = w.calls.filter (isReissueOf m)) :
    Window host m t0 w w1 := by
  refine ⟨htick, fun hf => ⟨⟨Nat.le_trans hf.1 htick, fun y hy hym => ?_⟩, hcalls hf⟩⟩
  rcases hmem hf y hy hym with h | h
  · have h1 := hf.2 y h hym
    exact ⟨h1.1, Nat.le_trans h1.2 htick⟩
  · exact h

theorem window_same (host : Host σ) (m t0 : Nat) (w w1 : CClientModelRequestManager σ)
    (hg : w1.game = w.game) (hr : w1.m_Requests = w.m_Requests) (hc : w1.calls = w.calls) :
    Window host m t0 w w1 := by
  refine window_step host m t0 w w1 (by rw [hg]) ?_ ?_
  · intro _ y hy _
    rw [hr] at hy
    exact Or.inl hy
  · intro _ _
    rw [hc]

theorem window_call (host : Host σ) (hmono : host.MonotoneClock) (m t0 : Nat)
    (w : CClientModelRequestManager σ) (ev : Event) (hev : isReissueOf m ev = false) :
    Window host m t0 w (call host w ev) := by
  refine window_step host m t0 w _ (hmono _ _) ?_ ?_
  · intro _ y hy _
    exact Or.inl hy
  · intro _ _
    simp [List.filter_append, hev]

theorem window_erase (host : Host σ) (hmono : host.MonotoneClock) (m t0 : Nat)
    (w : CClientModelRequestManager σ) (j : Nat) (x : SClientModelRequest) :
    Window host m t0 w
      { call host w (Event.RemoveRef x.pModel) with
        m_Requests := (call host w (Event.RemoveRef x.pModel)).m_Requests.eraseIdx j } := by
  refine window_step host m t0 w _ (hmono _ _) ?_ ?_
  · intro _ y hy _
    exact Or.inl (List.mem_of_mem_eraseIdx hy)
  · intro _ _
    simp [List.filter_append, isReissueOf]

/-- The entry whose timer is read and not reset. -/
theorem window_read (host : Host σ) (m t0 : Nat) (w : CClientModelRequestManager σ) (i : Nat)
    (x : SClientModelRequest) (hi : w.m_Requests[i]? = some x) :
    Window host m t0 w
      { w with
        m_Requests := w.m_Requests.set i
          { x with requestTimer := (x.requestTimer.Get (host.GetTickCount w.game)).1 } } := by
  refine window_step host m t0 w _ (Nat.le_refl _) ?_ ?_
  · intro hf y hy hym
    rcases List.mem_or_eq_of_mem_set hy with h | h
    · exact Or.inl h
    · right
      subst h
      have hx := hf.2 x (mem_of_getElem?_eq_some _ i x hi) hym
      have hmin := Nat.min_le_left (host.GetTickCount w.game - x.requestTimer.m_llUpdateTime)
        x.requestTimer.m_uiMaxIncrement
      simp only [CElapsedTime.Get]
      omega
  · intro _ _
    rfl

/-- The entry for which the load is requested again.  For an entry bound to the model of
the window, with a fresh timer, this does not happen within the window. -/
theorem window_due (host : Host σ) (hmono : host.MonotoneClock) (m t0 : Nat)
    (w : CClientModelRequestManager σ) (i : Nat) (x : SClientModelRequest) (b : Bool)
    (tag : String) (hi : w.m_Requests[i]? = some x)
    (hdue : (x.requestTimer.Get (host.GetTickCount w.game)).2 > 2000) (t : CElapsedTime) :
    Window host m t0 w
      { call host w (Event.Request x.pModel b tag) with
        m_Requests := (call host w (Event.Request x.pModel b tag)).m_Requests.set i
          { x with
            requestTimer :=
              t.Reset (host.GetTickCount (call host w (Event.Request x.pModel b tag)).game) } } := by
  have htick : host.GetTickCount w.game ≤
      host.GetTickCount (host.exec w.game (Event.Request x.pModel b tag)) := hmono _ _
  refine window_step host m t0 w _ htick ?_ ?_
  · intro hf y hy hym
    rcases List.mem_or_eq_of_mem_set hy with h | h
    · exact Or.inl h
    · right
      subst h
      have h0 := hf.1
      simp only [CElapsedTime.Reset, call_game]
      omega
  · intro hf hb
    by_cases hxm : x.pModel = m
    · exfalso
      have hx := hf.2 x (mem_of_getElem?_eq_some _ i x hi) hxm
      have hmin := Nat.min_le_left (host.GetTickCount w.game - x.requestTimer.m_llUpdateTime)
        x.requestTimer.m_uiMaxIncrement
      have hb1 : host.GetTickCount (host.exec w.game (Event.Request x.pModel b tag))
          ≤ t0 + 2000 := hb
      simp only [CElapsedTime.Get] at hdue
      omega
    · simp [List.filter_append, isReissueOf, hxm]

theorem window_Request (host : Host σ) (hmono : host.MonotoneClock) (m t0 : Nat)
    (w : CClientModelRequestManager σ) (id e : Nat) :
    Window host m t0 w (Request host w id e).2 := by
  refine Request_induct host w id e (fun r => Window host m t0 w r.2) ?_ ?_ ?_ ?_ ?_ ?_
  · intro _
    exact window_refl host m t0 w
  · intros
    exact window_refl host m t0 w
  · intro pInfo iter pEntry _ _ _ _
    refine window_step host m t0 w _ (Nat.le_trans (hmono _ _) (hmono _ _)) ?_ ?_
    · intro _ y hy _
      exact Or.inl (List.mem_of_mem_eraseIdx hy)
    · intro _ _
      simp [List.filter_append, isReissueOf]
  · intro pInfo iter pEntry _ _ _ _
    have h1 : host.GetTickCount w.game ≤
        host.GetTickCount (host.exec w.game (Event.RemoveRef pEntry.pModel)) := hmono _ _
    have h2 : host.GetTickCount (host.exec w.game (Event.RemoveRef pEntry.pModel)) ≤
        host.GetTickCount (host.exec (host.exec w.game (Event.RemoveRef pEntry.pModel))
          (Event.ModelAddRef pInfo false "CClientModelRequestManager::Request")) := hmono _ _
    refine window_step host m t0 w _ (Nat.le_trans h1 h2) ?_ ?_
    · intro hf y hy _
      rcases List.mem_or_eq_of_mem_set hy with h | h
      · exact Or.inl h
      · right
        subst h
        have h0 := hf.1
        simp only [CElapsedTime.Reset]
        omega
    · intro _ _
      simp [List.filter_append, isReissueOf]
  · intro pInfo _ _ _
    refine window_step host m t0 w _ (hmono _ _) ?_ ?_
    · intro _ y hy _
      exact Or.inl hy
    · intro _ _
      simp [List.filter_append, isReissueOf]
  · intro pInfo _ _ _
    have h1 : host.GetTickCount w.game ≤
        host.GetTickCount (host.exec w.game
          (Event.ModelAddRef pInfo false "CClientModelRequestManager::Request #2")) := hmono _ _
    refine window_step host m t0 w _ h1 ?_ ?_
    · intro hf y hy _
      rcases List.mem_append.1 hy with h | h
      · exact Or.inl h
      · right
        have h0 := hf.1
        simp only [List.mem_singleton] at h
        subst h
        simp only
        omega
    · intro _ _
      simp [List.filter_append, isReissueOf]

theorem cancelLoop_tick (host : Host σ) (hmono : host.MonotoneClock) (e : Nat) :
    ∀ (l : List SClientModelRequest) (w : CClientModelRequestManager σ),
      host.GetTickCount w.game ≤ host.GetTickCount (cancelLoop host e l w).2.game
  | [], w => Nat.le_refl _
  | x :: rest, w => by
    by_cases hx : x.pEntity = e
    · simp only [cancelLoop, hx, if_true]
      exact Nat.le_trans (hmono _ _)
        (cancelLoop_tick host hmono e rest (call host w (Event.RemoveRef x.pModel)))
    · simp only [cancelLoop, hx, if_false]
      exact cancelLoop_tick host hmono e rest w

theorem filter_isReissueOf_RemoveRef (m : Nat) :
    ∀ l : List SClientModelRequest,
      (l.map (fun x => Event.RemoveRef x.pModel)).filter (isReissueOf m) = []
  | [] => rfl
  | x :: rest => by
    simp [List.filter_cons, isReissueOf, filter_isReissueOf_RemoveRef m rest]

theorem window_Cancel (host : Host σ) (hmono : host.MonotoneClock) (m t0 : Nat)
    (w : CClientModelRequestManager σ) (e : Nat) (b : Bool) :
    Window host m t0 w (Cancel host w e b) := by
  unfold Cancel
  split
  · exact window_refl host m t0 w
  · split
    · cases b
      · refine window_step host m t0 w _ (Nat.le_refl _) ?_ ?_
        · intro _ y hy _
          exact Or.inl hy
        · intro _ _
          simp [assertFailed, List.filter_append, isReissueOf]
      · exact window_same host m t0 w _ rfl rfl rfl
    · have hf := cancelLoop_fields host e w.m_Requests w
      refine window_step host m t0 w _ (cancelLoop_tick host hmono e w.m_Requests w) ?_ ?_
      · intro _ y hy _
        have hy1 : y ∈ (cancelLoop host e w.m_Requests w).1 := hy
        rw [hf.1] at hy1
        exact Or.inl (List.mem_filter.1 hy1).1
      · intro _ _
        show (cancelLoop host e w.m_Requests w).2.calls.filter (isReissueOf m) = _
        rw [hf.2.1, List.filter_append, filter_isReissueOf_RemoveRef, List.append_nil]

theorem reenter_window (host : Host σ) (hmono : host.MonotoneClock) (m t0 : Nat) :
    ∀ (script : List Call) (w : CClientModelRequestManager σ) (i : Nat)
      (w1 : CClientModelRequestManager σ) (j : Nat),
      reenter host script w i = some (w1, j) → Window host m t0 w w1
  | [], w, i, w1, j, h => by
    simp [reenter] at h
    rw [← h.1]
    exact window_refl host m t0 w
  | Call.Cancel e b :: rest, w, i, w1, j, h => by
    simp only [reenter] at h
    exact window_trans (window_Cancel host hmono m t0 w e b)
      (reenter_window host hmono m t0 rest _ i w1 j h)
  | Call.Request id e :: rest, w, i, w1, j, h => by
    simp only [reenter] at h
    have hk := window_Request host hmono m t0 w id e
    split at h
    · split at h
      · split at h
        · exact window_trans hk (reenter_window host hmono m t0 rest _ _ w1 j h)
        · split at h
          · simp at h
          · exact window_trans hk (reenter_window host hmono m t0 rest _ _ w1 j h)
      · exact window_trans hk (reenter_window host hmono m t0 rest _ _ w1 j h)
    · exact window_trans hk (reenter_window host hmono m t0 rest _ _ w1 j h)

theorem pulseLoop_window (host : Host σ) (hmono : host.MonotoneClock) (m t0 : Nat) :
    ∀ (fuel : Nat) (w : CClientModelRequestManager σ) (i : Nat)
      (w1 : CClientModelRequestManager σ),
      pulseLoop host fuel w i = Except.ok w1 → Window host m t0 w w1
  | 0, w, i, w1, h => by simp [pulseLoop] at h
  | fuel + 1, w, i, w1, h => by
    unfold pulseLoop at h
    split at h
    · simp at h
      rw [← h]
      exact window_refl host m t0 w
    · rename_i pEntry hi
      split at h
      · dsimp only at h
        split at h
        · simp at h
        · rename_i w3 j hre
          split at h
          · simp at h
          · rename_i pEntry3 hj
            have k1 := window_call host hmono m t0 w (Event.MakeCustomModel pEntry.pModel) rfl
            have k2 := window_call host hmono m t0
              (call host w (Event.MakeCustomModel pEntry.pModel))
              (Event.ModelRequestCallback pEntry.pEntity pEntry.pModel) rfl
            have k3 := reenter_window host hmono m t0 _ _ _ _ _ hre
            have k4 := window_erase host hmono m t0 w3 j pEntry3
            exact window_trans (window_trans (window_trans k1 k2) k3)
              (window_trans k4 (pulseLoop_window host hmono m t0 fuel _ _ w1 h))
      · dsimp only at h
        split at h
        · rename_i hdue
          split at h
          · refine window_trans ?_ (pulseLoop_window host hmono m t0 fuel _ _ w1 h)
            exact window_due host hmono m t0 w i pEntry false
              "CClientModelRequestManager::DoPulse #1" hi hdue _
          · refine window_trans ?_ (pulseLoop_window host hmono m t0 fuel _ _ w1 h)
            exact window_due host hmono m t0 w i pEntry true
              "CClientModelRequestManager::DoPulse #2" hi hdue _
        · refine window_trans ?_ (pulseLoop_window host hmono m t0 fuel _ _ w1 h)
          exact window_read host m t0 w i pEntry hi

theorem drain_window (host : Host σ) (hmono : host.MonotoneClock) (m t0 : Nat) :
    ∀ (q : List Nat) (w : CClientModelRequestManager σ), Window host m t0 w (drain host q w)
  | [], w => window_refl host m t0 w
  | e :: rest, w =>
    window_trans (window_Cancel host hmono m t0 w e false) (drain_window host hmono m t0 rest _)

theorem DoPulse_window (host : Host σ) (hmono : host.MonotoneClock) (m t0 : Nat) (fuel : Nat)
    (w w1 : CClientModelRequestManager σ) (h : DoPulse host fuel w = Except.ok w1) :
    Window host m t0 w w1 := by
  unfold DoPulse at h
  split at h
  · split at h
    · simp at h
    · rename_i w2 hloop
      have k0 : Window host m t0 w { w with m_bDoingPulse := true } :=
        window_same host m t0 w _ rfl rfl rfl
      have k1 := window_trans k0 (pulseLoop_window host hmono m t0 fuel _ 0 w2 hloop)
      dsimp only at h
      split at h
      · simp only [Except.ok.injEq] at h
        rw [← h]
        have k2 : Window host m t0 w2 { w2 with m_bDoingPulse := false, m_CancelQueue := [] } :=
          window_same host m t0 w2 _ rfl rfl rfl
        exact window_trans k1 (window_trans k2 (drain_window host hmono m t0 _ _))
      · simp only [Except.ok.injEq] at h
        rw [← h]
        exact window_trans k1 (window_same host m t0 w2 _ rfl rfl rfl)
  · simp only [Except.ok.injEq] at h
    rw [← h]
    exact window_refl host m t0 w

theorem step_window (host : Host σ) (hmono : host.MonotoneClock) (m t0 : Nat)
    (w w1 : CClientModelRequestManager σ) (a : Action σ) (ha : windowAction host a)
    (h : step host w a = Except.ok w1) : Window host m t0 w w1 := by
  cases a with
  | Request id e =>
    simp only [step, Except.ok.injEq] at h
    rw [← h]
    exact window_Request host hmono m t0 w id e
  | Cancel e b =>
    simp only [step, Except.ok.injEq] at h
    rw [← h]
    exact window_Cancel host hmono m t0 w e b
  | DoPulse => exact DoPulse_window host hmono m t0 _ w w1 h
  | RequestBlocking id tag => exact False.elim ha
  | outside f =>
    simp only [step, Except.ok.injEq] at h
    rw [← h]
    refine window_step host m t0 w _ (ha w.game) ?_ ?_
    · intro _ y hy _
      exact Or.inl hy
    · intro _ _
      rfl

theorem run_window (host : Host σ) (hmono : host.MonotoneClock) (m t0 : Nat) :
    ∀ (actions : List (Action σ)) (w w1 : CClientModelRequestManager σ),
      (∀ a ∈ actions, windowAction host a) → run host actions w = Except.ok w1 →
      Window host m t0 w w1
  | [], w, w1, _, h => by
    simp only [run, Except.ok.injEq] at h
    rw [← h]
    exact window_refl host m t0 w
  | a :: rest, w, w1, ha, h => by
    simp only [run] at h
    split at h
    · rename_i w2 hstep
      exact window_trans
        (step_window host hmono m t0 w w2 a (ha a (List.mem_cons_self a rest)) hstep)
        (run_window host hmono m t0 rest w2 w1
          (fun a1 h1 => ha a1 (List.mem_cons_of_mem a h1)) h)
    · simp at h

/-- The scan at an entry that is not loaded: one step of `pulseLoop`, for every host. -/
theorem pulseLoop_retry_step (host : Host σ) (w : CClientModelRequestManager σ) (i : Nat)
    (pEntry : SClientModelRequest) (hi : w.m_Requests[i]? = some pEntry)
    (hl : host.IsLoaded w.game pEntry.pModel = false) (fuel : Nat) :
    pulseLoop host (fuel + 1) w i =
      if (pEntry.requestTimer.Get (host.GetTickCount w.game)).2 > 2000 then
        if host.IsASyncLoadingEnabled w.game then
          pulseLoop host fuel
            { w with
              m_Requests := w.m_Requests.set i
                { pEntry with
                  requestTimer :=
                    (pEntry.requestTimer.Get (host.GetTickCount w.game)).1.Reset
                      (host.GetTickCount (host.exec w.game
                        (Event.Request pEntry.pModel false
                          "CClientModelRequestManager::DoPulse #1"))) }
              game := host.exec w.game
                (Event.Request pEntry.pModel false "CClientModelRequestManager::DoPulse #1")
              calls := w.calls ++
                [Event.Request pEntry.pModel false "CClientModelRequestManager::DoPulse #1"] }
            (i + 1)
        else
          pulseLoop host fuel
            { w with
              m_Requests := w.m_Requests.set i
                { pEntry with
                  requestTimer :=
                    (pEntry.requestTimer.Get (host.GetTickCount w.game)).1.Reset
                      (host.GetTickCount (host.exec w.game
                        (Event.Request pEntry.pModel true
                          "CClientModelRequestManager::DoPulse #2"))) }
              game := host.exec w.game
                (Event.Request pEntry.pModel true "CClientModelRequestManager::DoPulse #2")
              calls := w.calls ++
                [Event.Request pEntry.pModel true "CClientModelRequestManager::DoPulse #2"] }
            (i + 1)
      else
        pulseLoop host fuel
          { w with
            m_Requests := w.m_Requests.set i
              { pEntry with
                requestTimer := (pEntry.requestTimer.Get (host.GetTickCount w.game)).1 } }
          (i + 1) := by
  rw [pulseLoop]
  simp only [hi, hl]
  by_cases hdue : (pEntry.requestTimer.Get (host.GetTickCount w.game)).2 > 2000
  · by_cases ha : host.IsASyncLoadingEnabled w.game = true
    · simp [hdue, ha, call]
    · simp [hdue, ha, call]
  · simp [hdue]

/-- `DoPulse` on a list that is not empty: the scan from the head of the list with the
pulsing flag set, then the drain of the cancel queue. -/
theorem DoPulse_scan (host : Host σ) (fuel : Nat) (w : CClientModelRequestManager σ)
    (hne : w.m_Requests ≠ []) :
    DoPulse host fuel w =
      match pulseLoop host fuel { w with m_bDoingPulse := true } 0 with
      | Except.error f => Except.error f
      | Except.ok w1 => Except.ok (drain host w1.m_CancelQueue (drainStart w1)) := by
  have hlen : 0 < w.m_Requests.length := List.length_pos.2 hne
  unfold DoPulse
  simp only [gt_iff_lt, hlen, if_true]
  split
  · rfl
  · rename_i w2 _
    split
    · rfl
    · rename_i hq
      have hq2 : w2.m_CancelQueue = [] := by simpa using hq
      rw [hq2]
      simp only [drain, drainStart]

/-! ### The retry of the scan for a model that never loads -/

theorem get_mono (t : CElapsedTime) (a b : Nat) (h : a ≤ b) : (t.Get a).2 ≤ (t.Get b).2 := by
  simp only [CElapsedTime.Get]
  omega

theorem pulseLoop_calls (host : Host σ) (hco : host.CancelOnly) :
    ∀ (fuel : Nat) (w : CClientModelRequestManager σ) (i : Nat)
      (w1 : CClientModelRequestManager σ),
      w.m_bDoingPulse = true → pulseLoop host fuel w i = Except.ok w1 →
      ∃ L, w1.calls = w.calls ++ L
  | 0, w, i, w1, _, h => by simp [pulseLoop] at h
  | fuel + 1, w, i, w1, hp, h => by
    unfold pulseLoop at h
    cases hi : w.m_Requests[i]? with
    | none =>
      simp only [hi, Except.ok.injEq] at h
      exact ⟨[], by rw [← h, List.append_nil]⟩
    | some pEntry =>
      simp only [hi] at h
      by_cases hl : host.IsLoaded w.game pEntry.pModel = true
      · simp only [hl, if_true] at h
        obtain ⟨w3, h1, h2, _, h4, h5, _, _⟩ :=
          reenter_cancelOnly host (host.callback pEntry.pEntity pEntry.pModel)
            (call host (call host w (Event.MakeCustomModel pEntry.pModel))
              (Event.ModelRequestCallback pEntry.pEntity pEntry.pModel)) i
            (hco pEntry.pEntity pEntry.pModel) hp
        rw [h1] at h
        have h3 : w3.m_Requests[i]? = some pEntry := by rw [h2]; exact hi
        simp only [h3] at h
        obtain ⟨L, hL⟩ := pulseLoop_calls host hco fuel _ _ w1 (by exact h5) h
        refine ⟨[Event.MakeCustomModel pEntry.pModel,
          Event.ModelRequestCallback pEntry.pEntity pEntry.pModel,
          Event.RemoveRef pEntry.pModel] ++ L, ?_⟩
        rw [hL]
        simp [h4]
      · have hl1 : host.IsLoaded w.game pEntry.pModel = false := by simpa using hl
        simp only [hl1, Bool.false_eq_true, if_false] at h
        by_cases hd : (pEntry.requestTimer.Get (host.GetTickCount w.game)).2 > 2000
        · simp only [hd, if_true] at h
          split at h
          · obtain ⟨L, hL⟩ := pulseLoop_calls host hco fuel _ _ w1 (by exact hp) h
            refine ⟨Event.Request pEntry.pModel false "CClientModelRequestManager::DoPulse #1"
              :: L, ?_⟩
            rw [hL]
            simp
          · obtain ⟨L, hL⟩ := pulseLoop_calls host hco fuel _ _ w1 (by exact hp) h
            refine ⟨Event.Request pEntry.pModel true "CClientModelRequestManager::DoPulse #2"
              :: L, ?_⟩
            rw [hL]
            simp
        · simp only [hd, if_false] at h
          have hL := pulseLoop_calls host hco fuel _ _ w1 (by exact hp) h
          exact hL

/-- When the callbacks only queue cancels and the clock does not go back, the scan requests
again, at least once, the load of a model that never loads, if from the position of the scan
on there is an entry bound to the model whose timer already reads more than 2000. -/
theorem pulseLoop_reissues (host : Host σ) (hco : host.CancelOnly) (hmono : host.MonotoneClock)
    (m : Nat) (hnever : ∀ s, host.IsLoaded s m = false) :
    ∀ (fuel : Nat) (w : CClientModelRequestManager σ) (i : Nat)
      (w1 : CClientModelRequestManager σ),
      w.m_bDoingPulse = true → pulseLoop host fuel w i = Except.ok w1 →
      ∀ (k : Nat) (x : SClientModelRequest), i ≤ k → w.m_Requests[k]? = some x →
        x.pModel = m → (x.requestTimer.Get (host.GetTickCount w.game)).2 > 2000 →
        (w.calls.filter (isReissueOf m)).length < (w1.calls.filter (isReissueOf m)).length
  | 0, w, i, w1, _, h => by simp [pulseLoop] at h
  | fuel + 1, w, i, w1, hp, h => by
    intro k x hik hk hxm hdue
    unfold pulseLoop at h
    cases hi : w.m_Requests[i]? with
    | none =>
      exfalso
      have h1 : w.m_Requests.length ≤ i := by
        rcases Nat.lt_or_ge i w.m_Requests.length with h2 | h2
        · rw [List.getElem?_eq_getElem h2] at hi
          simp at hi
        · exact h2
      rw [List.getElem?_eq_none (Nat.le_trans h1 hik)] at hk
      simp at hk
    | some pEntry =>
      simp only [hi] at h
      by_cases hl : host.IsLoaded w.game pEntry.pModel = true
      · simp only [hl, if_true] at h
        obtain ⟨w3, h1, h2, h3g, h4, h5, _, _⟩ :=
          reenter_cancelOnly host (host.callback pEntry.pEntity pEntry.pModel)
            (call host (call host w (Event.MakeCustomModel pEntry.pModel))
              (Event.ModelRequestCallback pEntry.pEntity pEntry.pModel)) i
            (hco pEntry.pEntity pEntry.pModel) hp
        rw [h1] at h
        have h3 : w3.m_Requests[i]? = some pEntry := by rw [h2]; exact hi
        simp only [h3] at h
        have hki : i < k := by
          rcases Nat.lt_or_ge i k with h6 | h6
          · exact h6
          · exfalso
            have h7 : k = i := Nat.le_antisymm h6 hik
            rw [h7, hi] at hk
            simp only [Option.some.injEq] at hk
            rw [hk, hxm, hnever] at hl
            simp at hl
        have htick : host.GetTickCount w.game ≤
            host.GetTickCount (host.exec w3.game (Event.RemoveRef pEntry.pModel)) := by
          rw [h3g]
          exact Nat.le_trans (Nat.le_trans (hmono _ _) (hmono _ _)) (hmono _ _)
        have hk1 : (w3.m_Requests.eraseIdx i)[k - 1]? = some x := by
          rw [List.getElem?_eraseIdx_of_ge _ i (k - 1) (by omega), h2]
          have h8 : k - 1 + 1 = k := by omega
          rw [h8]
          exact hk
        have ih := pulseLoop_reissues host hco hmono m hnever fuel _ _ w1 (by exact h5) h (k - 1) x
          (by omega) hk1 hxm
          (Nat.lt_of_lt_of_le hdue (get_mono x.requestTimer _ _ htick))
        have hc : ((call host w3 (Event.RemoveRef pEntry.pModel)).calls.filter
            (isReissueOf m)).length = (w.calls.filter (isReissueOf m)).length := by
          simp [h4, List.filter_append, isReissueOf]
        have ih1 : ((call host w3 (Event.RemoveRef pEntry.pModel)).calls.filter
            (isReissueOf m)).length < (w1.calls.filter (isReissueOf m)).length := ih
        omega
      · have hl1 : host.IsLoaded w.game pEntry.pModel = false := by simpa using hl
        simp only [hl1, Bool.false_eq_true, if_false] at h
        by_cases hd : (pEntry.requestTimer.Get (host.GetTickCount w.game)).2 > 2000
        · simp only [hd, if_true] at h
          have hev : ∃ b tag,
              (if host.IsASyncLoadingEnabled w.game = true then
                call host w
                  (Event.Request pEntry.pModel false "CClientModelRequestManager::DoPulse #1")
              else
                call host w
                  (Event.Request pEntry.pModel true "CClientModelRequestManager::DoPulse #2"))
                = call host w (Event.Request pEntry.pModel b tag) := by
            split
            · exact ⟨_, _, rfl⟩
            · exact ⟨_, _, rfl⟩
          obtain ⟨b, tag, hev1⟩ := hev
          rw [hev1] at h
          have htick : host.GetTickCount w.game ≤
              host.GetTickCount (host.exec w.game (Event.Request pEntry.pModel b tag)) :=
            hmono _ _
          rcases Nat.lt_or_ge i k with h6 | h6
          · have hk1 : (w.m_Requests.set i
                { pEntry with
                  requestTimer :=
                    (pEntry.requestTimer.Get (host.GetTickCount w.game)).1.Reset
                      (host.GetTickCount (host.exec w.game
                        (Event.Request pEntry.pModel b tag))) })[k]? = some x := by
              rw [List.getElem?_set_ne (by omega)]
              exact hk
            have ih := pulseLoop_reissues host hco hmono m hnever fuel _ _ w1 (by exact hp) h k x
              (by omega) hk1 hxm
              (Nat.lt_of_lt_of_le hdue (get_mono x.requestTimer _ _ htick))
            have ih1 : ((w.calls ++ [Event.Request pEntry.pModel b tag]).filter
                (isReissueOf m)).length < (w1.calls.filter (isReissueOf m)).length := ih
            rw [List.filter_append, List.length_append] at ih1
            omega
          · have h7 : k = i := Nat.le_antisymm h6 hik
            rw [h7, hi] at hk
            simp only [Option.some.injEq] at hk
            obtain ⟨L, hL⟩ := pulseLoop_calls host hco fuel _ _ w1 (by exact hp) h
            have hL1 : w1.calls = (w.calls ++ [Event.Request pEntry.pModel b tag]) ++ L := hL
            rw [hL1, List.filter_append, List.filter_append, List.length_append,
              List.length_append]
            have h9 : ([Event.Request pEntry.pModel b tag].filter (isReissueOf m)).length = 1 := by
              rw [hk, hxm]
              simp [isReissueOf]
            omega
        · simp only [hd, if_false] at h
          rcases Nat.lt_or_ge i k with h6 | h6
          · have hk1 : (w.m_Requests.set i
                { pEntry with
                  requestTimer :=
                    (pEntry.requestTimer.Get (host.GetTickCount w.game)).1 })[k]? = some x := by
              rw [List.getElem?_set_ne (by omega)]
              exact hk
            have ih := pulseLoop_reissues host hco hmono m hnever fuel _ _ w1 (by exact hp) h k x
              (by omega) hk1 hxm hdue
            exact ih
          · exfalso
            have h7 : k = i := Nat.le_antisymm h6 hik
            rw [h7, hi] at hk
            simp only [Option.some.injEq] at hk
            rw [hk] at hd
            exact hd hdue

/-- When the callbacks only queue cancels and the clock does not go back: `DoPulse` returns,
and it has requested again, at least once, the load of a model that never loads, if an entry
bound to the model has a timer that reads more than 2000 when `DoPulse` is called. -/
theorem DoPulse_reissues (host : Host σ) (hco : host.CancelOnly) (hmono : host.MonotoneClock)
    (m : Nat) (hnever : ∀ s, host.IsLoaded s m = false) (w : CClientModelRequestManager σ)
    (k : Nat) (x : SClientModelRequest) (hk : w.m_Requests[k]? = some x) (hxm : x.pModel = m)
    (hdue : (x.requestTimer.Get (host.GetTickCount w.game)).2 > 2000)
    (fuel : Nat) (hf : w.m_Requests.length < fuel) :
    ∃ w1, DoPulse host fuel w = Except.ok w1 ∧
      (w.calls.filter (isReissueOf m)).length < (w1.calls.filter (isReissueOf m)).length := by
  obtain ⟨w1, h1⟩ := DoPulse_total host hco fuel w hf
  refine ⟨w1, h1, ?_⟩
  have hne : w.m_Requests ≠ [] := by
    intro hnil
    rw [hnil] at hk
    simp at hk
  obtain ⟨w2, h2, h3⟩ := DoPulse_unfold host fuel w w1 hne h1
  have h4 := pulseLoop_reissues host hco hmono m hnever fuel _ 0 w2 rfl h2 k x
    (Nat.zero_le k) hk hxm hdue
  obtain ⟨L, hL, _⟩ := drain_calls host w2.m_CancelQueue (drainStart w2) ⟨rfl, rfl⟩
  have h5 : w1.calls = w2.calls ++ L := by
    rw [h3, hL]
    rfl
  have h6 : (w.calls.filter (isReissueOf m)).length
      < (w2.calls.filter (isReissueOf m)).length := h4
  rw [h5, List.filter_append, List.length_append]
  omega

/-! ## Properties of the specification -/

/-- C1: starting from the constructed manager, every finite sequence of top-level calls
(`Request`, `Cancel`, `DoPulse`, also `RequestBlocking` and changes of the outside state
between calls) with callbacks that do not call back into the manager runs to an end, and the
list `m_Requests` then has at most one entry whose `pEntity` is any given requester. -/
theorem at_most_one_entry_per_requester (host : Host σ) (hnr : host.NonReentrant) (game : σ)
    (actions : List (Action σ)) :
    ∃ w, run host actions (create game) = Except.ok w ∧
      ∀ pRequester,
        (w.m_Requests.filter (fun pEntry => decide (pEntry.pEntity = pRequester))).length
          ≤ 1 := by
  obtain ⟨w, h1, h2, _, _⟩ :=
    run_keeps host (nonReentrant_cancelOnly host hnr) actions (create game)
  refine ⟨w, h1, fun e => ?_⟩
  have h3 := h2 (atMostOne_create game) e
  rw [countOwned, countBy_eq_length_filter] at h3
  exact h3

/-- The instance of C1 for the quiet host and a run in which entity 1 asks for model 5, then
for model 7, entity 2 asks for model 7, the model gets loaded and a pulse follows. -/
theorem at_most_one_entry_per_requester_witness :
    quietHost.NonReentrant ∧
    ∃ w, run quietHost
        [Action.Request 5 1, Action.Request 7 1, Action.Request 7 2,
          Action.outside (fun s => { s with loaded := [1007] }), Action.DoPulse]
        (create { loaded := [], tick := 0 }) = Except.ok w ∧
      ∀ pRequester,
        (w.m_Requests.filter (fun pEntry => decide (pEntry.pEntity = pRequester))).length
          ≤ 1 :=
  ⟨fun _ _ => rfl, at_most_one_entry_per_requester quietHost (fun _ _ => rfl) _ _⟩

/-- C2: starting from the constructed manager, after every finite sequence of top-level
calls with callbacks that do not call back into the manager, for every model the number of
`ModelAddRef` calls made on it less the number of `RemoveRef` calls made on it is the number
of entries of `m_Requests` bound to it; the two numbers of calls are equal when no entry is
bound to the model. -/
theorem reference_balance (host : Host σ) (hnr : host.NonReentrant) (game : σ)
    (actions : List (Action σ)) :
    ∃ w, run host actions (create game) = Except.ok w ∧
      ∀ pModel,
        ((countAddRef pModel w.calls : Int) - (countRemoveRef pModel w.calls : Int)
          = ((w.m_Requests.filter (fun pEntry => decide (pEntry.pModel = pModel))).length
              : Int)) ∧
        ((∀ pEntry ∈ w.m_Requests, pEntry.pModel ≠ pModel) →
          countAddRef pModel w.calls = countRemoveRef pModel w.calls) := by
  obtain ⟨w, h1, _, h2, _⟩ :=
    run_keeps host (nonReentrant_cancelOnly host hnr) actions (create game)
  refine ⟨w, h1, fun m => ?_⟩
  have h3 := h2 m
  simp only [create, countAddRef, countRemoveRef, countBound, countBy] at h3
  rw [countBy_eq_length_filter] at h3
  refine ⟨by omega, fun hno => ?_⟩
  have h4 : w.m_Requests.filter (fun pEntry => decide (pEntry.pModel = m)) = [] := by
    rw [List.filter_eq_nil_iff]
    intro x hx
    simpa using hno x hx
  rw [h4] at h3
  simp at h3
  omega

/-- The instance of C2 for the quiet host and the same run as for C1. -/
theorem reference_balance_witness :
    quietHost.NonReentrant ∧
    ∃ w, run quietHost
        [Action.Request 5 1, Action.Request 7 1, Action.Request 7 2,
          Action.outside (fun s => { s with loaded := [1007] }), Action.DoPulse]
        (create { loaded := [], tick := 0 }) = Except.ok w ∧
      ∀ pModel,
        ((countAddRef pModel w.calls : Int) - (countRemoveRef pModel w.calls : Int)
          = ((w.m_Requests.filter (fun pEntry => decide (pEntry.pModel = pModel))).length
              : Int)) ∧
        ((∀ pEntry ∈ w.m_Requests, pEntry.pModel ≠ pModel) →
          countAddRef pModel w.calls = countRemoveRef pModel w.calls) :=
  ⟨fun _ _ => rfl, reference_balance quietHost (fun _ _ => rfl) _ _⟩

/-- C3: in a state with at most one entry per requester, and with a game in which a
`RemoveRef` on one model does not change whether another model is loaded, `Request` returns
true exactly when the ID is known to the game, its model is loaded at call time, and the
requester has no entry bound to that model; in every other case it returns false.  A true
result implies that the model is loaded. -/
theorem Request_returns_true_iff (host : Host σ) (hloc : host.RemoveRefLocal)
    (w : CClientModelRequestManager σ) (hone : AtMostOne w) (usModelID pRequester : Nat) :
    ((Request host w usModelID pRequester).1 = true ↔
      ∃ pInfo, host.GetModelInfo usModelID = some pInfo ∧
        host.IsLoaded w.game pInfo = true ∧
        ∀ pEntry ∈ w.m_Requests, ¬ (pEntry.pEntity = pRequester ∧ pEntry.pModel = pInfo)) ∧
    ((Request host w usModelID pRequester).1 = true → IsLoaded host w usModelID = true) := by
  refine Request_induct host w usModelID pRequester
    (fun r => (r.1 = true ↔
      ∃ pInfo, host.GetModelInfo usModelID = some pInfo ∧
        host.IsLoaded w.game pInfo = true ∧
        ∀ pEntry ∈ w.m_Requests, ¬ (pEntry.pEntity = pRequester ∧ pEntry.pModel = pInfo)) ∧
      (r.1 = true → IsLoaded host w usModelID = true)) ?_ ?_ ?_ ?_ ?_ ?_
  · intro hid
    simp [hid]
  · intro pInfo iter pEntry hid hget hm
    have hg := getRequestEntryIn_some pRequester w.m_Requests iter pEntry hget
    have hmem := mem_of_getElem?_eq_some w.m_Requests iter pEntry hg.1
    simp only [Bool.false_eq_true, false_iff, false_implies, and_true, hid, Option.some.injEq,
      not_exists, not_and]
    intro p hp _ hall
    exact hall pEntry hmem hg.2 (by rw [← hp, hm])
  · intro pInfo iter pEntry hid hget hm hl
    have hl2 : host.IsLoaded w.game pInfo = true := by
      rw [← hloc w.game pEntry.pModel pInfo (fun h => hm h.symm)]
      exact hl
    refine ⟨⟨fun _ => ⟨pInfo, hid, hl2, ?_⟩, fun _ => rfl⟩, fun _ => ?_⟩
    · intro y hy hye
      have h1 := getRequestEntryIn_unique pRequester w.m_Requests iter pEntry hget
        (hone pRequester) y hy hye.1
      rw [h1] at hye
      exact hm hye.2.symm
    · simp [IsLoaded, hid, hl2]
  · intro pInfo iter pEntry hid hget hm hl
    have hl2 : host.IsLoaded w.game pInfo = false := by
      rw [← hloc w.game pEntry.pModel pInfo (fun h => hm h.symm)]
      exact hl
    simp only [Bool.false_eq_true, false_iff, false_implies, and_true, hid, Option.some.injEq,
      not_exists, not_and]
    intro p hp hlp
    subst hp
    rw [hl2] at hlp
    exact absurd hlp (by decide)
  · intro pInfo hid hget hl
    have hz := (getRequestEntryIn_none pRequester w.m_Requests).1 hget
    have hno := (countBy_eq_zero _ pRequester w.m_Requests).1 hz
    refine ⟨⟨fun _ => ⟨pInfo, hid, hl, fun y hy hye => hno y hy hye.1⟩, fun _ => rfl⟩,
      fun _ => ?_⟩
    simp [IsLoaded, hid, hl]
  · intro pInfo hid hget hl
    simp only [Bool.false_eq_true, false_iff, false_implies, and_true, hid, Option.some.injEq,
      not_exists, not_and]
    intro p hp hlp
    subst hp
    rw [hl] at hlp
    exact absurd hlp (by decide)

/-- The instance of C3 for the quiet host, the demo state and the request of model 7 by
entity 1. -/
theorem Request_returns_true_iff_witness :
    quietHost.RemoveRefLocal ∧ AtMostOne demoState ∧
    (((Request quietHost demoState 7 1).1 = true ↔
      ∃ pInfo, quietHost.GetModelInfo 7 = some pInfo ∧
        quietHost.IsLoaded demoState.game pInfo = true ∧
        ∀ pEntry ∈ demoState.m_Requests, ¬ (pEntry.pEntity = 1 ∧ pEntry.pModel = pInfo)) ∧
    ((Request quietHost demoState 7 1).1 = true → IsLoaded quietHost demoState 7 = true)) :=
  ⟨fun _ _ _ _ => rfl, atMostOne_demoState,
    Request_returns_true_iff quietHost (fun _ _ _ _ => rfl) demoState atMostOne_demoState 7 1⟩

/-- C5: for a known ID whose model is not loaded and a requester with no entry, `Request`
returns false, makes the one call `ModelAddRef` on the model (no `RemoveRef`, no
`MakeCustomModel`), and appends one entry binding the requester to the model, its timer
reset at the current tick count with the clamp of 500, at the end of the list; the cancel
queue and the pulsing flag are unchanged. -/
theorem Request_new_entry (host : Host σ) (w : CClientModelRequestManager σ)
    (usModelID pRequester pInfo : Nat) (hid : host.GetModelInfo usModelID = some pInfo)
    (hl : host.IsLoaded w.game pInfo = false)
    (hno : ∀ pEntry ∈ w.m_Requests, pEntry.pEntity ≠ pRequester) :
    (Request host w usModelID pRequester).1 = false ∧
    (Request host w usModelID pRequester).2.calls =
      w.calls ++ [Event.ModelAddRef pInfo false "CClientModelRequestManager::Request #2"] ∧
    (Request host w usModelID pRequester).2.m_Requests =
      w.m_Requests ++
        [{ pModel := pInfo
           pEntity := pRequester
           requestTimer :=
             { m_llUpdateTime := host.GetTickCount (Request host w usModelID pRequester).2.game
               m_ullElapsedTime := 0
               m_uiMaxIncrement := 500 } }] ∧
    (Request host w usModelID pRequester).2.m_CancelQueue = w.m_CancelQueue ∧
    (Request host w usModelID pRequester).2.m_bDoingPulse = w.m_bDoingPulse := by
  have hget : GetRequestEntry w pRequester = none :=
    (getRequestEntryIn_none pRequester w.m_Requests).2
      ((countBy_eq_zero _ pRequester w.m_Requests).2 hno)
  rw [Request_new host w usModelID pRequester pInfo hid hget hl]
  exact ⟨rfl, rfl, rfl, rfl, rfl⟩

/-- The instance of C5 for the quiet host, the demo state and the request of model 9 by
entity 3. -/
theorem Request_new_entry_witness :
    quietHost.GetModelInfo 9 = some 1009 ∧
    quietHost.IsLoaded demoState.game 1009 = false ∧
    (∀ pEntry ∈ demoState.m_Requests, pEntry.pEntity ≠ 3) ∧
    ((Request quietHost demoState 9 3).1 = false ∧
    (Request quietHost demoState 9 3).2.calls =
      demoState.calls ++
        [Event.ModelAddRef 1009 false "CClientModelRequestManager::Request #2"] ∧
    (Request quietHost demoState 9 3).2.m_Requests =
      demoState.m_Requests ++
        [{ pModel := 1009
           pEntity := 3
           requestTimer :=
             { m_llUpdateTime := quietHost.GetTickCount (Request quietHost demoState 9 3).2.game
               m_ullElapsedTime := 0
               m_uiMaxIncrement := 500 } }] ∧
    (Request quietHost demoState 9 3).2.m_CancelQueue = demoState.m_CancelQueue ∧
    (Request quietHost demoState 9 3).2.m_bDoingPulse = demoState.m_bDoingPulse) :=
  ⟨rfl, rfl, by decide,
    Request_new_entry quietHost demoState 9 3 1009 rfl rfl (by decide)⟩

/-- C6: in a state with at most one entry per requester (and a game in which a `RemoveRef`
on one model does not change whether another is loaded), when the requester has the entry
`pEntry` bound to a model X and asks for a known ID whose model Y is different and not
loaded, `Request` returns false, makes exactly the calls `RemoveRef` on X and then
`ModelAddRef` on Y, and replaces the entry at its position by the entry of the same requester
bound to Y with the timer reset; the length of the list and every other position are
unchanged, the requester still has exactly one entry, and the cancel queue and the pulsing
flag are unchanged. -/
theorem Request_rebinds_entry (host : Host σ) (hloc : host.RemoveRefLocal)
    (w : CClientModelRequestManager σ) (hone : AtMostOne w)
    (usModelID pRequester pInfo : Nat) (pEntry : SClientModelRequest)
    (hid : host.GetModelInfo usModelID = some pInfo)
    (hmem : pEntry ∈ w.m_Requests) (he : pEntry.pEntity = pRequester)
    (hne : pInfo ≠ pEntry.pModel) (hl : host.IsLoaded w.game pInfo = false) :
    ∃ iter, w.m_Requests[iter]? = some pEntry ∧
      (Request host w usModelID pRequester).1 = false ∧
      (Request host w usModelID pRequester).2.calls =
        w.calls ++ [Event.RemoveRef pEntry.pModel,
          Event.ModelAddRef pInfo false "CClientModelRequestManager::Request"] ∧
      (Request host w usModelID pRequester).2.m_Requests =
        w.m_Requests.set iter
          { pModel := pInfo
            pEntity := pRequester
            requestTimer := pEntry.requestTimer.Reset
              (host.GetTickCount (host.exec w.game (Event.RemoveRef pEntry.pModel))) } ∧
      (Request host w usModelID pRequester).2.m_Requests.length = w.m_Requests.length ∧
      (∀ j, j ≠ iter →
        (Request host w usModelID pRequester).2.m_Requests[j]? = w.m_Requests[j]?) ∧
      ((Request host w usModelID pRequester).2.m_Requests.filter
        (fun x => decide (x.pEntity = pRequester))).length = 1 ∧
      (Request host w usModelID pRequester).2.m_CancelQueue = w.m_CancelQueue ∧
      (Request host w usModelID pRequester).2.m_bDoingPulse = w.m_bDoingPulse := by
  obtain ⟨iter, hget⟩ :=
    getRequestEntryIn_of_mem pRequester w.m_Requests pEntry hmem he (hone pRequester)
  have hg := getRequestEntryIn_some pRequester w.m_Requests iter pEntry hget
  have hl2 : host.IsLoaded (host.exec w.game (Event.RemoveRef pEntry.pModel)) pInfo = false := by
    rw [hloc w.game pEntry.pModel pInfo (fun h => hne h.symm)]
    exact hl
  have hcount := countBy_set SClientModelRequest.pEntity pRequester w.m_Requests iter pEntry
    { pModel := pInfo
      pEntity := pRequester
      requestTimer := pEntry.requestTimer.Reset
        (host.GetTickCount (host.exec w.game (Event.RemoveRef pEntry.pModel))) } hg.1
  have hpos : countOwned pRequester w.m_Requests ≠ 0 := fun h0 =>
    (countBy_eq_zero _ pRequester w.m_Requests).1 h0 pEntry hmem he
  have hle := hone pRequester
  rw [Request_rebind host w usModelID pRequester pInfo iter pEntry hid hget hne hl2]
  refine ⟨iter, hg.1, rfl, rfl, ?_, ?_, ?_, ?_, rfl, rfl⟩
  · simp only [he]
  · simp only [List.length_set]
  · intro j hj
    simp only
    rw [List.getElem?_set_ne (fun h => hj h.symm)]
  · rw [← countBy_eq_length_filter]
    simp only [he, if_true, countOwned] at hcount hpos hle ⊢
    omega

/-- The instance of C6 for the quiet host and the demo state: entity 1, waiting for model
1005, asks for model 9, which is not loaded. -/
theorem Request_rebinds_entry_witness :
    quietHost.RemoveRefLocal ∧ AtMostOne demoState ∧
    quietHost.GetModelInfo 9 = some 1009 ∧
    quietHost.IsLoaded demoState.game 1009 = false ∧
    (Request quietHost demoState 9 1).2.m_Requests =
      [{ pModel := 1009, pEntity := 1,
         requestTimer := { m_llUpdateTime := 0, m_ullElapsedTime := 0, m_uiMaxIncrement := 500 } },
       { pModel := 1007, pEntity := 2,
         requestTimer := { m_llUpdateTime := 0, m_ullElapsedTime := 0, m_uiMaxIncrement := 500 } }] ∧
    ∃ iter, demoState.m_Requests[iter]? =
        some { pModel := 1005, pEntity := 1,
               requestTimer :=
                 { m_llUpdateTime := 0, m_ullElapsedTime := 0, m_uiMaxIncrement := 500 } } ∧
      (Request quietHost demoState 9 1).1 = false ∧
      (Request quietHost demoState 9 1).2.calls =
        demoState.calls ++ [Event.RemoveRef 1005,
          Event.ModelAddRef 1009 false "CClientModelRequestManager::Request"] ∧
      (Request quietHost demoState 9 1).2.m_Requests =
        demoState.m_Requests.set iter
          { pModel := 1009
            pEntity := 1
            requestTimer :=
              ({ m_llUpdateTime := 0, m_ullElapsedTime := 0, m_uiMaxIncrement := 500 } :
                CElapsedTime).Reset
                (quietHost.GetTickCount (quietHost.exec demoState.game (Event.RemoveRef 1005))) } ∧
      (Request quietHost demoState 9 1).2.m_Requests.length = demoState.m_Requests.length ∧
      (∀ j, j ≠ iter →
        (Request quietHost demoState 9 1).2.m_Requests[j]? = demoState.m_Requests[j]?) ∧
      ((Request quietHost demoState 9 1).2.m_Requests.filter
        (fun x => decide (x.pEntity = 1))).length = 1 ∧
      (Request quietHost demoState 9 1).2.m_CancelQueue = demoState.m_CancelQueue ∧
      (Request quietHost demoState 9 1).2.m_bDoingPulse = demoState.m_bDoingPulse :=
  ⟨fun _ _ _ _ => rfl, atMostOne_demoState, rfl, rfl, by decide,
    Request_rebinds_entry quietHost (fun _ _ _ _ => rfl) demoState atMostOne_demoState 9 1 1009
      { pModel := 1005, pEntity := 1,
        requestTimer := { m_llUpdateTime := 0, m_ullElapsedTime := 0, m_uiMaxIncrement := 500 } }
      rfl (by decide) rfl (by decide) rfl⟩

/-- C7: in a state with at most one entry per requester (and a game in which a `RemoveRef`
on one model does not change whether another is loaded), when the requester has the entry
`pEntry` bound to a model X and asks for a known ID whose model Y is different and loaded,
`Request` returns true, makes exactly the calls `RemoveRef` on X and then `MakeCustomModel`
on Y (no `ModelAddRef`), and erases the entry at its position, every other entry staying as
it is and in order; the requester has no entry afterwards, and the cancel queue and the
pulsing flag are unchanged. -/
theorem Request_replaces_by_loaded (host : Host σ) (hloc : host.RemoveRefLocal)
    (w : CClientModelRequestManager σ) (hone : AtMostOne w)
    (usModelID pRequester pInfo : Nat) (pEntry : SClientModelRequest)
    (hid : host.GetModelInfo usModelID = some pInfo)
    (hmem : pEntry ∈ w.m_Requests) (he : pEntry.pEntity = pRequester)
    (hne : pInfo ≠ pEntry.pModel) (hl : host.IsLoaded w.game pInfo = true) :
    ∃ iter, w.m_Requests[iter]? = some pEntry ∧
      (Request host w usModelID pRequester).1 = true ∧
      (Request host w usModelID pRequester).2.calls =
        w.calls ++ [Event.RemoveRef pEntry.pModel, Event.MakeCustomModel pInfo] ∧
      (Request host w usModelID pRequester).2.m_Requests = w.m_Requests.eraseIdx iter ∧
      (∀ x ∈ (Request host w usModelID pRequester).2.m_Requests, x.pEntity ≠ pRequester) ∧
      HasRequested (Request host w usModelID pRequester).2 pRequester = false ∧
      (Request host w usModelID pRequester).2.m_CancelQueue = w.m_CancelQueue ∧
      (Request host w usModelID pRequester).2.m_bDoingPulse = w.m_bDoingPulse := by
  obtain ⟨iter, hget⟩ :=
    getRequestEntryIn_of_mem pRequester w.m_Requests pEntry hmem he (hone pRequester)
  have hg := getRequestEntryIn_some pRequester w.m_Requests iter pEntry hget
  have hl2 : host.IsLoaded (host.exec w.game (Event.RemoveRef pEntry.pModel)) pInfo = true := by
    rw [hloc w.game pEntry.pModel pInfo (fun h => hne h.symm)]
    exact hl
  have hcount := countBy_eraseIdx SClientModelRequest.pEntity pRequester w.m_Requests iter
    pEntry hg.1
  have hle := hone pRequester
  have hzero : countOwned pRequester (w.m_Requests.eraseIdx iter) = 0 := by
    simp only [he, if_true, countOwned] at hcount hle ⊢
    omega
  rw [Request_replace host w usModelID pRequester pInfo iter pEntry hid hget hne hl2]
  refine ⟨iter, hg.1, rfl, rfl, rfl, ?_, ?_, rfl, rfl⟩
  · exact (countBy_eq_zero _ pRequester _).1 hzero
  · exact (hasRequestedIn_eq_false pRequester _).2 hzero

/-- The instance of C7 for the quiet host and the demo state: entity 1, waiting for model
1005, asks for model 7, which is loaded. -/
theorem Request_replaces_by_loaded_witness :
    quietHost.RemoveRefLocal ∧ AtMostOne demoState ∧
    quietHost.GetModelInfo 7 = some 1007 ∧
    quietHost.IsLoaded demoState.game 1007 = true ∧
    (Request quietHost demoState 7 1).2.m_Requests =
      [{ pModel := 1007, pEntity := 2,
         requestTimer := { m_llUpdateTime := 0, m_ullElapsedTime := 0, m_uiMaxIncrement := 500 } }] ∧
    ∃ iter, demoState.m_Requests[iter]? =
        some { pModel := 1005, pEntity := 1,
               requestTimer :=
                 { m_llUpdateTime := 0, m_ullElapsedTime := 0, m_uiMaxIncrement := 500 } } ∧
      (Request quietHost demoState 7 1).1 = true ∧
      (Request quietHost demoState 7 1).2.calls =
        demoState.calls ++ [Event.RemoveRef 1005, Event.MakeCustomModel 1007] ∧
      (Request quietHost demoState 7 1).2.m_Requests = demoState.m_Requests.eraseIdx iter ∧
      (∀ x ∈ (Request quietHost demoState 7 1).2.m_Requests, x.pEntity ≠ 1) ∧
      HasRequested (Request quietHost demoState 7 1).2 1 = false ∧
      (Request quietHost demoState 7 1).2.m_CancelQueue = demoState.m_CancelQueue ∧
      (Request quietHost demoState 7 1).2.m_bDoingPulse = demoState.m_bDoingPulse :=
  ⟨fun _ _ _ _ => rfl, atMostOne_demoState, rfl, rfl, by decide,
    Request_replaces_by_loaded quietHost (fun _ _ _ _ => rfl) demoState atMostOne_demoState
      7 1 1007
      { pModel := 1005, pEntity := 1,
        requestTimer := { m_llUpdateTime := 0, m_ullElapsedTime := 0, m_uiMaxIncrement := 500 } }
      rfl (by decide) rfl (by decide) rfl⟩

/-- C8: in a state with the pulsing flag clear and the cancel queue empty, `Cancel` erases
every entry whose `pEntity` is the requester and keeps all other entries as they are and in
order, calls `RemoveRef` once on the model of each erased entry (in list order) and makes no
other call, and afterwards `HasRequested` of the requester is false; when the requester has
no entry the whole state is unchanged. -/
theorem Cancel_outside_pulse (host : Host σ) (w : CClientModelRequestManager σ)
    (hq : Quiescent w) (pEntity : Nat) (bAllowQueue : Bool) :
    (Cancel host w pEntity bAllowQueue).m_Requests =
      w.m_Requests.filter (fun pEntry => decide (pEntry.pEntity ≠ pEntity)) ∧
    (Cancel host w pEntity bAllowQueue).calls =
      w.calls ++ (w.m_Requests.filter (fun pEntry => decide (pEntry.pEntity = pEntity))).map
        (fun pEntry => Event.RemoveRef pEntry.pModel) ∧
    HasRequested (Cancel host w pEntity bAllowQueue) pEntity = false ∧
    (Cancel host w pEntity bAllowQueue).m_CancelQueue = [] ∧
    (Cancel host w pEntity bAllowQueue).m_bDoingPulse = false ∧
    ((∀ pEntry ∈ w.m_Requests, pEntry.pEntity ≠ pEntity) →
      Cancel host w pEntity bAllowQueue = w) := by
  obtain ⟨hp, hqueue⟩ := hq
  have hne : pEntity ∉ w.m_CancelQueue := by simp [hqueue]
  have hf := cancelLoop_fields host pEntity w.m_Requests w
  rw [Cancel_idle host w pEntity bAllowQueue hne hp]
  refine ⟨hf.1, hf.2.1, ?_, hf.2.2.2.1.trans hqueue, hf.2.2.2.2.trans hp, ?_⟩
  · simp only [HasRequested, hf.1]
    exact (hasRequestedIn_eq_false pEntity _).2 (countOwned_filter_ne pEntity w.m_Requests)
  · intro hno
    rw [cancelLoop_absent host pEntity w.m_Requests w
      ((countBy_eq_zero _ pEntity w.m_Requests).2 hno)]

/-- The instance of C8 for the quiet host and the demo state, cancelling entity 1. -/
theorem Cancel_outside_pulse_witness :
    Quiescent demoState ∧
    (Cancel quietHost demoState 1 true).m_Requests =
      [{ pModel := 1007, pEntity := 2,
         requestTimer := { m_llUpdateTime := 0, m_ullElapsedTime := 0, m_uiMaxIncrement := 500 } }] ∧
    (Cancel quietHost demoState 1 true).calls = demoState.calls ++ [Event.RemoveRef 1005] ∧
    ((Cancel quietHost demoState 1 true).m_Requests =
      demoState.m_Requests.filter (fun pEntry => decide (pEntry.pEntity ≠ 1)) ∧
    (Cancel quietHost demoState 1 true).calls =
      demoState.calls ++
        (demoState.m_Requests.filter (fun pEntry => decide (pEntry.pEntity = 1))).map
          (fun pEntry => Event.RemoveRef pEntry.pModel) ∧
    HasRequested (Cancel quietHost demoState 1 true) 1 = false ∧
    (Cancel quietHost demoState 1 true).m_CancelQueue = [] ∧
    (Cancel quietHost demoState 1 true).m_bDoingPulse = false ∧
    ((∀ pEntry ∈ demoState.m_Requests, pEntry.pEntity ≠ 1) →
      Cancel quietHost demoState 1 true = demoState)) :=
  ⟨⟨rfl, rfl⟩, by decide, by decide,
    Cancel_outside_pulse quietHost demoState ⟨rfl, rfl⟩ 1 true⟩

/-- C10: in a state with the pulsing flag set, `Cancel (pEntity, true)` leaves the request
list, the outside state and the log of calls (so every reference count) unchanged, keeps the
flag, and appends the requester to the cancel queue exactly when it is not yet in it;
so a queue without repetition stays without repetition, also after any number of such
calls. -/
theorem Cancel_deferred (host : Host σ) (w : CClientModelRequestManager σ)
    (hp : w.m_bDoingPulse = true) (pEntity : Nat) :
    (Cancel host w pEntity true).m_Requests = w.m_Requests ∧
    (Cancel host w pEntity true).game = w.game ∧
    (Cancel host w pEntity true).calls = w.calls ∧
    (Cancel host w pEntity true).m_bDoingPulse = true ∧
    (pEntity ∈ w.m_CancelQueue → (Cancel host w pEntity true).m_CancelQueue = w.m_CancelQueue) ∧
    (pEntity ∉ w.m_CancelQueue →
      (Cancel host w pEntity true).m_CancelQueue = w.m_CancelQueue ++ [pEntity]) ∧
    (w.m_CancelQueue.Nodup → (Cancel host w pEntity true).m_CancelQueue.Nodup) ∧
    (w.m_CancelQueue.Nodup → ∀ entities : List Nat,
      (entities.foldl (fun acc e => Cancel host acc e true) w).m_CancelQueue.Nodup) := by
  have key : ∀ (w1 : CClientModelRequestManager σ) (e : Nat), w1.m_bDoingPulse = true →
      w1.m_CancelQueue.Nodup →
      (Cancel host w1 e true).m_bDoingPulse = true ∧ (Cancel host w1 e true).m_CancelQueue.Nodup := by
    intro w1 e hp1 hnd
    rw [Cancel_true_pulsing host w1 e hp1]
    refine ⟨hp1, ?_⟩
    by_cases hq : e ∈ w1.m_CancelQueue
    · simpa [hq] using hnd
    · simp only [hq, if_false]
      exact List.Nodup.append hnd (List.nodup_singleton e) (by simpa using hq)
  have hc := Cancel_true_pulsing host w pEntity hp
  refine ⟨by rw [hc], by rw [hc], by rw [hc], by rw [hc]; exact hp, ?_, ?_, ?_, ?_⟩
  · intro hq
    rw [hc]
    simp [hq]
  · intro hq
    rw [hc]
    simp [hq]
  · intro hnd
    exact (key w pEntity hp hnd).2
  · intro hnd entities
    have hall : ∀ (l : List Nat) (w1 : CClientModelRequestManager σ),
        w1.m_bDoingPulse = true → w1.m_CancelQueue.Nodup →
        (l.foldl (fun acc e => Cancel host acc e true) w1).m_CancelQueue.Nodup := by
      intro l
      induction l with
      | nil => intro w1 _ h; exact h
      | cons e rest ih =>
        intro w1 hp1 h1
        simp only [List.foldl_cons]
        exact ih _ (key w1 e hp1 h1).1 (key w1 e hp1 h1).2
    exact hall entities w hp hnd

/-- The instance of C10 for the quiet host and the demo state inside a pulse, with entity 2
already queued: cancelling entity 1 queues it, cancelling entity 2 changes nothing. -/
theorem Cancel_deferred_witness :
    demoPulsing.m_bDoingPulse = true ∧
    (Cancel quietHost demoPulsing 1 true).m_CancelQueue = [2, 1] ∧
    (Cancel quietHost demoPulsing 2 true).m_CancelQueue = [2] ∧
    ((Cancel quietHost demoPulsing 1 true).m_Requests = demoPulsing.m_Requests ∧
    (Cancel quietHost demoPulsing 1 true).game = demoPulsing.game ∧
    (Cancel quietHost demoPulsing 1 true).calls = demoPulsing.calls ∧
    (Cancel quietHost demoPulsing 1 true).m_bDoingPulse = true ∧
    (1 ∈ demoPulsing.m_CancelQueue →
      (Cancel quietHost demoPulsing 1 true).m_CancelQueue = demoPulsing.m_CancelQueue) ∧
    (1 ∉ demoPulsing.m_CancelQueue →
      (Cancel quietHost demoPulsing 1 true).m_CancelQueue = demoPulsing.m_CancelQueue ++ [1]) ∧
    (demoPulsing.m_CancelQueue.Nodup →
      (Cancel quietHost demoPulsing 1 true).m_CancelQueue.Nodup) ∧
    (demoPulsing.m_CancelQueue.Nodup → ∀ entities : List Nat,
      (entities.foldl (fun acc e => Cancel quietHost acc e true)
        demoPulsing).m_CancelQueue.Nodup)) :=
  ⟨rfl, by decide, by decide, Cancel_deferred quietHost demoPulsing rfl 1⟩

/-- C4: in a state with a non-empty list and an empty cancel queue, with callbacks that do
not call back into the manager and a game in which no call changes which models are loaded,
`DoPulse` (with fuel above the length of the list) returns; of the calls it makes, those
other than the repeated load requests are, for each entry whose model is loaded, in list
order: `MakeCustomModel` on the model, `ModelRequestCallback` of the requester with the
model, `RemoveRef` on the model; and the list afterwards has the requester and model of
exactly the entries whose model is not loaded, in the same order.  It ends with the pulsing
flag clear and the cancel queue empty. -/
theorem DoPulse_resolves_loaded (host : Host σ) (hnr : host.NonReentrant)
    (hst : host.StableLoaded) (w : CClientModelRequestManager σ) (hne : w.m_Requests ≠ [])
    (hq : w.m_CancelQueue = []) (fuel : Nat) (hf : w.m_Requests.length < fuel) :
    ∃ w1 L, DoPulse host fuel w = Except.ok w1 ∧
      w1.calls = w.calls ++ L ∧
      (∀ ev ∈ L, isResolution ev = true ∨ isReissue ev = true) ∧
      L.filter isResolution =
        resolvedCalls (w.m_Requests.filter (fun pEntry => host.IsLoaded w.game pEntry.pModel)) ∧
      w1.m_Requests.map binding =
        (w.m_Requests.filter (fun pEntry => !host.IsLoaded w.game pEntry.pModel)).map binding ∧
      w1.m_bDoingPulse = false ∧ w1.m_CancelQueue = [] := by
  obtain ⟨w1, hloop, kept, L, k1, k2, k3, k4, k5, k6, k7, k8, k9⟩ :=
    pulseLoop_closed host (nonReentrant_cancelOnly host hnr)
      (fun m => host.IsLoaded w.game m) hst w.m_Requests [] { w with m_bDoingPulse := true }
      fuel rfl rfl hf (fun _ => rfl)
  have hqueue : w1.m_CancelQueue = [] := by
    rw [List.eq_nil_iff_forall_not_mem]
    intro e he
    rcases (k8 e).1 he with h | ⟨x, _, _, h⟩
    · simp [hq] at h
    · rw [hnr x.pEntity x.pModel] at h
      simp at h
  have hlen : 0 < w.m_Requests.length := List.length_pos.2 hne
  refine ⟨{ w1 with m_bDoingPulse := false }, L, ?_, k3, k5, k4, ?_, rfl, hqueue⟩
  · unfold DoPulse
    simp only [gt_iff_lt, hlen, if_true]
    simp only [List.length_nil] at hloop
    rw [hloop]
    simp [hqueue]
  · simp only [List.nil_append] at k1
    simp only [k1, k2]

/-- The instance of C4 for the quiet host and the demo state, and the scenario of the specification: the
list holding the one entry of entity 1 for model 1005, which is loaded, gives the calls
`MakeCustomModel`, the callback of entity 1 with the model and one `RemoveRef`, and an
empty list. -/
theorem DoPulse_resolves_loaded_witness :
    quietHost.NonReentrant ∧ quietHost.StableLoaded ∧ demoState.m_Requests ≠ [] ∧
    demoState.m_CancelQueue = [] ∧ demoState.m_Requests.length < 3 ∧
    (∃ w1, DoPulse quietHost 2
        { m_Requests :=
            [{ pModel := 1005, pEntity := 1,
               requestTimer :=
                 { m_llUpdateTime := 0, m_ullElapsedTime := 0, m_uiMaxIncrement := 500 } }]
          m_CancelQueue := []
          m_bDoingPulse := false
          game := { loaded := [1005], tick := 0 }
          calls := [] } = Except.ok w1 ∧
      w1.m_Requests = [] ∧
      w1.calls = [Event.MakeCustomModel 1005, Event.ModelRequestCallback 1 1005,
        Event.RemoveRef 1005]) ∧
    ∃ w1 L, DoPulse quietHost 3 demoState = Except.ok w1 ∧
      w1.calls = demoState.calls ++ L ∧
      (∀ ev ∈ L, isResolution ev = true ∨ isReissue ev = true) ∧
      L.filter isResolution =
        resolvedCalls
          (demoState.m_Requests.filter
            (fun pEntry => quietHost.IsLoaded demoState.game pEntry.pModel)) ∧
      w1.m_Requests.map binding =
        (demoState.m_Requests.filter
          (fun pEntry => !quietHost.IsLoaded demoState.game pEntry.pModel)).map binding ∧
      w1.m_bDoingPulse = false ∧ w1.m_CancelQueue = [] :=
  ⟨fun _ _ => rfl, fun _ _ _ => rfl, by decide, rfl, by decide, ⟨_, rfl, rfl, rfl⟩,
    DoPulse_resolves_loaded quietHost (fun _ _ => rfl) (fun _ _ _ => rfl) demoState
      (by decide) rfl 3 (by decide)⟩

/-- C11: for every state, requester and value of `bAllowQueue`, calling `Cancel` twice in
a row gives the same state (request list, cancel queue, pulsing flag, outside state and log
of calls) as calling it once, with the pulsing flag clear as well as with it set. -/
theorem Cancel_idempotent (host : Host σ) (w : CClientModelRequestManager σ) (pEntity : Nat)
    (bAllowQueue : Bool) :
    Cancel host (Cancel host w pEntity bAllowQueue) pEntity bAllowQueue
      = Cancel host w pEntity bAllowQueue := by
  by_cases hq : pEntity ∈ w.m_CancelQueue
  · rw [Cancel_queued host w pEntity bAllowQueue hq, Cancel_queued host w pEntity bAllowQueue hq]
  · cases hp : w.m_bDoingPulse with
    | true =>
      have h1 : pEntity ∈ (Cancel host w pEntity bAllowQueue).m_CancelQueue := by
        cases bAllowQueue <;> simp [Cancel, hq, hp, assertFailed]
      exact Cancel_queued host _ pEntity bAllowQueue h1
    | false =>
      have hf := cancelLoop_fields host pEntity w.m_Requests w
      have h1 := Cancel_idle host w pEntity bAllowQueue hq hp
      have hq2 : pEntity ∉ (Cancel host w pEntity bAllowQueue).m_CancelQueue := by
        rw [h1]
        simpa [hf.2.2.2.1] using hq
      have hp2 : (Cancel host w pEntity bAllowQueue).m_bDoingPulse = false := by
        rw [Cancel_m_bDoingPulse]
        exact hp
      have h0 : countOwned pEntity (Cancel host w pEntity bAllowQueue).m_Requests = 0 := by
        rw [h1]
        simp only [hf.1]
        exact countOwned_filter_ne pEntity w.m_Requests
      rw [Cancel_idle host _ pEntity bAllowQueue hq2 hp2,
        cancelLoop_absent host pEntity _ _ h0]

/-- C13: in a state with at most one entry per requester, when the requester has an entry
bound to the model of the given ID, `Request` returns false and leaves the whole state as it
was (the list with the timer of the entry, the cancel queue, the flag, the outside state and
the log of calls: no `ModelAddRef`, no `RemoveRef`, no `MakeCustomModel`), whether or not
the model is loaded. -/
theorem Request_same_resource_noop (host : Host σ) (w : CClientModelRequestManager σ)
    (hone : AtMostOne w) (usModelID pRequester : Nat) (pEntry : SClientModelRequest)
    (hmem : pEntry ∈ w.m_Requests) (he : pEntry.pEntity = pRequester)
    (hid : host.GetModelInfo usModelID = some pEntry.pModel) :
    Request host w usModelID pRequester = (false, w) := by
  obtain ⟨iter, hget⟩ :=
    getRequestEntryIn_of_mem pRequester w.m_Requests pEntry hmem he (hone pRequester)
  exact Request_same host w usModelID pRequester pEntry.pModel iter pEntry hid hget rfl

/-- The instance of C13 for the quiet host and the demo state: entity 2 asks again for model
7, which it waits for and which is loaded by now. -/
theorem Request_same_resource_noop_witness :
    AtMostOne demoState ∧ quietHost.GetModelInfo 7 = some 1007 ∧
    quietHost.IsLoaded demoState.game 1007 = true ∧
    Request quietHost demoState 7 2 = (false, demoState) :=
  ⟨atMostOne_demoState, rfl, rfl,
    Request_same_resource_noop quietHost demoState atMostOne_demoState 7 2
      { pModel := 1007, pEntity := 2,
        requestTimer := { m_llUpdateTime := 0, m_ullElapsedTime := 0, m_uiMaxIncrement := 500 } }
      (by decide) rfl rfl⟩

/-- C14: for a model ID that the game does not know, `Request` returns false and leaves the
whole state as it was (request list with its timers, cancel queue, flag, outside state and
log of calls), whatever the requester and the state. -/
theorem Request_unknown_id (host : Host σ) (w : CClientModelRequestManager σ)
    (usModelID pRequester : Nat) (hid : host.GetModelInfo usModelID = none) :
    (Request host w usModelID pRequester).1 = false ∧
    (Request host w usModelID pRequester).2 = w := by
  unfold Request
  rw [hid]
  exact ⟨rfl, rfl⟩

/-- The instance of C14 for the quiet host and the demo state: model 200 is unknown, and
entity 1 (which has an entry) asks for it. -/
theorem Request_unknown_id_witness :
    quietHost.GetModelInfo 200 = none ∧
    ((Request quietHost demoState 200 1).1 = false ∧
      (Request quietHost demoState 200 1).2 = demoState) :=
  ⟨rfl, Request_unknown_id quietHost demoState 200 1 rfl⟩

/-- C15: `RequestBlocking` leaves the request list, the cancel queue and the pulsing flag
as they were and makes no `ModelAddRef` and no `RemoveRef` call.  For an unknown ID it makes
no call at all and returns false.  For a known ID it issues the blocking load and then
returns true and calls `MakeCustomModel` when the model is loaded after that call, and
returns false with a debug line (and no `MakeCustomModel`) when it is not.  So it returns
true exactly when the ID is known and the model is loaded after the blocking load. -/
theorem RequestBlocking_effect (host : Host σ) (w : CClientModelRequestManager σ)
    (usModelID : Nat) (szTag : String) :
    (RequestBlocking host w usModelID szTag).2.m_Requests = w.m_Requests ∧
    (RequestBlocking host w usModelID szTag).2.m_CancelQueue = w.m_CancelQueue ∧
    (RequestBlocking host w usModelID szTag).2.m_bDoingPulse = w.m_bDoingPulse ∧
    (∀ m, countAddRef m (RequestBlocking host w usModelID szTag).2.calls
        = countAddRef m w.calls ∧
      countRemoveRef m (RequestBlocking host w usModelID szTag).2.calls
        = countRemoveRef m w.calls) ∧
    ((RequestBlocking host w usModelID szTag).1 = true ↔
      ∃ pInfo, host.GetModelInfo usModelID = some pInfo ∧
        host.IsLoaded (host.exec w.game (Event.Request pInfo true szTag)) pInfo = true) ∧
    (host.GetModelInfo usModelID = none → RequestBlocking host w usModelID szTag = (false, w)) ∧
    (∀ pInfo, host.GetModelInfo usModelID = some pInfo →
      (host.IsLoaded (host.exec w.game (Event.Request pInfo true szTag)) pInfo = true →
        (RequestBlocking host w usModelID szTag).2.calls =
          w.calls ++ [Event.Request pInfo true szTag, Event.MakeCustomModel pInfo]) ∧
      (host.IsLoaded (host.exec w.game (Event.Request pInfo true szTag)) pInfo = false →
        (RequestBlocking host w usModelID szTag).2.calls =
          w.calls ++ [Event.Request pInfo true szTag, Event.OutputDebugLine usModelID])) := by
  cases hid : host.GetModelInfo usModelID with
  | none =>
    have h : RequestBlocking host w usModelID szTag = (false, w) := by
      simp [RequestBlocking, hid]
    rw [h]
    simp
  | some pInfo =>
    cases hl : host.IsLoaded (host.exec w.game (Event.Request pInfo true szTag)) pInfo with
    | true =>
      have h : RequestBlocking host w usModelID szTag =
          (true, call host (call host w (Event.Request pInfo true szTag))
            (Event.MakeCustomModel pInfo)) := by
        simp [RequestBlocking, hid, hl]
      rw [h]
      refine ⟨rfl, rfl, rfl, ?_, ?_, ?_, ?_⟩
      · intro m
        simp [countAddRef_append, countRemoveRef_append, countAddRef, countRemoveRef]
      · simp [hl]
      · simp
      · intro p hp
        simp only [Option.some.injEq] at hp
        subst hp
        simp [hl]
    | false =>
      have h : RequestBlocking host w usModelID szTag =
          (false, call host (call host w (Event.Request pInfo true szTag))
            (Event.OutputDebugLine usModelID)) := by
        simp [RequestBlocking, hid, hl]
      rw [h]
      refine ⟨rfl, rfl, rfl, ?_, ?_, ?_, ?_⟩
      · intro m
        simp [countAddRef_append, countRemoveRef_append, countAddRef, countRemoveRef]
      · simp [hl]
      · simp
      · intro p hp
        simp only [Option.some.injEq] at hp
        subst hp
        simp [hl]

/-- A run of `RequestBlocking` in which the blocking load makes the difference: model 1005
is not loaded in the demo state, the load request loads it, and the call returns true after
`MakeCustomModel`. -/
theorem RequestBlocking_loadingHost :
    loadingHost.IsLoaded demoState.game 1005 = false ∧
    (RequestBlocking loadingHost demoState 5 "tag").1 = true ∧
    (RequestBlocking loadingHost demoState 5 "tag").2.calls =
      demoState.calls ++ [Event.Request 1005 true "tag", Event.MakeCustomModel 1005] ∧
    (RequestBlocking loadingHost demoState 5 "tag").2.m_Requests = demoState.m_Requests := by
  decide

/-- C19: in a state with at most one entry per requester, for a known ID and any requester:
when `Request` returns false, afterwards `GetRequestedModelInfo` of the requester is the
model of that ID and `IsRequested` of that model is true; when it returns true, afterwards
`HasRequested` of the requester is false. -/
theorem Request_query_agreement (host : Host σ) (w : CClientModelRequestManager σ)
    (hone : AtMostOne w) (usModelID pRequester pInfo : Nat)
    (hid : host.GetModelInfo usModelID = some pInfo) :
    ((Request host w usModelID pRequester).1 = false →
      GetRequestedModelInfo (Request host w usModelID pRequester).2 pRequester = some pInfo ∧
      IsRequested (Request host w usModelID pRequester).2 pInfo = true) ∧
    ((Request host w usModelID pRequester).1 = true →
      HasRequested (Request host w usModelID pRequester).2 pRequester = false) := by
  refine Request_induct host w usModelID pRequester
    (fun r => (r.1 = false →
        GetRequestedModelInfo r.2 pRequester = some pInfo ∧ IsRequested r.2 pInfo = true) ∧
      (r.1 = true → HasRequested r.2 pRequester = false)) ?_ ?_ ?_ ?_ ?_ ?_
  · intro hnone
    rw [hid] at hnone
    simp at hnone
  · intro p iter pEntry hp hget hm
    have hpp : p = pInfo := by rw [hid] at hp; exact (Option.some.inj hp).symm
    subst hpp
    have hg := getRequestEntryIn_some pRequester w.m_Requests iter pEntry hget
    refine ⟨fun _ => ⟨?_, ?_⟩, fun h => by simp at h⟩
    · have h1 : getRequestEntryIn w.m_Requests pRequester = some (iter, pEntry) := hget
      simp only [GetRequestedModelInfo, getRequestedModelInfoIn_eq, h1, Option.map_some', hm]
    · exact (isRequestedIn_eq_true p w.m_Requests).2
        ⟨pEntry, mem_of_getElem?_eq_some _ _ _ hg.1, hm.symm⟩
  · intro p iter pEntry hp hget hm hl
    have hg := getRequestEntryIn_some pRequester w.m_Requests iter pEntry hget
    refine ⟨fun h => by simp at h, fun _ => ?_⟩
    have hcount := countBy_eraseIdx SClientModelRequest.pEntity pRequester w.m_Requests iter
      pEntry hg.1
    have hle := hone pRequester
    have hzero : countOwned pRequester (w.m_Requests.eraseIdx iter) = 0 := by
      simp only [hg.2, if_true, countOwned] at hcount hle ⊢
      omega
    exact (hasRequestedIn_eq_false pRequester _).2 hzero
  · intro p iter pEntry hp hget hm hl
    have hpp : p = pInfo := by rw [hid] at hp; exact (Option.some.inj hp).symm
    subst hpp
    have hg := getRequestEntryIn_some pRequester w.m_Requests iter pEntry hget
    have h1 : getRequestEntryIn w.m_Requests pRequester = some (iter, pEntry) := hget
    refine ⟨fun _ => ⟨?_, ?_⟩, fun h => by simp at h⟩
    · have h2 := getRequestEntryIn_set pRequester
        { pModel := p
          pEntity := pEntry.pEntity
          requestTimer := pEntry.requestTimer.Reset
            (host.GetTickCount (host.exec w.game (Event.RemoveRef pEntry.pModel))) }
        hg.2 w.m_Requests iter pEntry h1
      simp only [GetRequestedModelInfo, getRequestedModelInfoIn_eq, h2, Option.map_some']
    · exact (isRequestedIn_eq_true p _).2
        ⟨{ pModel := p
           pEntity := pEntry.pEntity
           requestTimer := pEntry.requestTimer.Reset
             (host.GetTickCount (host.exec w.game (Event.RemoveRef pEntry.pModel))) },
          mem_set_of_getElem? w.m_Requests iter pEntry _ hg.1, rfl⟩
  · intro p hp hget hl
    refine ⟨fun h => by simp at h, fun _ => ?_⟩
    exact (hasRequestedIn_eq_false pRequester _).2
      ((getRequestEntryIn_none pRequester w.m_Requests).1 hget)
  · intro p hp hget hl
    have hpp : p = pInfo := by rw [hid] at hp; exact (Option.some.inj hp).symm
    subst hpp
    have h1 : getRequestEntryIn w.m_Requests pRequester = none := hget
    refine ⟨fun _ => ⟨?_, ?_⟩, fun h => by simp at h⟩
    · have h2 := getRequestEntryIn_append pRequester
        { pModel := p
          pEntity := pRequester
          requestTimer :=
            { m_llUpdateTime := host.GetTickCount (host.exec w.game
                (Event.ModelAddRef p false "CClientModelRequestManager::Request #2"))
              m_ullElapsedTime := 0
              m_uiMaxIncrement := 500 } }
        rfl w.m_Requests h1
      simp only [GetRequestedModelInfo, getRequestedModelInfoIn_eq, h2, Option.map_some']
    · exact (isRequestedIn_eq_true p _).2
        ⟨{ pModel := p
           pEntity := pRequester
           requestTimer :=
             { m_llUpdateTime := host.GetTickCount (host.exec w.game
                 (Event.ModelAddRef p false "CClientModelRequestManager::Request #2"))
               m_ullElapsedTime := 0
               m_uiMaxIncrement := 500 } },
          by simp, rfl⟩

/-- The instance of C19 for the quiet host and the demo state: entity 1 asks for model 9,
which is not loaded (false, and the queries agree), and for model 7, which is loaded (true,
and the entity has no request left). -/
theorem Request_query_agreement_witness :
    AtMostOne demoState ∧ quietHost.GetModelInfo 9 = some 1009 ∧
    (Request quietHost demoState 9 1).1 = false ∧
    (Request quietHost demoState 7 1).1 = true ∧
    HasRequested (Request quietHost demoState 7 1).2 1 = false ∧
    (((Request quietHost demoState 9 1).1 = false →
      GetRequestedModelInfo (Request quietHost demoState 9 1).2 1 = some 1009 ∧
      IsRequested (Request quietHost demoState 9 1).2 1009 = true) ∧
    ((Request quietHost demoState 9 1).1 = true →
      HasRequested (Request quietHost demoState 9 1).2 1 = false)) :=
  ⟨atMostOne_demoState, rfl, by decide, by decide, by decide,
    Request_query_agreement quietHost demoState atMostOne_demoState 9 1 1009 rfl⟩

/-- C16: in every `DoPulse` on a non-empty list that completes, whatever the callbacks do,
the drain starts from the state at the end of the scan with the pulsing flag cleared and
the cancel queue emptied.  Each drain call `Cancel (e, false)` is made in a state with the
flag clear and the queue empty, so it does not take the early return for a queued requester
and does not reach `assert (bAllowQueue)`: it erases the entries of its requester.  The
drain logs nothing but `RemoveRef` calls (no failed assertion), and afterwards no requester
of the queue has an entry, the flag is clear and the queue is empty.  `DoPulse` does
complete when the callbacks call back nothing but `Cancel` with queueing allowed and the
fuel is above the length of the list. -/
theorem DoPulse_drain_safe (host : Host σ) (fuel : Nat) (w : CClientModelRequestManager σ)
    (hne : w.m_Requests ≠ []) :
    (∀ w1, DoPulse host fuel w = Except.ok w1 →
      ∃ w2, pulseLoop host fuel { w with m_bDoingPulse := true } 0 = Except.ok w2 ∧
        w1 = drain host w2.m_CancelQueue (drainStart w2) ∧
        (drainStart w2).m_bDoingPulse = false ∧ (drainStart w2).m_CancelQueue = [] ∧
        (∀ pre e post, w2.m_CancelQueue = pre ++ e :: post →
          (drain host pre (drainStart w2)).m_bDoingPulse = false ∧
          e ∉ (drain host pre (drainStart w2)).m_CancelQueue ∧
          (Cancel host (drain host pre (drainStart w2)) e false).m_Requests =
            (drain host pre (drainStart w2)).m_Requests.filter
              (fun x => decide (x.pEntity ≠ e))) ∧
        (∃ L, w1.calls = w2.calls ++ L ∧ ∀ ev ∈ L, ∃ m, ev = Event.RemoveRef m) ∧
        (∀ e ∈ w2.m_CancelQueue, ∀ x ∈ w1.m_Requests, x.pEntity ≠ e) ∧
        w1.m_bDoingPulse = false ∧ w1.m_CancelQueue = []) ∧
    (host.CancelOnly → w.m_Requests.length < fuel →
      ∃ w1, DoPulse host fuel w = Except.ok w1) := by
  refine ⟨?_, fun hco hf => DoPulse_total host hco fuel w hf⟩
  intro w1 h
  obtain ⟨w2, hloop, hw1⟩ := DoPulse_unfold host fuel w w1 hne h
  have hq0 : Quiescent (drainStart w2) := ⟨rfl, rfl⟩
  have hq1 := drain_quiescent host w2.m_CancelQueue (drainStart w2) hq0
  refine ⟨w2, hloop, hw1, rfl, rfl, ?_, ?_, ?_, ?_, ?_⟩
  · intro pre e post _
    have hq := drain_quiescent host pre (drainStart w2) hq0
    have hne2 : e ∉ (drain host pre (drainStart w2)).m_CancelQueue := by simp [hq.2]
    refine ⟨hq.1, hne2, ?_⟩
    rw [Cancel_idle host _ e false hne2 hq.1]
    exact (cancelLoop_fields host e _ _).1
  · rw [hw1]
    exact drain_calls host w2.m_CancelQueue (drainStart w2) hq0
  · intro e he
    rw [hw1]
    exact (countBy_eq_zero _ e _).1
      (drain_removes host w2.m_CancelQueue (drainStart w2) hq0 e he)
  · rw [hw1]
    exact hq1.1
  · rw [hw1]
    exact hq1.2

/-- The instance of C16 for the host whose callbacks cancel their own entity and for the
demo state: the pulse completes, having queued entity 2 in the scan. -/
theorem DoPulse_drain_safe_witness :
    demoState.m_Requests ≠ [] ∧
    (∃ w2, pulseLoop selfCancelHost 3 { demoState with m_bDoingPulse := true } 0
        = Except.ok w2 ∧ w2.m_CancelQueue = [2]) ∧
    ((∀ w1, DoPulse selfCancelHost 3 demoState = Except.ok w1 →
      ∃ w2, pulseLoop selfCancelHost 3 { demoState with m_bDoingPulse := true } 0
          = Except.ok w2 ∧
        w1 = drain selfCancelHost w2.m_CancelQueue (drainStart w2) ∧
        (drainStart w2).m_bDoingPulse = false ∧ (drainStart w2).m_CancelQueue = [] ∧
        (∀ pre e post, w2.m_CancelQueue = pre ++ e :: post →
          (drain selfCancelHost pre (drainStart w2)).m_bDoingPulse = false ∧
          e ∉ (drain selfCancelHost pre (drainStart w2)).m_CancelQueue ∧
          (Cancel selfCancelHost (drain selfCancelHost pre (drainStart w2)) e false).m_Requests =
            (drain selfCancelHost pre (drainStart w2)).m_Requests.filter
              (fun x => decide (x.pEntity ≠ e))) ∧
        (∃ L, w1.calls = w2.calls ++ L ∧ ∀ ev ∈ L, ∃ m, ev = Event.RemoveRef m) ∧
        (∀ e ∈ w2.m_CancelQueue, ∀ x ∈ w1.m_Requests, x.pEntity ≠ e) ∧
        w1.m_bDoingPulse = false ∧ w1.m_CancelQueue = []) ∧
    (selfCancelHost.CancelOnly → demoState.m_Requests.length < 3 →
      ∃ w1, DoPulse selfCancelHost 3 demoState = Except.ok w1)) :=
  ⟨by decide, ⟨_, rfl, rfl⟩, DoPulse_drain_safe selfCancelHost 3 demoState (by decide)⟩

/-- C18: in every state reached from the constructed manager by completed top-level calls
(whatever the callbacks do), the pulsing flag is false and the cancel queue is empty.  So a
`Cancel` issued in such a state never takes the early return for a queued requester: it
erases every entry of the requester.  `DoPulse` on an empty list returns the state as it
is.  When the callbacks call back nothing but `Cancel` with queueing allowed, every sequence
of top-level calls from such a state completes, in such a state. -/
theorem quiescent_between_calls (host : Host σ) (w : CClientModelRequestManager σ)
    (h : Reachable host w) :
    w.m_bDoingPulse = false ∧ w.m_CancelQueue = [] ∧
    (∀ pEntity bAllowQueue,
      (Cancel host w pEntity bAllowQueue).m_Requests =
        w.m_Requests.filter (fun x => decide (x.pEntity ≠ pEntity)) ∧
      HasRequested (Cancel host w pEntity bAllowQueue) pEntity = false) ∧
    (w.m_Requests = [] → ∀ fuel, DoPulse host fuel w = Except.ok w) ∧
    (host.CancelOnly → ∀ actions, ∃ w1, run host actions w = Except.ok w1 ∧
      Reachable host w1 ∧ w1.m_bDoingPulse = false ∧ w1.m_CancelQueue = []) := by
  obtain ⟨hq, _, _⟩ := reachable_invariants host w h
  refine ⟨hq.1, hq.2, ?_, ?_, ?_⟩
  · intro e b
    have hne : e ∉ w.m_CancelQueue := by simp [hq.2]
    have hf := cancelLoop_fields host e w.m_Requests w
    rw [Cancel_idle host w e b hne hq.1]
    refine ⟨hf.1, ?_⟩
    simp only [HasRequested, hf.1]
    exact (hasRequestedIn_eq_false e _).2 (countOwned_filter_ne e w.m_Requests)
  · intro hnil fuel
    simp [DoPulse, hnil]
  · intro hco actions
    obtain ⟨w1, h1, _, _, _⟩ := run_keeps host hco actions w
    have hr := run_reachable host actions w w1 h h1
    have hq1 := (reachable_invariants host w1 hr).1
    exact ⟨w1, h1, hr, hq1.1, hq1.2⟩

/-- The instance of C18 for the quiet host and the demo state, which is reached from the
constructed manager by two requests and the load of model 1007. -/
theorem quiescent_between_calls_witness :
    Reachable quietHost demoState ∧
    (demoState.m_bDoingPulse = false ∧ demoState.m_CancelQueue = [] ∧
    (∀ pEntity bAllowQueue,
      (Cancel quietHost demoState pEntity bAllowQueue).m_Requests =
        demoState.m_Requests.filter (fun x => decide (x.pEntity ≠ pEntity)) ∧
      HasRequested (Cancel quietHost demoState pEntity bAllowQueue) pEntity = false) ∧
    (demoState.m_Requests = [] → ∀ fuel, DoPulse quietHost fuel demoState
      = Except.ok demoState) ∧
    (quietHost.CancelOnly → ∀ actions, ∃ w1, run quietHost actions demoState = Except.ok w1 ∧
      Reachable quietHost w1 ∧ w1.m_bDoingPulse = false ∧ w1.m_CancelQueue = [])) :=
  ⟨reachable_demoState, quiescent_between_calls quietHost demoState reachable_demoState⟩

/-- C20: in every state reached from the constructed manager, every entry holds a model
pointer that the game returned for some ID (so no entry holds `NULL`).  For every requester,
`HasRequested` is true exactly when `GetRequestedModelInfo` is not `NULL`, exactly when
`GetRequestEntry` succeeds; when it succeeds, the entry passed out is the first entry of the
requester in list order and `GetRequestedModelInfo` is the model of that entry; when it
fails, the requester has no entry, `GetRequestedModelInfo` is `NULL` and `HasRequested` is
false.  (The queries are functions of the state and return no state.) -/
theorem query_consistency (host : Host σ) (w : CClientModelRequestManager σ)
    (h : Reachable host w) (pRequester : Nat) :
    (∀ pEntry ∈ w.m_Requests, ∃ usModelID, host.GetModelInfo usModelID = some pEntry.pModel) ∧
    (HasRequested w pRequester = true ↔ (GetRequestedModelInfo w pRequester).isSome = true) ∧
    ((GetRequestedModelInfo w pRequester).isSome = true ↔
      (GetRequestEntry w pRequester).isSome = true) ∧
    (∀ iter pEntry, GetRequestEntry w pRequester = some (iter, pEntry) →
      w.m_Requests[iter]? = some pEntry ∧ pEntry.pEntity = pRequester ∧
      (∀ j, j < iter → ∀ y, w.m_Requests[j]? = some y → y.pEntity ≠ pRequester) ∧
      GetRequestedModelInfo w pRequester = some pEntry.pModel) ∧
    (GetRequestEntry w pRequester = none →
      GetRequestedModelInfo w pRequester = none ∧ HasRequested w pRequester = false ∧
      ∀ y ∈ w.m_Requests, y.pEntity ≠ pRequester) := by
  obtain ⟨_, _, hfs⟩ := reachable_invariants host w h
  have hinfo := getRequestedModelInfoIn_eq pRequester w.m_Requests
  have hhas := hasRequestedIn_eq pRequester w.m_Requests
  refine ⟨hfs, ?_, ?_, ?_, ?_⟩
  · simp only [HasRequested, GetRequestedModelInfo, hinfo, hhas, Option.isSome_map']
  · simp only [GetRequestedModelInfo, GetRequestEntry, hinfo, Option.isSome_map']
  · intro iter pEntry hget
    have hg := getRequestEntryIn_some pRequester w.m_Requests iter pEntry hget
    have h1 : getRequestEntryIn w.m_Requests pRequester = some (iter, pEntry) := hget
    refine ⟨hg.1, hg.2, getRequestEntryIn_first pRequester w.m_Requests iter pEntry hget, ?_⟩
    simp only [GetRequestedModelInfo, hinfo, h1, Option.map_some']
  · intro hget
    have h1 : getRequestEntryIn w.m_Requests pRequester = none := hget
    refine ⟨?_, ?_, ?_⟩
    · simp only [GetRequestedModelInfo, hinfo, h1, Option.map_none']
    · simp only [HasRequested, hhas, h1, Option.isSome_none]
    · exact (countBy_eq_zero _ pRequester _).1
        ((getRequestEntryIn_none pRequester w.m_Requests).1 hget)

/-- The instance of C20 for the quiet host, the demo state and entity 2, whose entry is the
second of the list. -/
theorem query_consistency_witness :
    Reachable quietHost demoState ∧
    GetRequestedModelInfo demoState 2 = some 1007 ∧ HasRequested demoState 2 = true ∧
    ((∀ pEntry ∈ demoState.m_Requests,
      ∃ usModelID, quietHost.GetModelInfo usModelID = some pEntry.pModel) ∧
    (HasRequested demoState 2 = true ↔ (GetRequestedModelInfo demoState 2).isSome = true) ∧
    ((GetRequestedModelInfo demoState 2).isSome = true ↔
      (GetRequestEntry demoState 2).isSome = true) ∧
    (∀ iter pEntry, GetRequestEntry demoState 2 = some (iter, pEntry) →
      demoState.m_Requests[iter]? = some pEntry ∧ pEntry.pEntity = 2 ∧
      (∀ j, j < iter → ∀ y, demoState.m_Requests[j]? = some y → y.pEntity ≠ 2) ∧
      GetRequestedModelInfo demoState 2 = some pEntry.pModel) ∧
    (GetRequestEntry demoState 2 = none →
      GetRequestedModelInfo demoState 2 = none ∧ HasRequested demoState 2 = false ∧
      ∀ y ∈ demoState.m_Requests, y.pEntity ≠ 2)) :=
  ⟨reachable_demoState, rfl, rfl, query_consistency quietHost demoState reachable_demoState 2⟩

/-- The clock of the slow host never goes back. -/
theorem slowHost_monotone : slowHost.MonotoneClock := by
  intro s ev
  cases ev with
  | Request pModel blocking szTag =>
    cases blocking
    · exact Nat.le_refl _
    · exact Nat.le_add_right _ _
  | _ => exact Nat.le_refl _

/-- In `slowState` the timer of the entry bound to model 1009 is fresh since tick count
300. -/
theorem slowState_fresh : FreshSince slowHost 1009 300 slowState := by
  refine ⟨Nat.le_refl _, ?_⟩
  intro x hx hm
  simp only [slowState, List.mem_cons, List.mem_singleton, List.not_mem_nil, or_false] at hx
  rcases hx with h | h | h
  · subst h
    simp at hm
  · subst h
    simp at hm
  · subst h
    exact ⟨Nat.le_refl _, Nat.le_refl _⟩

/-- The pulses of the slow host, and the time passing between them, are steps of a time
window. -/
theorem slowPulses_window (now : Nat) :
    ∀ a ∈ slowPulses ++ [Action.outside (advanceTo now), Action.DoPulse],
      windowAction slowHost a := by
  intro a ha
  simp only [slowPulses, List.cons_append, List.nil_append, List.mem_cons, List.mem_singleton,
    List.not_mem_nil, or_false] at ha
  rcases ha with h | h | h | h | h | h | h | h | h | h | h <;> subst h <;>
    first
    | trivial
    | (intro s; exact Nat.le_max_left _ _)

/-- C12: for every host, and every state `w` of the scan of `DoPulse` (`pulseLoop`) that
stands at an entry whose model is not loaded (the test of the scan on the entry has
failed), the scan reads the timer of the entry at the current tick count and goes on to the
next entry, and it requests the load again if and only if the reading is more than 2000:
then it makes exactly one call, `Request` on the model of the entry, non-blocking when
loading is asynchronous and blocking otherwise, and no `ModelAddRef`; and it resets the
timer at the tick count after that call, whatever the call did to the outside state (a
blocking load may load models and take time).  When the reading is at most 2000 it makes no
call and leaves the timer as read.  `DoPulse` on this list is that scan from the head of the
list, then the drain of the cancel queue.  A timer reset at `t0` does not read more than
2000 at `t0 + 2000`.  Hence, when no call sets the tick count back and the timers of the
entries bound to a model are fresh since `t0` (`FreshSince`), any sequence of pulses, of
`Request` and `Cancel` calls, whether top-level or made by the callbacks, and of changes of
the outside state that do not set the tick count back, which completes at a tick count
within `t0 + 2000`, makes no load request on that model; and the sequence does complete
when the callbacks only queue cancels.  In the other direction, when the callbacks only
queue cancels, no call sets the tick count back and the model of the entry never loads, a
`DoPulse` called when the timer of the entry reads more than 2000 returns and has made a
load request on the model. -/
theorem DoPulse_retry_cadence (host : Host σ) (w : CClientModelRequestManager σ) (i : Nat)
    (pEntry : SClientModelRequest) (hi : w.m_Requests[i]? = some pEntry)
    (hl : host.IsLoaded w.game pEntry.pModel = false) :
    (∀ fuel, (pEntry.requestTimer.Get (host.GetTickCount w.game)).2 > 2000 →
      host.IsASyncLoadingEnabled w.game = true →
      pulseLoop host (fuel + 1) w i =
        pulseLoop host fuel
          { w with
            m_Requests := w.m_Requests.set i
              { pEntry with
                requestTimer :=
                  (pEntry.requestTimer.Get (host.GetTickCount w.game)).1.Reset
                    (host.GetTickCount (host.exec w.game
                      (Event.Request pEntry.pModel false
                        "CClientModelRequestManager::DoPulse #1"))) }
            game := host.exec w.game
              (Event.Request pEntry.pModel false "CClientModelRequestManager::DoPulse #1")
            calls := w.calls ++
              [Event.Request pEntry.pModel false "CClientModelRequestManager::DoPulse #1"] }
          (i + 1)) ∧
    (∀ fuel, (pEntry.requestTimer.Get (host.GetTickCount w.game)).2 > 2000 →
      host.IsASyncLoadingEnabled w.game = false →
      pulseLoop host (fuel + 1) w i =
        pulseLoop host fuel
          { w with
            m_Requests := w.m_Requests.set i
              { pEntry with
                requestTimer :=
                  (pEntry.requestTimer.Get (host.GetTickCount w.game)).1.Reset
                    (host.GetTickCount (host.exec w.game
                      (Event.Request pEntry.pModel true
                        "CClientModelRequestManager::DoPulse #2"))) }
            game := host.exec w.game
              (Event.Request pEntry.pModel true "CClientModelRequestManager::DoPulse #2")
            calls := w.calls ++
              [Event.Request pEntry.pModel true "CClientModelRequestManager::DoPulse #2"] }
          (i + 1)) ∧
    (∀ fuel, (pEntry.requestTimer.Get (host.GetTickCount w.game)).2 ≤ 2000 →
      pulseLoop host (fuel + 1) w i =
        pulseLoop host fuel
          { w with
            m_Requests := w.m_Requests.set i
              { pEntry with
                requestTimer := (pEntry.requestTimer.Get (host.GetTickCount w.game)).1 } }
          (i + 1)) ∧
    (∀ fuel, DoPulse host fuel w =
      match pulseLoop host fuel { w with m_bDoingPulse := true } 0 with
      | Except.error f => Except.error f
      | Except.ok w1 => Except.ok (drain host w1.m_CancelQueue (drainStart w1))) ∧
    (∀ (t0 : Nat) (t : CElapsedTime), t.m_ullElapsedTime = 0 → t.m_llUpdateTime = t0 →
      (t.Get (t0 + 2000)).2 ≤ 2000) ∧
    (∀ (pModel t0 : Nat), host.MonotoneClock → FreshSince host pModel t0 w →
      ∀ actions : List (Action σ), (∀ a ∈ actions, windowAction host a) →
        (∀ w1, run host actions w = Except.ok w1 → host.GetTickCount w1.game ≤ t0 + 2000 →
          w1.calls.filter (isReissueOf pModel) = w.calls.filter (isReissueOf pModel)) ∧
        (host.CancelOnly → ∃ w1, run host actions w = Except.ok w1)) ∧
    (host.CancelOnly → host.MonotoneClock → (∀ s, host.IsLoaded s pEntry.pModel = false) →
      (pEntry.requestTimer.Get (host.GetTickCount w.game)).2 > 2000 →
      ∀ fuel, w.m_Requests.length < fuel →
        ∃ w1, DoPulse host fuel w = Except.ok w1 ∧
          (w.calls.filter (isReissueOf pEntry.pModel)).length
            < (w1.calls.filter (isReissueOf pEntry.pModel)).length) := by
  have hstep := pulseLoop_retry_step host w i pEntry hi hl
  refine ⟨?_, ?_, ?_, ?_, ?_, ?_, ?_⟩
  · intro fuel hdue ha
    rw [hstep fuel, if_pos hdue, if_pos ha]
  · intro fuel hdue ha
    rw [hstep fuel, if_pos hdue, if_neg (by simp [ha])]
  · intro fuel hdue
    rw [hstep fuel, if_neg (by omega)]
  · intro fuel
    refine DoPulse_scan host fuel w ?_
    intro hnil
    rw [hnil] at hi
    simp at hi
  · intro t0 t he hu
    have hmin := Nat.min_le_left (t0 + 2000 - t.m_llUpdateTime) t.m_uiMaxIncrement
    simp only [CElapsedTime.Get]
    omega
  · intro m t0 hmono hfresh actions hact
    refine ⟨fun w1 hrun hb => ?_, fun hco => ?_⟩
    · exact ((run_window host hmono m t0 actions w w1 hact hrun).2 hfresh).2 hb
    · obtain ⟨w1, h1, _⟩ := run_keeps host hco actions w
      exact ⟨w1, h1⟩
  · intro hco hmono hnever hdue fuel hf
    exact DoPulse_reissues host hco hmono pEntry.pModel hnever w i pEntry hi rfl hdue fuel hf

/-- The instance of C12 for the slow host, in which loading is synchronous and a blocking
load takes 40 ticks, and for the quiet host, in which loading is asynchronous.  In
`slowState`, at tick count 300, the scan stands at the entry of entity 1, whose timer reads
2100.  On the slow host it makes the blocking request on model 1005 and resets the timer at
tick count 340; the request has loaded model 1005, so the same pulse then resolves the entry
of entity 2 instead of requesting its load again.  On the quiet host it makes the
non-blocking request, and the pulse makes another one for the entry of entity 2.  The timer
of the entry bound to model 1009, which never loads, is fresh since tick count 300: the
pulses of the slow host up to tick count 2300 make no load request on model 1009, and a pulse
at 2301 makes the blocking one. -/
theorem DoPulse_retry_cadence_witness :
    ({ slowState with m_bDoingPulse := true } : CClientModelRequestManager DemoGame).m_Requests[0]?
      = some { pModel := 1005, pEntity := 1,
               requestTimer :=
                 { m_llUpdateTime := 0, m_ullElapsedTime := 1800, m_uiMaxIncrement := 500 } } ∧
    slowHost.IsLoaded slowState.game 1005 = false ∧
    slowHost.IsASyncLoadingEnabled slowState.game = false ∧
    pulseLoop slowHost 4 { slowState with m_bDoingPulse := true } 0 =
      pulseLoop slowHost 3
        { m_Requests :=
            [{ pModel := 1005, pEntity := 1,
               requestTimer :=
                 { m_llUpdateTime := 340, m_ullElapsedTime := 0, m_uiMaxIncrement := 500 } },
             { pModel := 1005, pEntity := 2,
               requestTimer :=
                 { m_llUpdateTime := 0, m_ullElapsedTime := 1900, m_uiMaxIncrement := 500 } },
             { pModel := 1009, pEntity := 3,
               requestTimer :=
                 { m_llUpdateTime := 300, m_ullElapsedTime := 0, m_uiMaxIncrement := 500 } }]
          m_CancelQueue := []
          m_bDoingPulse := true
          game := { loaded := [1005], tick := 340 }
          calls := [Event.Request 1005 true "CClientModelRequestManager::DoPulse #2"] } 1 ∧
    DoPulse slowHost 4 slowState = Except.ok
      { m_Requests :=
          [{ pModel := 1005, pEntity := 1,
             requestTimer :=
               { m_llUpdateTime := 340, m_ullElapsedTime := 0, m_uiMaxIncrement := 500 } },
           { pModel := 1009, pEntity := 3,
             requestTimer :=
               { m_llUpdateTime := 340, m_ullElapsedTime := 40, m_uiMaxIncrement := 500 } }]
        m_CancelQueue := []
        m_bDoingPulse := false
        game := { loaded := [1005], tick := 340 }
        calls :=
          [Event.Request 1005 true "CClientModelRequestManager::DoPulse #2",
           Event.MakeCustomModel 1005, Event.ModelRequestCallback 2 1005,
           Event.RemoveRef 1005] } ∧
    quietHost.IsLoaded slowState.game 1005 = false ∧
    quietHost.IsASyncLoadingEnabled slowState.game = true ∧
    pulseLoop quietHost 4 { slowState with m_bDoingPulse := true } 0 =
      pulseLoop quietHost 3
        { m_Requests :=
            [{ pModel := 1005, pEntity := 1,
               requestTimer :=
                 { m_llUpdateTime := 300, m_ullElapsedTime := 0, m_uiMaxIncrement := 500 } },
             { pModel := 1005, pEntity := 2,
               requestTimer :=
                 { m_llUpdateTime := 0, m_ullElapsedTime := 1900, m_uiMaxIncrement := 500 } },
             { pModel := 1009, pEntity := 3,
               requestTimer :=
                 { m_llUpdateTime := 300, m_ullElapsedTime := 0, m_uiMaxIncrement := 500 } }]
          m_CancelQueue := []
          m_bDoingPulse := true
          game := { loaded := [], tick := 300 }
          calls := [Event.Request 1005 false "CClientModelRequestManager::DoPulse #1"] } 1 ∧
    DoPulse quietHost 4 slowState = Except.ok
      { m_Requests :=
          [{ pModel := 1005, pEntity := 1,
             requestTimer :=
               { m_llUpdateTime := 300, m_ullElapsedTime := 0, m_uiMaxIncrement := 500 } },
           { pModel := 1005, pEntity := 2,
             requestTimer :=
               { m_llUpdateTime := 300, m_ullElapsedTime := 0, m_uiMaxIncrement := 500 } },
           { pModel := 1009, pEntity := 3,
             requestTimer :=
               { m_llUpdateTime := 300, m_ullElapsedTime := 0, m_uiMaxIncrement := 500 } }]
        m_CancelQueue := []
        m_bDoingPulse := false
        game := { loaded := [], tick := 300 }
        calls :=
          [Event.Request 1005 false "CClientModelRequestManager::DoPulse #1",
           Event.Request 1005 false "CClientModelRequestManager::DoPulse #1"] } ∧
    slowHost.MonotoneClock ∧ slowHost.CancelOnly ∧ FreshSince slowHost 1009 300 slowState ∧
    (∀ s, slowHost.IsLoaded s 1009 = false) ∧
    (∀ w1, run slowHost (slowPulses ++ [Action.outside (advanceTo 2300), Action.DoPulse])
        slowState = Except.ok w1 →
      slowHost.GetTickCount w1.game ≤ 300 + 2000 →
      w1.calls.filter (isReissueOf 1009) = slowState.calls.filter (isReissueOf 1009)) ∧
    (∃ w1, run slowHost (slowPulses ++ [Action.outside (advanceTo 2300), Action.DoPulse])
        slowState = Except.ok w1 ∧
      w1.game.tick = 2300 ∧
      w1.m_Requests =
        [{ pModel := 1009, pEntity := 3,
           requestTimer :=
             { m_llUpdateTime := 2300, m_ullElapsedTime := 2000, m_uiMaxIncrement := 500 } }] ∧
      w1.calls =
        [Event.Request 1005 true "CClientModelRequestManager::DoPulse #2",
         Event.MakeCustomModel 1005, Event.ModelRequestCallback 2 1005, Event.RemoveRef 1005,
         Event.MakeCustomModel 1005, Event.ModelRequestCallback 1 1005,
         Event.RemoveRef 1005]) ∧
    (∃ w1, run slowHost (slowPulses ++ [Action.outside (advanceTo 2301), Action.DoPulse])
        slowState = Except.ok w1 ∧
      w1.game.tick = 2341 ∧
      w1.m_Requests =
        [{ pModel := 1009, pEntity := 3,
           requestTimer :=
             { m_llUpdateTime := 2341, m_ullElapsedTime := 0, m_uiMaxIncrement := 500 } }] ∧
      w1.calls.filter (isReissueOf 1009) =
        [Event.Request 1009 true "CClientModelRequestManager::DoPulse #2"]) ∧
    (∃ w1, DoPulse slowHost 2 overdueState = Except.ok w1 ∧
      (overdueState.calls.filter (isReissueOf 1009)).length
        < (w1.calls.filter (isReissueOf 1009)).length) ∧
    DoPulse slowHost 2 overdueState = Except.ok
      { m_Requests :=
          [{ pModel := 1009, pEntity := 3,
             requestTimer :=
               { m_llUpdateTime := 2341, m_ullElapsedTime := 0, m_uiMaxIncrement := 500 } }]
        m_CancelQueue := []
        m_bDoingPulse := false
        game := { loaded := [1009, 1005], tick := 2341 }
        calls := [Event.Request 1009 true "CClientModelRequestManager::DoPulse #2"] } :=
  ⟨rfl, rfl, rfl,
    (DoPulse_retry_cadence slowHost { slowState with m_bDoingPulse := true } 0
      { pModel := 1005, pEntity := 1,
        requestTimer :=
          { m_llUpdateTime := 0, m_ullElapsedTime := 1800, m_uiMaxIncrement := 500 } }
      rfl rfl).2.1 3 (by decide) rfl,
    rfl, rfl, rfl,
    (DoPulse_retry_cadence quietHost { slowState with m_bDoingPulse := true } 0
      { pModel := 1005, pEntity := 1,
        requestTimer :=
          { m_llUpdateTime := 0, m_ullElapsedTime := 1800, m_uiMaxIncrement := 500 } }
      rfl rfl).1 3 (by decide) rfl,
    rfl, slowHost_monotone, fun _ _ _ hc => by simp [slowHost] at hc, slowState_fresh,
    fun _ => by simp [slowHost],
    ((DoPulse_retry_cadence slowHost slowState 0
      { pModel := 1005, pEntity := 1,
        requestTimer :=
          { m_llUpdateTime := 0, m_ullElapsedTime := 1800, m_uiMaxIncrement := 500 } }
      rfl rfl).2.2.2.2.2.1 1009 300 slowHost_monotone slowState_fresh _
        (slowPulses_window 2300)).1,
    ⟨_, rfl, rfl, rfl, rfl⟩, ⟨_, rfl, rfl, rfl, rfl⟩,
    (DoPulse_retry_cadence slowHost overdueState 0
      { pModel := 1009, pEntity := 3,
        requestTimer :=
          { m_llUpdateTime := 2300, m_ullElapsedTime := 2000, m_uiMaxIncrement := 500 } }
      rfl rfl).2.2.2.2.2.2 (fun _ _ _ hc => by simp [slowHost] at hc) slowHost_monotone
        (fun _ => by simp [slowHost]) (by decide) 2 (by decide),
    rfl⟩

/-- C17: the code at an input on which the property fails.  Entity 1 asks for model 7,
models 7 and 5 get loaded, and in the pulse the callback of entity 1 asks for model 5 on
behalf of entity 1 (`rerequestHost`).  That `Request`, made in mid-scan, returns true after
`RemoveRef` on the old model and erases the entry the scan stands at, so the calls of the
callback leave the scan without its entry and `DoPulse` goes on with a deleted entry.  When
model 5 is not loaded, the same run completes with balanced calls, but the entry rebound to
model 5 is erased by the scan, although `Request` had returned false for it. -/
theorem DoPulse_reentrant_Request_fault :
    run rerequestHost
        [Action.Request 7 1, Action.outside (fun s => { s with loaded := [1007, 1005] })]
        (create { loaded := [], tick := 0 }) = Except.ok rerequestState ∧
    (Request rerequestHost
        (call rerequestHost
          (call rerequestHost { rerequestState with m_bDoingPulse := true }
            (Event.MakeCustomModel 1007))
          (Event.ModelRequestCallback 1 1007)) 5 1).1 = true ∧
    (Request rerequestHost
        (call rerequestHost
          (call rerequestHost { rerequestState with m_bDoingPulse := true }
            (Event.MakeCustomModel 1007))
          (Event.ModelRequestCallback 1 1007)) 5 1).2.m_Requests = [] ∧
    (Request rerequestHost
        (call rerequestHost
          (call rerequestHost { rerequestState with m_bDoingPulse := true }
            (Event.MakeCustomModel 1007))
          (Event.ModelRequestCallback 1 1007)) 5 1).2.calls =
      [Event.ModelAddRef 1007 false "CClientModelRequestManager::Request #2",
        Event.MakeCustomModel 1007, Event.ModelRequestCallback 1 1007,
        Event.RemoveRef 1007, Event.MakeCustomModel 1005] ∧
    reenter rerequestHost (rerequestHost.callback 1 1007)
        (call rerequestHost
          (call rerequestHost { rerequestState with m_bDoingPulse := true }
            (Event.MakeCustomModel 1007))
          (Event.ModelRequestCallback 1 1007)) 0 = none ∧
    DoPulse rerequestHost 2 rerequestState = Except.error Fault.useAfterFree ∧
    (∀ fuel, 0 < fuel → DoPulse rerequestHost fuel rerequestState
      = Except.error Fault.useAfterFree) ∧
    (∃ w1, run rerequestHost
        [Action.Request 7 1, Action.outside (fun s => { s with loaded := [1007] }),
          Action.DoPulse]
        (create { loaded := [], tick := 0 }) = Except.ok w1 ∧
      w1.m_Requests = [] ∧
      w1.calls =
        [Event.ModelAddRef 1007 false "CClientModelRequestManager::Request #2",
          Event.MakeCustomModel 1007, Event.ModelRequestCallback 1 1007,
          Event.RemoveRef 1007,
          Event.ModelAddRef 1005 false "CClientModelRequestManager::Request",
          Event.RemoveRef 1005] ∧
      HasRequested w1 1 = false) := by
  refine ⟨rfl, rfl, rfl, rfl, rfl, rfl, ?_, ⟨_, rfl, rfl, rfl, rfl⟩⟩
  intro fuel hfuel
  cases fuel with
  | zero => omega
  | succ n => rfl

end CClientModelRequestManager

end ModelRequest
